import Mathlib

/-!
Shallow embedding of the core of `retefa.py` (model-based diagnosis of a
network of communicating finite automata) and verification of the claims
of its specification.

Modelling conventions, chosen once and used consistently below:

* Python objects that are referenced from several places (nodes and edges of
  a behavioural space) live in append-only arenas (`heapN`, `heapA`); a
  reference is the arena index, which is stable across removals from the
  `nodi`/`archi` membership lists, exactly as a Python reference stays valid
  when an object is removed from a list.  `copy.deepcopy` of such a space is
  the identity on the value, because the whole space is a closed value here.
* Python `is` (reference identity) is arena-index equality; Python `==` on
  nodes is `nodoEq` below, the faithful translation of `Nodo.__eq__`.
* Python `set` iteration order is unspecified; everywhere the source builds
  `list(set(xs))` or joins a set, we use `dedupPrimo`, deduplication keeping
  the first occurrence, as the canonical deterministic choice.
* Loops whose termination is not structural take a `fuel : Nat` argument and
  return `none` when the fuel runs out (or when the Python code would raise
  an uncaught runtime exception such as an `IndexError`); all theorems about
  their results are conditioned on a `some` result.
* Lookups that would raise `AttributeError`/`ValueError` on malformed input
  (`cercaContenutoLink` returning `None`, `list.index` missing) are modelled
  as failure of the enclosing feasibility check / as the identity update;
  every theorem that relies on those spots carries well-formedness
  hypotheses under which the Python code cannot reach the exceptional case.
-/

namespace Retefa

/-- `Buffer` of `retefa.py`: the pairing of a link (referenced by arena
index of the link, i.e. its identity) with an event name. -/
structure Buffer where
  link : Nat
  evento : String
deriving DecidableEq, Repr

instance : Inhabited Buffer := ⟨⟨0, ""⟩⟩

/-- `Transizione` of `retefa.py`.  States are referenced by identity; state
identities are globally unique numbers here. -/
structure Transizione where
  nome : String
  stato0 : Nat
  stato1 : Nat
  eventoNecessario : Option Buffer
  eventiOutput : List Buffer
  osservabilita : String
  rilevanza : String
deriving DecidableEq, Repr

/-- `Comportamento` of `retefa.py`: list of state identities, the initial
state, and the transitions in declaration order. -/
structure Comportamento where
  nome : String
  stati : List Nat
  statoIniziale : Nat
  transizioni : List Transizione
deriving DecidableEq, Repr

/-- `ReteFA` of `retefa.py`: behaviours plus the links (by identity). -/
structure ReteFA where
  comportamenti : List Comportamento
  links : List Nat
deriving DecidableEq, Repr

/-- `Stato.transizioniUscenti` as compiled by step 8 of `ReteFA.fromXML`:
the transitions of the network whose `stato0` is the given state, in
behaviour order then declaration order. -/
def transizioniUscenti (rete : ReteFA) (s : Nat) : List Transizione :=
  (rete.comportamenti.map (fun c => c.transizioni.filter (fun t => t.stato0 == s))).flatten

/-- `Nodo` of `retefa.py`.  `nome = None` is modelled as `""`; `archiUscenti`
holds arena indices of edges. -/
structure Nodo where
  nome : String
  stati : List Nat
  contenutoLink : List Buffer
  isPotato : Bool
  isFinale : Bool
  indiceOsservazione : Nat
  archiUscenti : List Nat
deriving DecidableEq, Repr

instance : Inhabited Nodo := ⟨⟨"", [], [], true, false, 0, []⟩⟩

/-- Equality of two lists viewed as sets (`set(xs) == set(ys)` in Python). -/
def setEqList [BEq α] (xs ys : List α) : Bool :=
  xs.all (fun x => ys.contains x) && ys.all (fun y => xs.contains y)

/-- `Nodo.__eq__`: value equality on observation index, acceptance flag and
the state / buffer content lists viewed as sets.  `nome`, `isPotato` and the
adjacency list do not participate. -/
def nodoEq (a b : Nodo) : Bool :=
  a.indiceOsservazione == b.indiceOsservazione
    && a.isFinale == b.isFinale
    && setEqList a.stati b.stati
    && setEqList a.contenutoLink b.contenutoLink

/-- `Nodo.clone`: copies name, states, buffer contents and the two flags;
the adjacency list and the observation index are left at their `Nodo()`
defaults (`[]` and `0`). -/
def Nodo.clone (n : Nodo) : Nodo :=
  { nome := n.nome, stati := n.stati, contenutoLink := n.contenutoLink,
    isPotato := n.isPotato, isFinale := n.isFinale,
    indiceOsservazione := 0, archiUscenti := [] }

/-- `Nodo.cercaContenutoLink`: first buffer of the list with the given link
(`None` when absent). -/
def cercaContenutoLink (bufs : List Buffer) (link : Nat) : Option Buffer :=
  bufs.find? (fun b => b.link == link)

/-- In-place update of the buffer found by `cercaContenutoLink`: the first
buffer with the given link gets the given event. -/
def setContenutoLink (bufs : List Buffer) (link : Nat) (ev : String) : List Buffer :=
  match bufs with
  | [] => []
  | b :: rest =>
      if b.link == link then { b with evento := ev } :: rest
      else b :: setContenutoLink rest link ev

/-- `nodoOutput.stati[nodoOutput.stati.index(stato0)] = stato1`: replace the
first occurrence of `vecchio` by `nuovo` (identity when absent, a case the
Python code would reach only by raising `ValueError`). -/
def sostituisciPrimo (xs : List Nat) (vecchio nuovo : Nat) : List Nat :=
  match xs with
  | [] => []
  | x :: rest =>
      if x = vecchio then nuovo :: rest
      else x :: sostituisciPrimo rest vecchio nuovo

/-- Step 2 of `Nodo.verificaFattibilitaTransizione`: the output events are
processed in order; each event requires the (current) buffer of its link to
be empty and then writes its name into that buffer. -/
def processaEventiOutput (bufs : List Buffer) : List Buffer → Option (List Buffer)
  | [] => some bufs
  | eo :: rest =>
      match cercaContenutoLink bufs eo.link with
      | none => none
      | some b =>
          if b.evento ≠ "" then none
          else processaEventiOutput (setContenutoLink bufs eo.link eo.evento) rest

/-- `Nodo.verificaFattibilitaTransizione`: clone the node; consume the
required event if present (fail when the buffer content differs); process
the output events in order; replace the source state by the target state;
recompute the acceptance flag as "all buffers empty". -/
def verificaFattibilitaTransizione (self : Nodo) (t : Transizione) : Option Nodo :=
  let nodoOutput := self.clone
  let bufs0 : Option (List Buffer) :=
    match t.eventoNecessario with
    | none => some nodoOutput.contenutoLink
    | some en =>
        match cercaContenutoLink nodoOutput.contenutoLink en.link with
        | none => none
        | some b =>
            if b.evento = en.evento then
              some (setContenutoLink nodoOutput.contenutoLink en.link "")
            else none
  match bufs0 with
  | none => none
  | some bufs1 =>
      match processaEventiOutput bufs1 t.eventiOutput with
      | none => none
      | some bufs2 =>
          some { nodoOutput with
                 stati := sostituisciPrimo nodoOutput.stati t.stato0 t.stato1,
                 contenutoLink := bufs2,
                 isFinale := bufs2.all (fun b => b.evento == "") }

/-- `Arco` of `retefa.py`: an edge between two nodes (by arena index), the
optional originating transition, the prune flag and the two labels.  A fresh
`Arco` has `isPotato = true`. -/
structure Arco where
  nodo0 : Nat
  nodo1 : Nat
  transizione : Option Transizione
  isPotato : Bool
  rilevanza : String
  osservabilita : String
deriving DecidableEq, Repr

instance : Inhabited Arco := ⟨⟨0, 0, none, true, "", ""⟩⟩

/-- `SpazioComportamentale` of `retefa.py`.  `heapN`/`heapA` are the arenas
of all node / edge objects ever created; `nodi` and `archi` are the
membership lists (`self.nodi`, `self.archi`), holding arena indices.
`nodoIniziale` is `none` while the Python attribute does not point into the
space (fresh object or `None`). -/
structure SpazioComportamentale where
  heapN : List Nodo
  heapA : List Arco
  nodi : List Nat
  archi : List Nat
  nodoIniziale : Option Nat
deriving DecidableEq, Repr

/-- Dereference a node. -/
def SpazioComportamentale.getN (sc : SpazioComportamentale) (i : Nat) : Nodo :=
  sc.heapN.getD i default

/-- Overwrite a node in the arena (mutation through a reference). -/
def SpazioComportamentale.setN (sc : SpazioComportamentale) (i : Nat) (n : Nodo) :
    SpazioComportamentale :=
  { sc with heapN := sc.heapN.set i n }

/-- Dereference an edge. -/
def SpazioComportamentale.getA (sc : SpazioComportamentale) (i : Nat) : Arco :=
  sc.heapA.getD i default

/-- Overwrite an edge in the arena (mutation through a reference). -/
def SpazioComportamentale.setA (sc : SpazioComportamentale) (i : Nat) (a : Arco) :
    SpazioComportamentale :=
  { sc with heapA := sc.heapA.set i a }

/-- Allocation of a new node object followed by
`SpazioComportamentale.addNodo`; returns the space and the reference. -/
def SpazioComportamentale.addNodo (sc : SpazioComportamentale) (n : Nodo) :
    SpazioComportamentale × Nat :=
  (⟨sc.heapN ++ [n], sc.heapA, sc.nodi ++ [sc.heapN.length], sc.archi, sc.nodoIniziale⟩,
   sc.heapN.length)

/-- `SpazioComportamentale.addArco`: allocate the edge, append it to
`archi`, and append it to the adjacency list of its source node. -/
def SpazioComportamentale.addArco (sc : SpazioComportamentale) (a : Arco) :
    SpazioComportamentale :=
  let eid := sc.heapA.length
  let sc1 : SpazioComportamentale :=
    { sc with heapA := sc.heapA ++ [a], archi := sc.archi ++ [eid] }
  let n0 := sc1.getN a.nodo0
  sc1.setN a.nodo0 { n0 with archiUscenti := n0.archiUscenti ++ [eid] }

/-- `SpazioComportamentale.ricercaNodo`: first node of `nodi` equal (in the
sense of `Nodo.__eq__`) to the given node value. -/
def SpazioComportamentale.ricercaNodo (sc : SpazioComportamentale) (n : Nodo) : Option Nat :=
  sc.nodi.find? (fun i => nodoEq (sc.getN i) n)

/-- `SpazioComportamentale.creaNodoIniziale`: the initial states of all
behaviours, an empty buffer per link, acceptance flag set. -/
def creaNodoIniziale (rete : ReteFA) : Nodo :=
  { nome := "", stati := rete.comportamenti.map (fun c => c.statoIniziale),
    contenutoLink := rete.links.map (fun l => ⟨l, ""⟩),
    isPotato := true, isFinale := true, indiceOsservazione := 0, archiUscenti := [] }

/-- One transition attempt of the unfiltered builder: fire, search the space
for the resulting node by value, add node (pushing it on the exploration
stack) and always add the edge when firing succeeded. -/
def esploraTransizione (sc : SpazioComportamentale) (stack : List Nat) (nodoCorr : Nat)
    (trans : Transizione) : SpazioComportamentale × List Nat :=
  match verificaFattibilitaTransizione (sc.getN nodoCorr) trans with
  | none => (sc, stack)
  | some nodoSucc =>
      match sc.ricercaNodo nodoSucc with
      | some rif =>
          (sc.addArco ⟨nodoCorr, rif, some trans, true, trans.rilevanza, trans.osservabilita⟩,
           stack)
      | none =>
          let r := sc.addNodo nodoSucc
          (r.1.addArco ⟨nodoCorr, r.2, some trans, true, trans.rilevanza, trans.osservabilita⟩,
           r.2 :: stack)

/-- The two nested `for` loops of `creaSpazioComportamentale` processing one
popped node: every outgoing transition of every current state. -/
def processaNodo (rete : ReteFA) (sc : SpazioComportamentale) (stack : List Nat)
    (nodoCorr : Nat) : SpazioComportamentale × List Nat :=
  (sc.getN nodoCorr).stati.foldl
    (fun acc s =>
      (transizioniUscenti rete s).foldl
        (fun acc2 t => esploraTransizione acc2.1 acc2.2 nodoCorr t) acc)
    (sc, stack)

/-- The `while` loop of `creaSpazioComportamentale` (fuelled). -/
def cicloCreaSpazio (rete : ReteFA) :
    Nat → SpazioComportamentale → Nat → List Nat → Option SpazioComportamentale
  | 0, _, _, _ => none
  | fuel + 1, sc, nodoCorr, stack =>
      let r := processaNodo rete sc stack nodoCorr
      match r.2 with
      | [] => some r.1
      | n :: rest => cicloCreaSpazio rete fuel r.1 n rest

/-- `SpazioComportamentale.creaSpazioComportamentale`: build the initial
node, then explore depth-first. -/
def creaSpazioComportamentale (rete : ReteFA) (fuel : Nat) : Option SpazioComportamentale :=
  let vuoto : SpazioComportamentale := ⟨[], [], [], [], none⟩
  let r := vuoto.addNodo (creaNodoIniziale rete)
  let sc0 := { r.1 with nodoIniziale := some r.2 }
  cicloCreaSpazio rete fuel sc0 r.2 []

/-- Deduplication keeping the first occurrence: the canonical deterministic
replacement for Python `list(set(xs))` / set iteration. -/
def dedupPrimo [BEq α] (xs : List α) : List α :=
  xs.foldl (fun acc x => if acc.contains x then acc else acc ++ [x]) []

/-- Is some transition of the network labelled with this observability
label? -/
def esisteEtichetta (rete : ReteFA) (etichetta : String) : Bool :=
  rete.comportamenti.any (fun c => c.transizioni.any (fun t => t.osservabilita == etichetta))

/-- Loop of `ReteFA.verificaOsservazioneLineare` over the distinct labels;
the error carries the first offending label. -/
def verificaOsservazioneLineareAux (rete : ReteFA) : List String → Except String Unit
  | [] => Except.ok ()
  | e :: rest =>
      if esisteEtichetta rete e then verificaOsservazioneLineareAux rete rest
      else Except.error e

/-- `ReteFA.verificaOsservazioneLineare`: every distinct label of the linear
observation must be the observability label of some transition, else
`ValueError` (the `ObservationIncompatible` error of the specification). -/
def verificaOsservazioneLineare (rete : ReteFA) (ol : List String) : Except String Unit :=
  verificaOsservazioneLineareAux rete (dedupPrimo ol)

/-- One transition attempt of the observation-filtered builder: the filter
admits silent transitions and transitions carrying the next expected label;
the successor gets the updated observation index and acceptance flag before
deduplication. -/
def esploraTransizioneOL (ol : List String) (sc : SpazioComportamentale) (stack : List Nat)
    (nodoCorr : Nat) (trans : Transizione) : SpazioComportamentale × List Nat :=
  let idxCorr := (sc.getN nodoCorr).indiceOsservazione
  if trans.osservabilita = "" ∨
      (idxCorr < ol.length ∧ ol.getD idxCorr "" = trans.osservabilita) then
    match verificaFattibilitaTransizione (sc.getN nodoCorr) trans with
    | none => (sc, stack)
    | some n1 =>
        let idx1 := if trans.osservabilita = "" then idxCorr else idxCorr + 1
        let nodoSucc :=
          { n1 with indiceOsservazione := idx1,
                    isFinale := n1.isFinale && (idx1 == ol.length) }
        match sc.ricercaNodo nodoSucc with
        | some rif =>
            (sc.addArco ⟨nodoCorr, rif, some trans, true, trans.rilevanza, trans.osservabilita⟩,
             stack)
        | none =>
            let r := sc.addNodo nodoSucc
            (r.1.addArco ⟨nodoCorr, r.2, some trans, true, trans.rilevanza, trans.osservabilita⟩,
             r.2 :: stack)
  else (sc, stack)

/-- The two nested `for` loops of the observation-filtered builder. -/
def processaNodoOL (rete : ReteFA) (ol : List String) (sc : SpazioComportamentale)
    (stack : List Nat) (nodoCorr : Nat) : SpazioComportamentale × List Nat :=
  (sc.getN nodoCorr).stati.foldl
    (fun acc s =>
      (transizioniUscenti rete s).foldl
        (fun acc2 t => esploraTransizioneOL ol acc2.1 acc2.2 nodoCorr t) acc)
    (sc, stack)

/-- The `while` loop of the observation-filtered builder (fuelled). -/
def cicloCreaSpazioOL (rete : ReteFA) (ol : List String) :
    Nat → SpazioComportamentale → Nat → List Nat → Option SpazioComportamentale
  | 0, _, _, _ => none
  | fuel + 1, sc, nodoCorr, stack =>
      let r := processaNodoOL rete ol sc stack nodoCorr
      match r.2 with
      | [] => some r.1
      | n :: rest => cicloCreaSpazioOL rete ol fuel r.1 n rest

/-- `SpazioComportamentale.creaSpazioComportamentaleOsservazioneLineare`:
check the observation first (raising `ObservationIncompatible` before any
node is built), then explore as the unfiltered builder under the filter.
The outer `Except` is the pre-check error; the inner `Option` is fuel. -/
def creaSpazioComportamentaleOL (rete : ReteFA) (ol : List String) (fuel : Nat) :
    Except String (Option SpazioComportamentale) :=
  match verificaOsservazioneLineare rete ol with
  | Except.error e => Except.error e
  | Except.ok _ =>
      let ni0 := creaNodoIniziale rete
      let ni := { ni0 with isFinale := ni0.isFinale && (0 == ol.length) }
      let vuoto : SpazioComportamentale := ⟨[], [], [], [], none⟩
      let r := vuoto.addNodo ni
      let sc0 := { r.1 with nodoIniziale := some r.2 }
      Except.ok (cicloCreaSpazioOL rete ol fuel sc0 r.2 [])

/-- `SpazioComportamentale.setAllIsPotato`: set the prune flag of every edge
of `archi` and every node of `nodi`. -/
def setAllIsPotato (sc : SpazioComportamentale) (b : Bool) : SpazioComportamentale :=
  let sc1 := sc.archi.foldl (fun s eid => s.setA eid { s.getA eid with isPotato := b }) sc
  sc.nodi.foldl (fun s nid => s.setN nid { s.getN nid with isPotato := b }) sc1

/-- One scan of the inner loop of `decidiPotatura`: mark the current node as
kept; for every edge whose target equals (by `Nodo.__eq__`) the current
node, mark the edge kept and push it when its source is still to prune. -/
def scansionePotatura (sc : SpazioComportamentale) (nodoCorrente : Nat) (stack : List Nat) :
    SpazioComportamentale × List Nat :=
  let sc1 := sc.setN nodoCorrente { sc.getN nodoCorrente with isPotato := false }
  sc1.archi.foldl
    (fun acc eid =>
      let s := acc.1
      let a := s.getA eid
      if nodoEq (s.getN a.nodo1) (s.getN nodoCorrente) then
        let s1 := s.setA eid { a with isPotato := false }
        if (s1.getN a.nodo0).isPotato then (s1, eid :: acc.2) else (s1, acc.2)
      else acc)
    (sc1, stack)

/-- The inner backward walk of `decidiPotatura` (fuelled): scan, then pop
the next edge and continue from its source. -/
def cicloInternoPotatura :
    Nat → SpazioComportamentale → Nat → List Nat → Option SpazioComportamentale
  | 0, _, _, _ => none
  | fuel + 1, sc, nodoCorrente, stack =>
      let r := scansionePotatura sc nodoCorrente stack
      match r.2 with
      | [] => some r.1
      | eid :: rest => cicloInternoPotatura fuel r.1 (r.1.getA eid).nodo0 rest

/-- The outer loop of `decidiPotatura` over the node list, seeding a
backward walk at every acceptance node still marked to prune. -/
def cicloEsternoPotatura (fuel : Nat) :
    SpazioComportamentale → List Nat → Option SpazioComportamentale
  | sc, [] => some sc
  | sc, nid :: rest =>
      let n := sc.getN nid
      if n.isFinale && n.isPotato then
        match cicloInternoPotatura fuel sc nid [] with
        | none => none
        | some sc1 => cicloEsternoPotatura fuel sc1 rest
      else cicloEsternoPotatura fuel sc rest

/-- `SpazioComportamentale.decidiPotatura`: flag everything to prune, then
walk backwards from every acceptance node. -/
def decidiPotatura (sc : SpazioComportamentale) (fuel : Nat) :
    Option SpazioComportamentale :=
  let sc0 := setAllIsPotato sc true
  cicloEsternoPotatura fuel sc0 sc0.nodi

/-- `SpazioComportamentale.potaturaArchi`: drop the flagged edges from
`archi` and from the adjacency list of every node of `nodi`. -/
def potaturaArchi (sc : SpazioComportamentale) : SpazioComportamentale :=
  let sc1 := { sc with archi := sc.archi.filter (fun eid => !(sc.getA eid).isPotato) }
  sc1.nodi.foldl
    (fun s nid =>
      let n := s.getN nid
      s.setN nid
        { n with archiUscenti := n.archiUscenti.filter (fun eid => !(s.getA eid).isPotato) })
    sc1

/-- `SpazioComportamentale.potatura`: flag every edge incident (by identity)
to a flagged node, drop the flagged nodes from `nodi`, then
`potaturaArchi`. -/
def potatura (sc : SpazioComportamentale) : SpazioComportamentale :=
  let sc1 := sc.nodi.foldl
    (fun s nid =>
      if (s.getN nid).isPotato then
        s.archi.foldl
          (fun s2 eid =>
            let a := s2.getA eid
            if a.nodo0 = nid ∨ a.nodo1 = nid then s2.setA eid { a with isPotato := true }
            else s2)
          s
      else s)
    sc
  let sc2 := { sc1 with nodi := sc1.nodi.filter (fun nid => !(sc1.getN nid).isPotato) }
  potaturaArchi sc2

/-- The renaming pass of `potaturaRidenominazione`: the surviving nodes get
the names "0", "1", "2", … in list order. -/
def rinominaNodi (sc : SpazioComportamentale) : SpazioComportamentale :=
  (sc.nodi.foldl
    (fun (acc : SpazioComportamentale × Nat) nid =>
      (acc.1.setN nid { acc.1.getN nid with nome := toString acc.2 }, acc.2 + 1))
    (sc, 0)).1

/-- `SpazioComportamentale.potaturaRidenominazione`: raise `ValueError` (the
`EmptySpace` error) when the node list or the edge list is empty, decide
and perform the pruning, rename, re-resolve the initial node by value, and
raise again when the node list or the edge list became empty. -/
def potaturaRidenominazione (sc : SpazioComportamentale) (fuel : Nat) :
    Option (Except Unit SpazioComportamentale) :=
  if sc.nodi.isEmpty || sc.archi.isEmpty then some (Except.error ()) else
  match decidiPotatura sc fuel with
  | none => none
  | some sc1 =>
      let sc2 := potatura sc1
      let sc3 := rinominaNodi sc2
      let sc4 := { sc3 with
                   nodoIniziale := sc3.nodoIniziale.bind
                     (fun i => sc3.ricercaNodo (sc3.getN i)) }
      if sc4.nodi.isEmpty || sc4.archi.isEmpty then some (Except.error ())
      else some (Except.ok sc4)

/-- State of the character scan of `estraiAlternative`: parenthesis depth
(an integer in Python), current buffer, alternatives collected so far. -/
def passoEstrai (st : Int × String × List String) (c : Char) : Int × String × List String :=
  if c = '|' ∧ st.1 = 0 then (st.1, "", st.2.2 ++ [st.2.1])
  else if c = '(' then (st.1 + 1, st.2.1.push c, st.2.2)
  else if c = ')' then (st.1 - 1, st.2.1.push c, st.2.2)
  else (st.1, st.2.1.push c, st.2.2)

/-- `SpazioComportamentale.estraiAlternative`: split at the `|` characters
at parenthesis depth 0; `""` and `"ε"` give `["ε"]`; a non-empty residual
buffer is appended; duplicates are removed. -/
def estraiAlternative (expreg : String) : List String :=
  if expreg = "" ∨ expreg = "ε" then ["ε"]
  else
    let fin := expreg.toList.foldl passoEstrai (0, "", [])
    dedupPrimo (if fin.2.1 ≠ "" then fin.2.2 ++ [fin.2.1] else fin.2.2)

/-- Recombination step shared by the regex algebra: a singleton alternative
`"ε"` becomes `""`, any other singleton is returned as is, several
alternatives are joined with `|`. -/
def ricomponiAlternative (alternative : List String) : String :=
  match alternative with
  | [unica] => if unica = "ε" then "" else unica
  | _ => String.intercalate "|" alternative

/-- `SpazioComportamentale.concatenaRilevanza`: distribute concatenation
over the top-level alternatives of both arguments, treating `"ε"` as the
empty string and putting `"ε"` back for an empty product. -/
def concatenaRilevanza (base aggiunta : String) : String :=
  let altBase := estraiAlternative base
  let altAggiunta := estraiAlternative aggiunta
  let alternative := altBase.foldl
    (fun acc ab =>
      let ab1 := if ab = "ε" then "" else ab
      altAggiunta.foldl
        (fun acc2 aa =>
          let aa1 := if aa = "ε" then "" else aa
          let res := ab1 ++ aa1
          acc2 ++ [if res = "" then "ε" else res])
        acc)
    []
  ricomponiAlternative (dedupPrimo alternative)

/-- `SpazioComportamentale.alternativaRilevanza`: the union of the top-level
alternatives of the two arguments, recombined. -/
def alternativaRilevanza (base aggiunta : String) : String :=
  ricomponiAlternative (dedupPrimo (estraiAlternative base ++ estraiAlternative aggiunta))

/-- `SpazioComportamentale.componiStrRilevanzaSerie` on the relevance labels
of a series: left fold of `concatenaRilevanza` starting from `""`. -/
def componiStrRilevanzaSerie (rilevanze : List String) : String :=
  rilevanze.foldl concatenaRilevanza ""

/-- `SpazioComportamentale.componiStrRilevanzaParallelo` on the relevance
labels of a parallel bundle: a single edge keeps its label, otherwise the
union of all alternatives, recombined. -/
def componiStrRilevanzaParallelo (rilevanze : List String) : String :=
  match rilevanze with
  | [unica] => unica
  | _ => ricomponiAlternative (dedupPrimo (rilevanze.map estraiAlternative).flatten)

/-- `SpazioComportamentale.componiStrRilevanzaNodoIntermedio` on the labels
of the incoming edge, the optional self-loop and the outgoing edge: the
self-loop becomes `(r)*` unless empty, and is inserted between every pair
of alternatives of the other two labels. -/
def componiStrRilevanzaNodoIntermedio (entrante : Option String) (cappio : Option String)
    (uscente : Option String) : String :=
  let altEntrante := match entrante with
    | some r => estraiAlternative r
    | none => []
  let rilCappio := match cappio with
    | some r => if r ≠ "" ∧ r ≠ "ε" then "(" ++ r ++ ")*" else ""
    | none => ""
  let altUscente := match uscente with
    | some r => estraiAlternative r
    | none => []
  let alternative := altEntrante.foldl
    (fun acc ae =>
      let ae1 := if ae = "ε" then "" else ae
      altUscente.foldl
        (fun acc2 au =>
          let au1 := if au = "ε" then "" else au
          let res := ae1 ++ rilCappio ++ au1
          acc2 ++ [if res = "" then "ε" else res])
        acc)
    []
  ricomponiAlternative (dedupPrimo alternative)

/-- Number of edges of `archi` entering the given node (by identity).  The
source counts with an early break at 2, but only compares the result with
1, so the full count is equivalent. -/
def contaArchiEntranti (sc : SpazioComportamentale) (nid : Nat) : Nat :=
  (sc.archi.filter (fun eid => (sc.getA eid).nodo1 == nid)).length

/-- The inner `while` of `trovaSerieArchi`: extend the forced chain while
the target of the current edge has exactly one outgoing and one incoming
edge; on a node with several incoming edges the current edge still joins
the chain; on a node with several (or zero) outgoing edges the current edge
joins only a non-empty chain.  Fuelled: `none` models the non-termination
of the source on a cycle of one-in/one-out nodes. -/
def seguiCatena : Nat → SpazioComportamentale → Nat → List Nat → Option (List Nat)
  | 0, _, _, _ => none
  | fuel + 1, sc, t, seq =>
      let a := sc.getA t
      let n1 := sc.getN a.nodo1
      if n1.archiUscenti.length = 1 then
        if contaArchiEntranti sc a.nodo1 = 1 then
          seguiCatena fuel sc (n1.archiUscenti.headD 0) (seq ++ [t])
        else some (seq ++ [t])
      else if seq.isEmpty then some seq else some (seq ++ [t])

/-- The loop of `trovaSerieArchi` over all candidate starting edges: the
first chain of length at least 2 wins. -/
def trovaSerieArchiAux (sc : SpazioComportamentale) (fuelChain : Nat) :
    List Nat → Option (List Nat)
  | [] => some []
  | t :: rest =>
      match seguiCatena fuelChain sc t [] with
      | none => none
      | some seq =>
          if 2 ≤ seq.length then some seq else trovaSerieArchiAux sc fuelChain rest

/-- `SpazioComportamentale.trovaSerieArchi`: scan the outgoing edges of the
nodes in list order for a forced series. -/
def trovaSerieArchi (sc : SpazioComportamentale) (fuelChain : Nat) : Option (List Nat) :=
  trovaSerieArchiAux sc fuelChain (sc.nodi.map (fun nid => (sc.getN nid).archiUscenti)).flatten

/-- The scan of one node's adjacency in `trovaParalleloArchi`: observed
targets are compared by value (`in` uses `Nodo.__eq__`), the bundle is then
compiled by identity. -/
def trovaParalleloNelNodoAux (sc : SpazioComportamentale) (archiNodo : List Nat) :
    List Nat → List Nat → List Nat
  | [], _ => []
  | eid :: rest, osservati =>
      let a := sc.getA eid
      if osservati.any (fun oid => nodoEq (sc.getN oid) (sc.getN a.nodo1)) then
        archiNodo.filter (fun bid => (sc.getA bid).nodo1 == a.nodo1)
      else trovaParalleloNelNodoAux sc archiNodo rest (osservati ++ [a.nodo1])

/-- The outer loop of `trovaParalleloArchi` over the node list. -/
def trovaParalleloArchiAux (sc : SpazioComportamentale) : List Nat → List Nat
  | [] => []
  | nid :: rest =>
      let archiNodo := (sc.getN nid).archiUscenti
      let p := trovaParalleloNelNodoAux sc archiNodo archiNodo []
      if p.isEmpty then trovaParalleloArchiAux sc rest else p

/-- `SpazioComportamentale.trovaParalleloArchi`: first parallel bundle of
edges between two nodes. -/
def trovaParalleloArchi (sc : SpazioComportamentale) : List Nat :=
  trovaParalleloArchiAux sc sc.nodi

/-- The series rewrite of `espressioneRegolare`: concatenate the labels,
prune the chain's edges and interior nodes, add the replacing edge. -/
def passoSerie (scN : SpazioComportamentale) (serie : List Nat) : SpazioComportamentale :=
  let nodoInizio := (scN.getA (serie.headD 0)).nodo0
  let nodoFine := (scN.getA (serie.getLastD 0)).nodo1
  let strRil := componiStrRilevanzaSerie (serie.map (fun eid => (scN.getA eid).rilevanza))
  let scA := setAllIsPotato scN false
  let scB := serie.foldl
    (fun s eid =>
      let s1 := s.setA eid { s.getA eid with isPotato := true }
      let a := s1.getA eid
      if a.nodo1 ≠ nodoFine then s1.setN a.nodo1 { s1.getN a.nodo1 with isPotato := true }
      else s1)
    scA
  (potatura scB).addArco ⟨nodoInizio, nodoFine, none, true, strRil, ""⟩

/-- The parallel rewrite of `espressioneRegolare`: alternate the labels,
flag the bundle, add the replacing edge, drop the flagged edges. -/
def passoParallelo (scN : SpazioComportamentale) (parallelo : List Nat) :
    SpazioComportamentale :=
  let scA := setAllIsPotato scN false
  let strRil :=
    componiStrRilevanzaParallelo (parallelo.map (fun eid => (scA.getA eid).rilevanza))
  let scB := parallelo.foldl (fun s eid => s.setA eid { s.getA eid with isPotato := true }) scA
  let a0 := scB.getA (parallelo.headD 0)
  potaturaArchi (scB.addArco ⟨a0.nodo0, a0.nodo1, none, false, strRil, ""⟩)

/-- The intermediate-node rewrite of `espressioneRegolare`: for the chosen
node, find its (first) self-loop, connect every incoming edge to every
outgoing edge with the distributed label, then prune the node with all its
incident edges.  The source iterates the live edge list while appending;
the appended edges never target the chosen node, so iterating a snapshot is
equivalent. -/
def passoNodoIntermedio (scA : SpazioComportamentale) (nid : Nat) : SpazioComportamentale :=
  let cappio := (scA.getN nid).archiUscenti.find? (fun k => (scA.getA k).nodo1 == nid)
  let scB := scA.setN nid { scA.getN nid with isPotato := true }
  let entranti := scB.archi.filter
    (fun eid => (scB.getA eid).nodo1 == nid && (scB.getA eid).nodo0 != nid)
  let uscenti := (scB.getN nid).archiUscenti.filter (fun eid => (scB.getA eid).nodo1 != nid)
  let scC := entranti.foldl
    (fun s ein =>
      uscenti.foldl
        (fun s2 eout =>
          let strFin := componiStrRilevanzaNodoIntermedio
            (some (s2.getA ein).rilevanza)
            (cappio.map (fun k => (s2.getA k).rilevanza))
            (some (s2.getA eout).rilevanza)
          s2.addArco ⟨(s2.getA ein).nodo0, (s2.getA eout).nodo1, none, false, strFin, ""⟩)
        s)
    scB
  potatura scC

/-- The reduction loop of `espressioneRegolare`: while more than one edge
remains, prefer a series, else a parallel bundle, else eliminate an
intermediate node (when none exists the body does nothing and the source
loops forever — fuel runs out). -/
def cicloEspressioneRegolare (fuelChain : Nat) (n0 : Option Nat) (nq : Nat) :
    Nat → SpazioComportamentale → Option SpazioComportamentale
  | 0, _ => none
  | fuel + 1, scN =>
      if scN.archi.length ≤ 1 then some scN else
      match trovaSerieArchi scN fuelChain with
      | none => none
      | some serie =>
          match serie with
          | _ :: _ => cicloEspressioneRegolare fuelChain n0 nq fuel (passoSerie scN serie)
          | [] =>
              match trovaParalleloArchi scN with
              | p0 :: resto =>
                  cicloEspressioneRegolare fuelChain n0 nq fuel
                    (passoParallelo scN (p0 :: resto))
              | [] =>
                  let scA := setAllIsPotato scN false
                  match scA.nodi.find? (fun nid => !(n0 == some nid) && !(nid == nq)) with
                  | none => cicloEspressioneRegolare fuelChain n0 nq fuel scA
                  | some nid =>
                      cicloEspressioneRegolare fuelChain n0 nq fuel (passoNodoIntermedio scA nid)

/-- A fresh `Nodo()` with the given name and flags, as built for `n0` and
`nq` in the two extractors. -/
def nodoFresco (nome : String) (isFinale : Bool) : Nodo :=
  { nome := nome, stati := [], contenutoLink := [], isPotato := false,
    isFinale := isFinale, indiceOsservazione := 0, archiUscenti := [] }

/-- Normalization of `espressioneRegolare`: a fresh source `n0` when the
initial node has an incoming edge; a fresh accepting sink `nq` (with an
epsilon edge from every acceptance node, whose flags are cleared) unless
there is a single acceptance node without outgoing edges.  Returns the
space, `n0` and `nq`; `none` models the `IndexError` raised when no
acceptance node exists. -/
def normalizzaEspressioneRegolare (scN : SpazioComportamentale) :
    Option (SpazioComportamentale × Option Nat × Nat) :=
  let esisteEntrante := scN.archi.any (fun eid => some (scN.getA eid).nodo1 == scN.nodoIniziale)
  let r1 :=
    if esisteEntrante then
      let r := scN.addNodo (nodoFresco "n0" false)
      (r.1.addArco ⟨r.2, scN.nodoIniziale.getD 0, none, false, "", ""⟩, some r.2)
    else (scN, scN.nodoIniziale)
  let scN1 := r1.1
  let n0 := r1.2
  let statiAccettazione := scN1.nodi.filter (fun nid => (scN1.getN nid).isFinale)
  if 1 < statiAccettazione.length ∨
      (statiAccettazione.length = 1 ∧
        1 ≤ (scN1.getN (statiAccettazione.headD 0)).archiUscenti.length) then
    let scN2 := statiAccettazione.foldl
      (fun s nid => s.setN nid { s.getN nid with isFinale := false }) scN1
    let r := scN2.addNodo (nodoFresco "nq" true)
    let scN3 := statiAccettazione.foldl
      (fun s nid => s.addArco ⟨nid, r.2, none, false, "", ""⟩) r.1
    some (scN3, n0, r.2)
  else
    match statiAccettazione with
    | [unico] => some (scN1, n0, unico)
    | _ => none

/-- `SpazioComportamentale.espressioneRegolare`: normalize (on the deep
copy, which is the value itself), run the reduction loop, and return the
relevance label of the single remaining edge (`none` on an uncaught
exception or exhausted fuel). -/
def espressioneRegolare (sc : SpazioComportamentale) (fuel fuelChain : Nat) : Option String :=
  match normalizzaEspressioneRegolare sc with
  | none => none
  | some (scN, n0, nq) =>
      match cicloEspressioneRegolare fuelChain n0 nq fuel scN with
      | none => none
      | some scF =>
          match scF.archi with
          | [] => none
          | eid :: _ => some ((scF.getA eid).rilevanza)

/-- `Chiusura` of `retefa.py`: a silent closure of a behavioural space.  Its
nodes and edges are references into the arena of the surrounding space (the
Python objects are shared). -/
structure Chiusura where
  nodi : List Nat
  archi : List Nat
  nodoIniziale : Nat
  nodiUscita : List Nat
  nodiAccettazione : List Nat
  decorazioni : List (Nat × String)
  diagnosi : Option String
deriving DecidableEq, Repr

/-- Processing of one popped node in `generaChiusuraSilenziosaDecorata`:
follow the unobservable outgoing edges (adding edge and, when new by value,
target); an observable outgoing edge makes the node an exit and an
acceptance node; a node accepting in the space is an acceptance node. -/
def passoChiusura (sc : SpazioComportamentale) (ch : Chiusura) (stack : List Nat)
    (nodoCorr : Nat) : Chiusura × List Nat :=
  let r := (sc.getN nodoCorr).archiUscenti.foldl
    (fun (acc : Chiusura × List Nat × Bool × Bool) eid =>
      let a := sc.getA eid
      if a.osservabilita = "" then
        let ch1 := { acc.1 with archi := acc.1.archi ++ [eid] }
        if ch1.nodi.any (fun m => nodoEq (sc.getN m) (sc.getN a.nodo1)) then
          (ch1, acc.2)
        else
          ({ ch1 with nodi := ch1.nodi ++ [a.nodo1] }, a.nodo1 :: acc.2.1, acc.2.2)
      else (acc.1, acc.2.1, true, true))
    (ch, stack, false, (sc.getN nodoCorr).isFinale)
  let ch2 := if r.2.2.1 then { r.1 with nodiUscita := r.1.nodiUscita ++ [nodoCorr] } else r.1
  let ch3 := if r.2.2.2 then { ch2 with nodiAccettazione := ch2.nodiAccettazione ++ [nodoCorr] }
             else ch2
  (ch3, r.2.1)

/-- The exploration loop of `generaChiusuraSilenziosaDecorata` (fuelled). -/
def cicloChiusura (sc : SpazioComportamentale) : Nat → Chiusura → List Nat → Option Chiusura
  | _, ch, [] => some ch
  | 0, _, _ :: _ => none
  | fuel + 1, ch, nodoCorr :: rest =>
      let r := passoChiusura sc ch rest nodoCorr
      cicloChiusura sc fuel r.1 r.2

/-- Association-list read of the subscript dictionary (`pedici.get(id(a))`,
`None` when absent). -/
def lookupPedice (pedici : List (Nat × Nat)) (eid : Nat) : Option Nat :=
  (pedici.find? (fun p => p.1 == eid)).map (fun p => p.2)

/-- Dictionary write `pedici[id(a)] = v`. -/
def setPedice (pedici : List (Nat × Nat)) (eid v : Nat) : List (Nat × Nat) :=
  (pedici.filter (fun p => p.1 != eid)) ++ [(eid, v)]

/-- Dictionary removal `pedici.pop(id(a))` (no effect when absent). -/
def rimuoviPedice (pedici : List (Nat × Nat)) (eid : Nat) : List (Nat × Nat) :=
  pedici.filter (fun p => p.1 != eid)

/-- `Chiusura.esistonoPiuArchiStessoPedice`: several edges share a subscript
(`⊥` included).  The count over acceptance nodes is equivalent to the
existence of two entries with the same value; the source would raise
`KeyError` on a subscript outside the acceptance nodes, which never
happens. -/
def esistonoPiuArchiStessoPedice (scN : SpazioComportamentale)
    (pedici : List (Nat × Nat)) : Bool :=
  if pedici.isEmpty then 1 < scN.archi.length
  else if 1 < scN.archi.length - pedici.length then true
  else pedici.any (fun e => 2 ≤ (pedici.filter (fun e2 => e2.2 == e.2)).length)

/-- Value comparison of two optional subscripts, as Python compares the
pair `(a.nodo1, pedice_a)` with `==` (hence `Nodo.__eq__` on nodes). -/
def pediceEqValore (sc : SpazioComportamentale) : Option Nat → Option Nat → Bool
  | none, none => true
  | some x, some y => nodoEq (sc.getN x) (sc.getN y)
  | _, _ => false

/-- Adjacency scan of `trovaParalleloArchiStessoPedice`: observed pairs of
(target, subscript) are compared by value; the bundle is compiled by
identity of target and subscript. -/
def trovaParalleloPediciNelNodo (sc : SpazioComportamentale) (pedici : List (Nat × Nat))
    (archiNodo : List Nat) : List Nat → List (Nat × Option Nat) → List Nat
  | [], _ => []
  | eid :: rest, osservati =>
      let a := sc.getA eid
      let pa := lookupPedice pedici eid
      if osservati.any (fun o => nodoEq (sc.getN o.1) (sc.getN a.nodo1) && pediceEqValore sc o.2 pa)
      then
        archiNodo.filter
          (fun bid => (sc.getA bid).nodo1 == a.nodo1 && lookupPedice pedici bid == pa)
      else trovaParalleloPediciNelNodo sc pedici archiNodo rest (osservati ++ [(a.nodo1, pa)])

/-- `Chiusura.trovaParalleloArchiStessoPedice`: the early `return` of the
source sits inside the loop over the nodes, so only the first node of the
list is ever examined. -/
def trovaParalleloArchiStessoPedice (sc : SpazioComportamentale)
    (pedici : List (Nat × Nat)) : List Nat :=
  match sc.nodi with
  | [] => []
  | nid :: _ =>
      trovaParalleloPediciNelNodo sc pedici ((sc.getN nid).archiUscenti)
        ((sc.getN nid).archiUscenti) []

/-- The series rewrite of the subscripted extractor: label and subscript of
the replacing edge according to the three cases of the algorithm (only last
edge subscripted / plain chain / chain into `nq` or through an acceptance
node), then prune and substitute. -/
def passoSeriePedici (scN : SpazioComportamentale) (pedici : List (Nat × Nat))
    (serie : List Nat) (nq : Nat) (accettazione : List Nat) (soloUltimo : Bool) :
    SpazioComportamentale × List (Nat × Nat) :=
  let nodoInizio := (scN.getA (serie.headD 0)).nodo0
  let nodoPenultimo := (scN.getA (serie.getLastD 0)).nodo0
  let nodoFine := (scN.getA (serie.getLastD 0)).nodo1
  let rilevanze := serie.map (fun eid => (scN.getA eid).rilevanza)
  let r : String × Option Nat :=
    if soloUltimo then
      (componiStrRilevanzaSerie rilevanze, lookupPedice pedici (serie.getLastD 0))
    else if nodoFine ≠ nq ∧
        ¬ (accettazione.any (fun m => nodoEq (scN.getN m) (scN.getN nodoPenultimo)) = true) then
      (componiStrRilevanzaSerie rilevanze, none)
    else
      (componiStrRilevanzaSerie rilevanze.dropLast, some nodoPenultimo)
  let scA := setAllIsPotato scN false
  let scB := serie.foldl
    (fun s eid =>
      let s1 := s.setA eid { s.getA eid with isPotato := true }
      let a := s1.getA eid
      if a.nodo1 ≠ nodoFine then s1.setN a.nodo1 { s1.getN a.nodo1 with isPotato := true }
      else s1)
    scA
  let pedici1 := serie.foldl rimuoviPedice pedici
  let scC := potatura scB
  let nuovoId := scC.heapA.length
  let scD := scC.addArco ⟨nodoInizio, nodoFine, none, false, r.1, ""⟩
  match r.2 with
  | some p => (scD, setPedice pedici1 nuovoId p)
  | none => (scD, pedici1)

/-- The parallel rewrite of the subscripted extractor: the replacing edge
inherits the shared subscript, the bundle's edges are dropped. -/
def passoParalleloPedici (scN : SpazioComportamentale) (pedici : List (Nat × Nat))
    (parallelo : List Nat) : SpazioComportamentale × List (Nat × Nat) :=
  let scA := setAllIsPotato scN false
  let strRil :=
    componiStrRilevanzaParallelo (parallelo.map (fun eid => (scA.getA eid).rilevanza))
  let nuovoId := scA.heapA.length
  let scB := scA.addArco ⟨(scA.getA (parallelo.headD 0)).nodo0,
                          (scA.getA (parallelo.headD 0)).nodo1, none, false, strRil, ""⟩
  let pedici1 := match lookupPedice pedici (parallelo.headD 0) with
    | some p => setPedice pedici nuovoId p
    | none => pedici
  let scC := parallelo.foldl (fun s eid => s.setA eid { s.getA eid with isPotato := true }) scB
  let pedici2 := parallelo.foldl rimuoviPedice pedici1
  (potaturaArchi scC, pedici2)

/-- The self-loop label of the subscripted intermediate rewrite: `r*` for a
one-character label, `(r)*` for a longer one, `""` for an empty one. -/
def strCappioPedici (r : String) : String :=
  if r.length = 1 then r ++ "*"
  else if 1 < r.length then "(" ++ r ++ ")*"
  else ""

/-- The intermediate-node rewrite of the subscripted extractor: plain string
concatenation of the labels around the (first) self-loop; the new edge's
subscript is the outgoing edge's one, or the outgoing edge's source when
that edge enters `nq` from an acceptance node; the eliminated edges leave
the dictionary.  As in `passoNodoIntermedio`, iterating a snapshot of the
live edge list is equivalent. -/
def passoNodoIntermedioPedici (scA : SpazioComportamentale) (pedici : List (Nat × Nat))
    (nid : Nat) (nq : Nat) (accettazione : List Nat) :
    SpazioComportamentale × List (Nat × Nat) :=
  let scB := scA.setN nid { scA.getN nid with isPotato := true }
  let cappio := (scB.getN nid).archiUscenti.find? (fun k => (scB.getA k).nodo1 == nid)
  let strCappio := match cappio with
    | some k => strCappioPedici ((scB.getA k).rilevanza)
    | none => ""
  let entranti := scB.archi.filter
    (fun eid => (scB.getA eid).nodo1 == nid && (scB.getA eid).nodo0 != nid)
  let uscenti := (scB.getN nid).archiUscenti.filter (fun eid => (scB.getA eid).nodo1 != nid)
  let r := entranti.foldl
    (fun (acc : SpazioComportamentale × List (Nat × Nat)) ein =>
      uscenti.foldl
        (fun (acc2 : SpazioComportamentale × List (Nat × Nat)) eout =>
          let s2 := acc2.1
          let strFin := (s2.getA ein).rilevanza ++ strCappio ++ (s2.getA eout).rilevanza
          let pedice : Option Nat := match lookupPedice acc2.2 eout with
            | some p => some p
            | none =>
                if (s2.getA eout).nodo1 = nq ∧
                    (accettazione.any
                      (fun m => nodoEq (s2.getN m) (s2.getN (s2.getA eout).nodo0)) = true) then
                  some (s2.getA eout).nodo0
                else none
          let nuovoId := s2.heapA.length
          let s3 := s2.addArco ⟨(s2.getA ein).nodo0, (s2.getA eout).nodo1, none, false, strFin, ""⟩
          match pedice with
          | some p => (s3, setPedice acc2.2 nuovoId p)
          | none => (s3, acc2.2))
        acc)
    (scB, pedici)
  let daRimuovere := (match cappio with | some k => [k] | none => []) ++ entranti ++ uscenti
  (potatura r.1, daRimuovere.foldl rimuoviPedice r.2)

/-- Subscript pattern of a found series: no edge subscripted / only the last
edge subscripted. -/
def pediciSerie (pedici : List (Nat × Nat)) (serie : List Nat) : Bool × Bool :=
  if serie.dropLast.any (fun eid => (lookupPedice pedici eid).isSome) then (false, false)
  else if (lookupPedice pedici (serie.getLastD 0)).isSome then (false, true)
  else (true, false)

/-- The main loop of `Chiusura.espressioniRegolari` (fuelled): while more
than two nodes remain or two edges share a subscript, prefer an admissible
series, else a same-subscript parallel bundle, else eliminate an
intermediate node. -/
def cicloEspressioniRegolari (fuelChain : Nat) (n0 : Option Nat) (nq : Nat)
    (accettazione : List Nat) :
    Nat → SpazioComportamentale → List (Nat × Nat) →
    Option (SpazioComportamentale × List (Nat × Nat))
  | 0, _, _ => none
  | fuel + 1, scN, pedici =>
      if ¬ (2 < scN.nodi.length ∨ esistonoPiuArchiStessoPedice scN pedici = true) then
        some (scN, pedici)
      else
        match trovaSerieArchi scN fuelChain with
        | none => none
        | some serie =>
            let fl := pediciSerie pedici serie
            if serie ≠ [] ∧ (fl.1 ∨ fl.2) then
              let r := passoSeriePedici scN pedici serie nq accettazione fl.2
              cicloEspressioniRegolari fuelChain n0 nq accettazione fuel r.1 r.2
            else
              match trovaParalleloArchiStessoPedice scN pedici with
              | p0 :: resto =>
                  let r := passoParalleloPedici scN pedici (p0 :: resto)
                  cicloEspressioniRegolari fuelChain n0 nq accettazione fuel r.1 r.2
              | [] =>
                  let scA := setAllIsPotato scN false
                  match scA.nodi.find? (fun nid => !(n0 == some nid) && !(nid == nq)) with
                  | none => cicloEspressioniRegolari fuelChain n0 nq accettazione fuel scA pedici
                  | some nid =>
                      let r := passoNodoIntermedioPedici scA pedici nid nq accettazione
                      cicloEspressioniRegolari fuelChain n0 nq accettazione fuel r.1 r.2

/-- Dictionary read of a decoration with default. -/
def lookupDecorazione (dec : List (Nat × String)) (k : Nat) : Option String :=
  (dec.find? (fun d => d.1 == k)).map (fun d => d.2)

/-- Dictionary write of a decoration. -/
def setDecorazione (dec : List (Nat × String)) (k : Nat) (v : String) : List (Nat × String) :=
  (dec.filter (fun d => d.1 != k)) ++ [(k, v)]

/-- `Chiusura.espressioniRegolari` on a closure of the space `sc`: work on
the copy (the working space shares the arenas, node identities map to
themselves), strip observable edges from the exit nodes' adjacency, add
`n0` when the entry has an internal incoming edge and always add `nq` with
an epsilon edge from every acceptance node, run the subscripted reduction
loop, translate the subscripts of the remaining edges into decorations, and
compute the diagnosis as the `alternativaRilevanza`-fold of the decorations
of the accepting acceptance nodes started from `""` (`none` when there is
no accepting acceptance node). -/
def espressioniRegolari (sc : SpazioComportamentale) (ch : Chiusura)
    (fuel fuelChain : Nat) : Option (List (Nat × String) × Option String) :=
  let scN : SpazioComportamentale :=
    ⟨sc.heapN, sc.heapA, ch.nodi, ch.archi, some ch.nodoIniziale⟩
  let scN1 := ch.nodiUscita.foldl
    (fun s nu =>
      let n := s.getN nu
      s.setN nu
        { n with archiUscenti :=
            n.archiUscenti.filter (fun eid => (s.getA eid).osservabilita == "") })
    scN
  let esisteEntrante :=
    scN1.archi.any (fun eid => some (scN1.getA eid).nodo1 == scN1.nodoIniziale)
  let r1 :=
    if esisteEntrante then
      let r := scN1.addNodo (nodoFresco "n0" false)
      (r.1.addArco ⟨r.2, ch.nodoIniziale, none, false, "", ""⟩, some r.2)
    else (scN1, scN1.nodoIniziale)
  let rq := r1.1.addNodo (nodoFresco "nq" true)
  let scN2 := ch.nodiAccettazione.foldl
    (fun s nid => s.addArco ⟨nid, rq.2, none, false, "", ""⟩) rq.1
  match cicloEspressioniRegolari fuelChain r1.2 rq.2 ch.nodiAccettazione fuel scN2 [] with
  | none => none
  | some (scF, pedici) =>
      let dec := scF.archi.foldl
        (fun d eid =>
          match lookupPedice pedici eid with
          | some p => setDecorazione d p ((scF.getA eid).rilevanza)
          | none => d)
        []
      let nodiFinali := ch.nodiAccettazione.filter (fun nid => (sc.getN nid).isFinale)
      if nodiFinali.isEmpty then some (dec, none)
      else
        some (dec,
          some (nodiFinali.foldl
            (fun s nid => alternativaRilevanza s ((lookupDecorazione dec nid).getD "")) ""))

/-- `SpazioComportamentale.generaChiusuraSilenziosaDecorata`: the closure of
the entry node by unobservable edges, decorated by the subscripted
extractor. -/
def generaChiusuraSilenziosaDecorata (sc : SpazioComportamentale) (nodoIngresso : Nat)
    (fuel fuelChain : Nat) : Option Chiusura :=
  let ch0 : Chiusura :=
    ⟨[nodoIngresso], [], nodoIngresso, [], [], [], none⟩
  match cicloChiusura sc fuel ch0 [nodoIngresso] with
  | none => none
  | some ch =>
      match espressioniRegolari sc ch fuel fuelChain with
      | none => none
      | some (dec, diag) => some { ch with decorazioni := dec, diagnosi := diag }

/-- A node of the diagnoser: the source reuses `Nodo` with the closure
attached as an attribute; only the fields the diagnoser reads are kept. -/
structure NodoDiagnosticatore where
  nome : String
  isFinale : Bool
  chiusura : Chiusura
  archiUscenti : List Nat
deriving DecidableEq, Repr

/-- `Diagnosticatore`: one node per closure, edges by position into `nodi`
and `archi`. -/
structure Diagnosticatore where
  nodi : List NodoDiagnosticatore
  archi : List Arco
  nodoIniziale : Option Nat
deriving DecidableEq, Repr

/-- `addArco` on the diagnoser: append the edge and record it in the source
node's adjacency. -/
def addArcoDiagnosticatore (d : Diagnosticatore) (a : Arco) : Diagnosticatore :=
  let eid := d.archi.length
  let n := d.nodi.getD a.nodo0 ⟨"", false, ⟨[], [], 0, [], [], [], none⟩, []⟩
  { d with archi := d.archi ++ [a],
           nodi := d.nodi.set a.nodo0 { n with archiUscenti := n.archiUscenti ++ [eid] } }

/-- The entry nodes of the closures: the initial node of the space plus
every (by value, new) target of an observable edge. -/
def nodiIngresso (sc : SpazioComportamentale) (ini : Nat) : List Nat :=
  sc.nodi.foldl
    (fun acc nid =>
      (sc.getN nid).archiUscenti.foldl
        (fun acc2 eid =>
          let a := sc.getA eid
          if a.osservabilita = "" then acc2
          else if acc2.any (fun m => nodoEq (sc.getN m) (sc.getN a.nodo1)) then acc2
          else acc2 ++ [a.nodo1])
        acc)
    [ini]

/-- The edge pass of `generaDiagnosticatore`: for every diagnoser node, for
every exit node of its closure, for every observable space edge leaving it,
one diagnoser edge to the node whose closure's entry is (by identity) the
space edge's target; its relevance is the plain string concatenation of
the space edge's relevance and the exit node's decoration (default ""). -/
def archiDiagnosticatore (sc : SpazioComportamentale) (d : Diagnosticatore) : Diagnosticatore :=
  (List.range d.nodi.length).foldl
    (fun d1 idx =>
      let x := d1.nodi.getD idx ⟨"", false, ⟨[], [], 0, [], [], [], none⟩, []⟩
      x.chiusura.nodiUscita.foldl
        (fun d2 nu =>
          (sc.getN nu).archiUscenti.foldl
            (fun d3 a1 =>
              let a := sc.getA a1
              if a.osservabilita = "" then d3
              else
                (List.range d3.nodi.length).foldl
                  (fun d4 idy =>
                    let y := d4.nodi.getD idy ⟨"", false, ⟨[], [], 0, [], [], [], none⟩, []⟩
                    if a.nodo1 = y.chiusura.nodoIniziale then
                      addArcoDiagnosticatore d4
                        ⟨idx, idy, a.transizione, false,
                         a.rilevanza ++ (lookupDecorazione x.chiusura.decorazioni nu).getD "",
                         a.osservabilita⟩
                    else d4)
                  d3)
            d2)
        d1)
    d

/-- `SpazioComportamentale.generaDiagnosticatore`: compute the entry nodes,
generate one decorated closure and one diagnoser node per entry (accepting
iff the diagnosis is not `None`, the node of the space's initial entry
being the diagnoser's initial node), then add the edges. -/
def generaDiagnosticatore (sc : SpazioComportamentale) (fuel fuelChain : Nat) :
    Option Diagnosticatore :=
  match sc.nodoIniziale with
  | none => none
  | some ini =>
      let ingressi := nodiIngresso sc ini
      let build := ingressi.foldl
        (fun (acc : Option Diagnosticatore) ni =>
          match acc with
          | none => none
          | some d =>
              match generaChiusuraSilenziosaDecorata sc ni fuel fuelChain with
              | none => none
              | some ch =>
                  let xn : NodoDiagnosticatore :=
                    ⟨"x" ++ (sc.getN ni).nome, ch.diagnosi.isSome, ch, []⟩
                  let d1 := { d with nodi := d.nodi ++ [xn] }
                  if ni = ini then
                    some { d1 with nodoIniziale := some (d1.nodi.length - 1) }
                  else some d1)
        (some ⟨[], [], none⟩)
      match build with
      | none => none
      | some d => some (archiDiagnosticatore sc d)

/-!  Specification-side predicates, used to state the claims.  -/

/-- Forward reachability from the initial node along the edges of the
space. -/
inductive Raggiungibile (sc : SpazioComportamentale) : Nat → Prop where
  | iniziale (v : Nat) : sc.nodoIniziale = some v → Raggiungibile sc v
  | passo (eid : Nat) : eid ∈ sc.archi → Raggiungibile sc (sc.getA eid).nodo0 →
      Raggiungibile sc (sc.getA eid).nodo1

/-- Backward reachability of an acceptance node: the node lies on some path
ending in an acceptance node of the space. -/
inductive ArrivaAFinale (sc : SpazioComportamentale) : Nat → Prop where
  | qui (v : Nat) : v ∈ sc.nodi → (sc.getN v).isFinale = true → ArrivaAFinale sc v
  | passo (eid : Nat) : eid ∈ sc.archi → (sc.getA eid).nodo0 ∈ sc.nodi →
      ArrivaAFinale sc (sc.getA eid).nodo1 → ArrivaAFinale sc (sc.getA eid).nodo0

/-- The sequential admissibility of the output events of a transition: each
output event in turn finds the buffer of its link empty (in the buffer
state left by the preceding ones) and writes its name into it. -/
inductive EventiOutputAmmissibili : List Buffer → List Buffer → Prop where
  | vuoto (bufs : List Buffer) : EventiOutputAmmissibili bufs []
  | passo (bufs : List Buffer) (eo : Buffer) (rest : List Buffer) (b : Buffer) :
      cercaContenutoLink bufs eo.link = some b → b.evento = "" →
      EventiOutputAmmissibili (setContenutoLink bufs eo.link eo.evento) rest →
      EventiOutputAmmissibili bufs (eo :: rest)

/-- The required event of the transition, when present, is the content of
its link's buffer in the node. -/
def EventoNecessarioPresente (n : Nodo) (t : Transizione) : Prop :=
  ∀ en, t.eventoNecessario = some en →
    ∃ b, cercaContenutoLink n.contenutoLink en.link = some b ∧ b.evento = en.evento

/-- The buffer state of the node after consuming the required event (the
buffers themselves when there is none). -/
def bufsDopoNecessario (n : Nodo) (t : Transizione) : List Buffer :=
  match t.eventoNecessario with
  | none => n.contenutoLink
  | some en => setContenutoLink n.contenutoLink en.link ""

/-- The name written last into the buffer of link `l` by the output events,
if any. -/
def ultimoEventoOutput (eventi : List Buffer) (l : Nat) : Option String :=
  ((eventi.filter (fun eo => eo.link == l)).getLast?).map (fun eo => eo.evento)

/-- Every edge of the space connects nodes of the space and lies in the
arena. -/
def ArchiConEstremi (sc : SpazioComportamentale) : Prop :=
  ∀ eid ∈ sc.archi, eid < sc.heapA.length ∧
    (sc.getA eid).nodo0 ∈ sc.nodi ∧ (sc.getA eid).nodo1 ∈ sc.nodi

/-- No two distinct nodes of the space are equal in the sense of
`Nodo.__eq__` (the deduplication of the builders guarantees this). -/
def NodiDistinti (sc : SpazioComportamentale) : Prop :=
  ∀ i ∈ sc.nodi, ∀ j ∈ sc.nodi, nodoEq (sc.getN i) (sc.getN j) = true → i = j

/-- The structural well-formedness claimed for builder outputs: every edge
connects nodes of the space and is recorded in its source node's adjacency
list, and every node is reachable from the initial node. -/
def SpazioBenFormato (sc : SpazioComportamentale) : Prop :=
  (∀ eid ∈ sc.archi, eid < sc.heapA.length ∧
    (sc.getA eid).nodo0 ∈ sc.nodi ∧ (sc.getA eid).nodo1 ∈ sc.nodi ∧
    eid ∈ (sc.getN (sc.getA eid).nodo0).archiUscenti) ∧
  (∀ nid ∈ sc.nodi, Raggiungibile sc nid)

/-- A string over the regex label alphabet: none of the regex
metacharacters `|`, `(`, `)` occurs in it. -/
def senzaCaratteriSpeciali (s : String) : Bool :=
  s.toList.all (fun c => c != '|' && c != '(' && c != ')')

/-- The set of top-level alternatives of a regex string, with the empty
alternative identified with `"ε"` (both denote ε). -/
def alternativeNormalizzate (s : String) : Finset String :=
  ((estraiAlternative s).map (fun t => if t = "" then "ε" else t)).toFinset

/-- Equality of regexes modulo the ordering of their top-level
alternatives, with `""` and `"ε"` identified. -/
def equivalenti (x y : String) : Prop :=
  alternativeNormalizzate x = alternativeNormalizzate y

/-!  Concrete inputs and result projections used by counterexamples,
divergence evaluations and witnesses.  -/

/-- A node with one empty buffer on link 0 (C1 inputs). -/
def nodoEsempioC1 : Nodo := ⟨"", [0], [⟨0, ""⟩], true, true, 0, []⟩

/-- A transition with two output events on the same link. -/
def transizioneDoppioOutput : Transizione := ⟨"t", 0, 1, none, [⟨0, "x"⟩, ⟨0, "y"⟩], "", ""⟩

/-- An ordinary transition with one output event. -/
def transizioneSemplice : Transizione := ⟨"t", 0, 1, none, [⟨0, "x"⟩], "o", "r"⟩

/-- A space with an initial node 0, an acceptance node 1, and a node 2 that
reaches the acceptance node but is not reachable from the initial node. -/
def spazioEsempioC2 : SpazioComportamentale :=
  ⟨[⟨"", [0], [], true, false, 0, [0]⟩,
    ⟨"", [1], [], true, true, 0, []⟩,
    ⟨"", [2], [], true, false, 0, [1]⟩],
   [⟨0, 1, none, true, "", ""⟩, ⟨2, 1, none, true, "", ""⟩],
   [0, 1, 2], [0, 1], some 0⟩

/-- A network with one behaviour and one transition observable as `"o"`. -/
def reteEsempio : ReteFA := ⟨[⟨"B", [0, 1], 0, [⟨"t", 0, 1, none, [], "o", "r"⟩]⟩], []⟩

/-- A space with a single acceptance node and no edges. -/
def spazioEsempioC7 : SpazioComportamentale :=
  ⟨[⟨"", [0], [], true, true, 0, []⟩], [], [0], [], some 0⟩

/-- A network with one silent transition, firable from the initial
configuration. -/
def reteSilenziosa : ReteFA := ⟨[⟨"B", [0, 1], 0, [⟨"t", 0, 1, none, [], "", ""⟩]⟩], []⟩

/-- A network with a single state and no transitions. -/
def reteSenzaTransizioni : ReteFA := ⟨[⟨"B", [0], 0, []⟩], []⟩

/-- A space whose silent closure from node 0 reaches the accepting node 1
through a silent edge of relevance `"p"` (C4 input). -/
def spazioEsempioC4 : SpazioComportamentale :=
  ⟨[⟨"", [0], [], true, false, 0, [0]⟩, ⟨"", [1], [], true, true, 0, []⟩],
   [⟨0, 1, none, true, "p", ""⟩], [0, 1], [0], some 0⟩

/-- A space whose closure of node 0 decorates its exit node 1 with `"p"`,
node 1 leaving through an observable edge of relevance `"a|b"` (C5
input). -/
def spazioEsempioC5 : SpazioComportamentale :=
  ⟨[⟨"", [0], [], true, false, 0, [0]⟩,
    ⟨"", [1], [], true, false, 0, [1]⟩,
    ⟨"", [2], [], true, false, 0, []⟩],
   [⟨0, 1, none, true, "p", ""⟩, ⟨1, 2, none, true, "a|b", "o"⟩],
   [0, 1, 2], [0, 1], some 0⟩

/-- Projection of a pruning run: surviving node list, surviving edge list,
names of the surviving nodes in order. -/
def risultatoPotatura (sc : SpazioComportamentale) (fuel : Nat) :
    Option (Except Unit (List Nat × List Nat × List String)) :=
  (potaturaRidenominazione sc fuel).map
    (Except.map (fun r => (r.nodi, r.archi, r.nodi.map (fun nid => (r.getN nid).nome))))

/-- Projection of a decorated closure: its diagnosis. -/
def diagnosiChiusura (sc : SpazioComportamentale) (nid fuel fuelChain : Nat) :
    Option (Option String) :=
  (generaChiusuraSilenziosaDecorata sc nid fuel fuelChain).map (fun ch => ch.diagnosi)

/-- Projection of a decorated closure: its decorations. -/
def decorazioniChiusura (sc : SpazioComportamentale) (nid fuel fuelChain : Nat) :
    Option (List (Nat × String)) :=
  (generaChiusuraSilenziosaDecorata sc nid fuel fuelChain).map (fun ch => ch.decorazioni)

/-- Projection of a diagnoser: the relevance labels of its edges. -/
def rilevanzeDiagnosticatore (sc : SpazioComportamentale) (fuel fuelChain : Nat) :
    Option (List String) :=
  (generaDiagnosticatore sc fuel fuelChain).map (fun d => d.archi.map (fun a => a.rilevanza))

/-- Projection of an observation-filtered construction: the number of nodes
of the resulting space. -/
def contaNodiCostruzioneOL (rete : ReteFA) (ol : List String) (fuel : Nat) : Option Nat :=
  match creaSpazioComportamentaleOL rete ol fuel with
  | Except.ok (some sc) => some sc.nodi.length
  | _ => none

/-- Projection of construction followed by pruning: node and edge lists of
the pruned space. -/
def potaturaDopoCostruzioneOL (rete : ReteFA) (ol : List String) (fuel : Nat) :
    Option (Except Unit (List Nat × List Nat)) :=
  match creaSpazioComportamentaleOL rete ol fuel with
  | Except.ok (some sc) =>
      (potaturaRidenominazione sc fuel).map (Except.map (fun r => (r.nodi, r.archi)))
  | _ => none

/-- Projection of unfiltered construction followed by pruning — the first
two steps of the diagnoser path: node and edge lists of the pruned
space. -/
def potaturaDopoCostruzione (rete : ReteFA) (fuel : Nat) :
    Option (Except Unit (List Nat × List Nat)) :=
  match creaSpazioComportamentale rete fuel with
  | some sc =>
      (potaturaRidenominazione sc fuel).map (Except.map (fun r => (r.nodi, r.archi)))
  | none => none

/-- The single-node space produced by the observation-filtered builder on
the empty observation when nothing can fire from the initial node. -/
def spazioSingoloOL (rete : ReteFA) : SpazioComportamentale :=
  let ni0 := creaNodoIniziale rete
  ⟨[{ ni0 with isFinale := ni0.isFinale && true }], [], [0], [], some 0⟩

/-- The initial node as the observation-filtered builder creates it for the
empty observation. -/
def nodoInizialeVuotaOL (rete : ReteFA) : Nodo :=
  let ni0 := creaNodoIniziale rete
  { ni0 with isFinale := ni0.isFinale && true }

/-!  Proof-support predicates.  -/

/-- Structural part of the construction invariant: every edge is in the
arena, connects nodes of the space and sits in its source's adjacency
list; node references point into the arena. -/
def InvArchi (sc : SpazioComportamentale) : Prop :=
  (∀ eid ∈ sc.archi, eid < sc.heapA.length ∧
    (sc.getA eid).nodo0 ∈ sc.nodi ∧ (sc.getA eid).nodo1 ∈ sc.nodi ∧
    eid ∈ (sc.getN (sc.getA eid).nodo0).archiUscenti) ∧
  (∀ nid ∈ sc.nodi, nid < sc.heapN.length)

/-- Full construction invariant: structure, reachability of every node,
and the pending stack contained in the node list. -/
def InvCostruzione (sc : SpazioComportamentale) (pending : List Nat) : Prop :=
  InvArchi sc ∧ (∀ nid ∈ sc.nodi, Raggiungibile sc nid) ∧ (∀ nid ∈ pending, nid ∈ sc.nodi)

/-- The witness space for the builder invariants: the result of the
unfiltered builder on the example network. -/
def spazioTestimoneC10 : SpazioComportamentale :=
  (creaSpazioComportamentale reteEsempio 10).getD ⟨[], [], [], [], none⟩

/-- The witness space for the builder invariants: the result of the
observation-filtered builder on the example network. -/
def spazioTestimoneC10OL : SpazioComportamentale :=
  match creaSpazioComportamentaleOL reteEsempio ["o"] 10 with
  | Except.ok (some sc) => sc
  | _ => ⟨[], [], [], [], none⟩

/-- Hypotheses under which the pruning is analysed: edges with endpoints in
the space, node references inside the arena, value-distinct nodes (the
deduplication invariant of the builders) and a duplicate-free node list. -/
def SpazioPotabile (sc : SpazioComportamentale) : Prop :=
  ArchiConEstremi sc ∧ (∀ nid ∈ sc.nodi, nid < sc.heapN.length) ∧
    NodiDistinti sc ∧ sc.nodi.Nodup

/-- `s` is `sc` with possibly different prune flags: same membership lists,
same initial node, same arena sizes, and every node / edge object equal to
its counterpart except for `isPotato`. -/
def SoloFlag (sc s : SpazioComportamentale) : Prop :=
  s.nodi = sc.nodi ∧ s.archi = sc.archi ∧ s.nodoIniziale = sc.nodoIniziale ∧
  s.heapN.length = sc.heapN.length ∧ s.heapA.length = sc.heapA.length ∧
  (∀ i, s.getN i = { sc.getN i with isPotato := (s.getN i).isPotato }) ∧
  (∀ e, s.getA e = { sc.getA e with isPotato := (s.getA e).isPotato })

/-- `t` is `base` with possibly more edge flags cleared: node arena and
membership data identical, each edge object either untouched or with its
prune flag cleared. -/
def VarianteArchi (base t : SpazioComportamentale) : Prop :=
  t.heapN = base.heapN ∧ t.nodi = base.nodi ∧ t.archi = base.archi ∧
  t.nodoIniziale = base.nodoIniziale ∧ t.heapA.length = base.heapA.length ∧
  ∀ e, t.getA e = base.getA e ∨ t.getA e = { base.getA e with isPotato := false }

/-- Soundness part of the backward-walk invariant of `decidiPotatura`: a
cleared node reaches acceptance, a cleared edge has a cleared target. -/
def InvPotaturaBase (sc s : SpazioComportamentale) : Prop :=
  SoloFlag sc s ∧
  (∀ v ∈ sc.nodi, (s.getN v).isPotato = false → ArrivaAFinale sc v) ∧
  (∀ e ∈ sc.archi, (s.getA e).isPotato = false →
    (s.getN (sc.getA e).nodo1).isPotato = false)

/-- Quiescent invariant between outer-loop iterations of `decidiPotatura`:
soundness plus closure with an empty exploration stack. -/
def InvPotaturaChiusa (sc s : SpazioComportamentale) : Prop :=
  InvPotaturaBase sc s ∧
  ∀ e ∈ sc.archi, (s.getN (sc.getA e).nodo1).isPotato = false →
    (s.getA e).isPotato = false ∧ (s.getN (sc.getA e).nodo0).isPotato = false

/-- Working invariant of the inner backward walk, relative to the current
node `c` and the pending edge stack. -/
def InvPotaturaStack (sc s : SpazioComportamentale) (c : Nat) (stack : List Nat) : Prop :=
  InvPotaturaBase sc s ∧ c ∈ sc.nodi ∧ ArrivaAFinale sc c ∧
  (∀ e ∈ stack, e ∈ sc.archi ∧ (s.getA e).isPotato = false) ∧
  (∀ e ∈ sc.archi, (s.getN (sc.getA e).nodo1).isPotato = false →
    (s.getA e).isPotato = false ∧
    ((s.getN (sc.getA e).nodo0).isPotato = false ∨ e ∈ stack ∨ (sc.getA e).nodo0 = c))

/-- `t` agrees with `s` on every dereference and every membership datum
(the arenas may differ in entries rewritten with their own value). -/
def PuntualmenteUguale (s t : SpazioComportamentale) : Prop :=
  (∀ i, t.getN i = s.getN i) ∧ (∀ e, t.getA e = s.getA e) ∧
  t.nodi = s.nodi ∧ t.archi = s.archi ∧ t.nodoIniziale = s.nodoIniziale ∧
  t.heapN.length = s.heapN.length ∧ t.heapA.length = s.heapA.length

/-- `t` agrees with `s` everywhere except possibly in the adjacency lists
of node objects. -/
def UgualeTranneAdiacenza (s t : SpazioComportamentale) : Prop :=
  (∀ i, t.getN i = { s.getN i with archiUscenti := (t.getN i).archiUscenti }) ∧
  (∀ e, t.getA e = s.getA e) ∧
  t.nodi = s.nodi ∧ t.archi = s.archi ∧ t.nodoIniziale = s.nodoIniziale ∧
  t.heapN.length = s.heapN.length ∧ t.heapA.length = s.heapA.length

/-- The concrete pruned space of the C2 run, for the witness. -/
def spazioC2Potato : SpazioComportamentale :=
  match potaturaRidenominazione spazioEsempioC2 10 with
  | some (Except.ok r) => r
  | _ => ⟨[], [], [], [], none⟩

/-- A space whose initial node I (index 0) has no outgoing edge while node
A (index 1) carries a self-loop and an edge to the acceptance node B
(index 2): pruning removes I and the re-resolution of the initial node
fails, giving a pruned space without an initial node (C3 input). -/
def spazioPreC3 : SpazioComportamentale :=
  ⟨[⟨"I", [0], [], true, false, 0, []⟩,
    ⟨"A", [1], [], true, false, 0, [0, 1]⟩,
    ⟨"B", [2], [], true, true, 0, []⟩],
   [⟨1, 1, none, true, "l", ""⟩, ⟨1, 2, none, true, "x", ""⟩],
   [0, 1, 2], [0, 1], some 0⟩

/-- The pruned space produced by the pruner on `spazioPreC3`. -/
def spazioPotatoC3 : SpazioComportamentale :=
  match potaturaRidenominazione spazioPreC3 10 with
  | some (Except.ok r) => r
  | _ => ⟨[], [], [], [], none⟩

/-- Projection of the regex extractor: normalize, run the reduction loop,
and report the edge list of the space the loop stops on (`none` outside =
normalisation error, `none` inside = fuel exhausted). -/
def archiDopoRiduzione (sc : SpazioComportamentale) (fuel fuelChain : Nat) :
    Option (Option (List Nat)) :=
  match normalizzaEspressioneRegolare sc with
  | none => none
  | some (scN, n0, nq) =>
      some ((cicloEspressioneRegolare fuelChain n0 nq fuel scN).map (fun r => r.archi))

/-!  Theorems.  Generic helpers first.  -/

/-- Invariance of a property along a left fold. -/
theorem foldlInvariante {α σ : Type _} (P : σ → Prop) (f : σ → α → σ)
    (h : ∀ s a, P s → P (f s a)) : ∀ (l : List α) (s : σ), P s → P (l.foldl f s) := by
  intro l
  induction l with
  | nil => intro s hs; exact hs
  | cons x xs ih => intro s hs; exact ih (f s x) (h s x hs)

/-- Looking up the link just written finds the written event. -/
theorem cercaSetStesso (bufs : List Buffer) (l : Nat) (e : String) :
    cercaContenutoLink (setContenutoLink bufs l e) l =
      (cercaContenutoLink bufs l).map (fun b => { b with evento := e }) := by
  induction bufs with
  | nil => rfl
  | cons b rest ih =>
      by_cases h : b.link = l
      · have hb : (b.link == l) = true := beq_iff_eq.mpr h
        simp [cercaContenutoLink, setContenutoLink, List.find?, hb]
      · have hb : (b.link == l) = false := by simp [h]
        simpa [cercaContenutoLink, setContenutoLink, List.find?, hb] using ih

/-- Writing one link leaves the lookup of any other link unchanged. -/
theorem cercaSetDiverso (bufs : List Buffer) (l l' : Nat) (e : String) (h : l' ≠ l) :
    cercaContenutoLink (setContenutoLink bufs l e) l' = cercaContenutoLink bufs l' := by
  induction bufs with
  | nil => rfl
  | cons b rest ih =>
      by_cases hb : b.link = l
      · have hbeq : (b.link == l) = true := beq_iff_eq.mpr hb
        have hbeq' : (b.link == l') = false := by
          simp only [beq_eq_false_iff_ne, ne_eq, hb]
          exact fun hc => h hc.symm
        simp [cercaContenutoLink, setContenutoLink, List.find?, hbeq, hbeq']
      · have hbeq : (b.link == l) = false := by simp [hb]
        by_cases hb' : b.link = l'
        · have hbeq' : (b.link == l') = true := beq_iff_eq.mpr hb'
          simp [cercaContenutoLink, setContenutoLink, List.find?, hbeq, hbeq']
        · have hbeq' : (b.link == l') = false := by simp [hb']
          simpa [cercaContenutoLink, setContenutoLink, List.find?, hbeq, hbeq'] using ih

/-- Success of the sequential output processing is exactly the sequential
admissibility predicate. -/
theorem processaIsSomeIff :
    ∀ (outs : List Buffer) (bufs : List Buffer),
      (processaEventiOutput bufs outs).isSome ↔ EventiOutputAmmissibili bufs outs := by
  intro outs
  induction outs with
  | nil =>
      intro bufs
      simp only [processaEventiOutput, Option.isSome_some, true_iff]
      exact EventiOutputAmmissibili.vuoto bufs
  | cons eo rest ih =>
      intro bufs
      constructor
      · intro h
        simp only [processaEventiOutput] at h
        rcases hc : cercaContenutoLink bufs eo.link with _ | b
        · rw [hc] at h; simp at h
        · rw [hc] at h
          by_cases he : b.evento = ""
          · simp only [he, ne_eq, not_true_eq_false, if_false] at h
            refine EventiOutputAmmissibili.passo bufs eo rest b hc he ?_
            exact (ih _).mp (by simpa using h)
          · simp [he] at h
      · intro h
        cases h with
        | passo _ _ _ b hc he hrest =>
            simp only [processaEventiOutput, hc, he]
            simp only [ne_eq, not_true_eq_false, if_false]
            exact (ih _).mpr hrest

/-- `getLast?` on a cons, expressed with a default. -/
theorem getLastOptCons {α : Type _} :
    ∀ (x : α) (l : List α), (x :: l).getLast? = some (l.getLast?.getD x)
  | _, [] => rfl
  | x, y :: ys => by
      rw [List.getLast?_cons_cons, getLastOptCons y ys]
      rfl

/-- The last output event on a link, unfolded over a cons. -/
theorem ultimoEventoCons (eo : Buffer) (rest : List Buffer) (l : Nat) :
    ultimoEventoOutput (eo :: rest) l =
      (match ultimoEventoOutput rest l with
       | some e => some e
       | none => if eo.link = l then some eo.evento else none) := by
  have hr : ultimoEventoOutput rest l =
      ((rest.filter (fun x => x.link == l)).getLast?).map (fun b => b.evento) := rfl
  by_cases h : eo.link = l
  · have hb : (eo.link == l) = true := beq_iff_eq.mpr h
    have hlhs : ultimoEventoOutput (eo :: rest) l =
        ((eo :: rest.filter (fun x => x.link == l)).getLast?).map (fun b => b.evento) := by
      simp only [ultimoEventoOutput, List.filter_cons, hb, if_true]
    rw [hlhs, hr, getLastOptCons]
    cases hm : (rest.filter (fun x => x.link == l)).getLast? with
    | none => simp [h]
    | some z => simp
  · have hb : (eo.link == l) = false := by simp [h]
    have hlhs : ultimoEventoOutput (eo :: rest) l = ultimoEventoOutput rest l := by
      simp [ultimoEventoOutput, List.filter_cons, hb]
    rw [hlhs]
    cases hm : ultimoEventoOutput rest l with
    | none => simp [h]
    | some z => rfl

/-- After a successful sequential output processing, the content of every
link's buffer is determined by the last output event on that link (and is
unchanged when there is none). -/
theorem processaSlot :
    ∀ (outs : List Buffer) (bufs bufs2 : List Buffer),
      processaEventiOutput bufs outs = some bufs2 →
      ∀ l, cercaContenutoLink bufs2 l =
        (match ultimoEventoOutput outs l with
         | some e => (cercaContenutoLink bufs l).map (fun b => { b with evento := e })
         | none => cercaContenutoLink bufs l) := by
  intro outs
  induction outs with
  | nil =>
      intro bufs bufs2 h l
      simp only [processaEventiOutput, Option.some_inj] at h
      subst h
      simp [ultimoEventoOutput]
  | cons eo rest ih =>
      intro bufs bufs2 h l
      simp only [processaEventiOutput] at h
      rcases hc : cercaContenutoLink bufs eo.link with _ | b
      · rw [hc] at h; exact absurd h (by simp)
      · rw [hc] at h
        by_cases he : b.evento = ""
        · simp only [he, ne_eq, not_true_eq_false, if_false] at h
          have hrec := ih _ _ h l
          rw [ultimoEventoCons]
          rcases hu : ultimoEventoOutput rest l with _ | e
          · rw [hu] at hrec
            by_cases hl : eo.link = l
            · subst hl
              rw [hrec, cercaSetStesso, hc]
              simp
            · rw [hrec, cercaSetDiverso _ _ _ _ (fun hx => hl hx.symm)]
              simp [hl]
          · rw [hu] at hrec
            by_cases hl : eo.link = l
            · subst hl
              rw [hrec, cercaSetStesso, hc]
              simp
            · rw [hrec, cercaSetDiverso _ _ _ _ (fun hx => hl hx.symm)]
        · simp [he] at h

/-- Replacing the first occurrence splits the list at that occurrence. -/
theorem sostituisciPrimoSplit (xs : List Nat) (v n : Nat) (h : v ∈ xs) :
    ∃ pre post, xs = pre ++ v :: post ∧ v ∉ pre ∧
      sostituisciPrimo xs v n = pre ++ n :: post := by
  induction xs with
  | nil => cases h
  | cons x rest ih =>
      by_cases hx : x = v
      · subst hx
        exact ⟨[], rest, rfl, by simp, by simp [sostituisciPrimo]⟩
      · have hmem : v ∈ rest := by
          rcases List.mem_cons.mp h with h1 | h1
          · exact absurd h1.symm hx
          · exact h1
        obtain ⟨pre, post, hsplit, hnot, hrepl⟩ := ih hmem
        refine ⟨x :: pre, post, by simp [hsplit], ?_, ?_⟩
        · simp only [List.mem_cons, not_or]
          exact ⟨fun hc => hx hc.symm, hnot⟩
        · simp [sostituisciPrimo, hx, hrepl]

/-- Success of the firing check is the conjunction of the required-event
condition and the sequential admissibility of the outputs. -/
theorem verificaFattibilitaIsSome (n : Nodo) (t : Transizione) :
    (verificaFattibilitaTransizione n t).isSome ↔
      (EventoNecessarioPresente n t ∧
        EventiOutputAmmissibili (bufsDopoNecessario n t) t.eventiOutput) := by
  cases hev : t.eventoNecessario with
  | none =>
      have hb : bufsDopoNecessario n t = n.contenutoLink := by
        simp [bufsDopoNecessario, hev]
      have hpres : EventoNecessarioPresente n t := by
        intro en hen; rw [hev] at hen; cases hen
      simp only [verificaFattibilitaTransizione, hev, Nodo.clone, hb]
      cases hp : processaEventiOutput n.contenutoLink t.eventiOutput with
      | none =>
          simp only [hp, Option.isSome_none, Bool.false_eq_true, false_iff, not_and]
          intro _ hamm
          have := (processaIsSomeIff _ _).mpr hamm
          rw [hp] at this
          simp at this
      | some bufs2 =>
          simp only [hp, Option.isSome_some, true_iff]
          exact ⟨hpres, (processaIsSomeIff _ _).mp (by rw [hp]; simp)⟩
  | some en =>
      have hb : bufsDopoNecessario n t = setContenutoLink n.contenutoLink en.link "" := by
        simp [bufsDopoNecessario, hev]
      simp only [verificaFattibilitaTransizione, hev, Nodo.clone, hb]
      cases hc : cercaContenutoLink n.contenutoLink en.link with
      | none =>
          simp only [hc, Option.isSome_none, Bool.false_eq_true, false_iff, not_and]
          intro hpres _
          obtain ⟨b, hb', _⟩ := hpres en hev
          rw [hc] at hb'
          cases hb'
      | some b =>
          by_cases he : b.evento = en.evento
          · have hpres : EventoNecessarioPresente n t := by
              intro en' hen'
              rw [hev] at hen'
              cases hen'
              exact ⟨b, hc, he⟩
            simp only [hc, he, if_true]
            cases hp : processaEventiOutput (setContenutoLink n.contenutoLink en.link "")
                t.eventiOutput with
            | none =>
                simp only [hp, Option.isSome_none, Bool.false_eq_true, false_iff, not_and]
                intro _ hamm
                have := (processaIsSomeIff _ _).mpr hamm
                rw [hp] at this
                simp at this
            | some bufs2 =>
                simp only [hp, Option.isSome_some, true_iff]
                exact ⟨hpres, (processaIsSomeIff _ _).mp (by rw [hp]; simp)⟩
          · simp only [hc, he, if_false, Option.isSome_none, Bool.false_eq_true, false_iff,
              not_and]
            intro hpres _
            obtain ⟨b', hb', he'⟩ := hpres en hev
            rw [hc] at hb'
            cases hb'
            exact he he'

/-- The shape of the fired node: its buffers are those produced by the
sequential output processing after consuming the required event, its state
list has the first occurrence of the source state replaced, and its
acceptance flag is "all buffers empty". -/
theorem verificaFattibilitaSome (n : Nodo) (t : Transizione) (n' : Nodo)
    (h : verificaFattibilitaTransizione n t = some n') :
    ∃ bufs2, processaEventiOutput (bufsDopoNecessario n t) t.eventiOutput = some bufs2 ∧
      n'.stati = sostituisciPrimo n.stati t.stato0 t.stato1 ∧
      n'.contenutoLink = bufs2 ∧
      n'.isFinale = bufs2.all (fun b => b.evento == "") := by
  cases hev : t.eventoNecessario with
  | none =>
      have hb : bufsDopoNecessario n t = n.contenutoLink := by
        simp [bufsDopoNecessario, hev]
      rw [hb]
      simp only [verificaFattibilitaTransizione, hev, Nodo.clone] at h
      cases hp : processaEventiOutput n.contenutoLink t.eventiOutput with
      | none => rw [hp] at h; cases h
      | some bufs2 =>
          rw [hp] at h
          refine ⟨bufs2, rfl, ?_⟩
          cases h
          exact ⟨rfl, rfl, rfl⟩
  | some en =>
      have hb : bufsDopoNecessario n t = setContenutoLink n.contenutoLink en.link "" := by
        simp [bufsDopoNecessario, hev]
      rw [hb]
      simp only [verificaFattibilitaTransizione, hev, Nodo.clone] at h
      cases hc : cercaContenutoLink n.contenutoLink en.link with
      | none => rw [hc] at h; cases h
      | some b =>
          rw [hc] at h
          by_cases he : b.evento = en.evento
          · simp only [he, if_true] at h
            cases hp : processaEventiOutput (setContenutoLink n.contenutoLink en.link "")
                t.eventiOutput with
            | none => rw [hp] at h; cases h
            | some bufs2 =>
                rw [hp] at h
                refine ⟨bufs2, rfl, ?_⟩
                cases h
                exact ⟨rfl, rfl, rfl⟩
          · simp only [he, if_false] at h
            cases h

/-- Claim C1 (amended): for every behavioural-space node and transition,
the firing check succeeds if and only if the required event, when present,
equals the content of its link's buffer and, after that slot is emptied,
the output events are admissible sequentially (each finding the buffer of
its link, as updated by the previous output events, empty); on success the
returned node holds, in each link's buffer, the name written by the last
output event on that link (the post-consumption content when there is
none), its state vector has the first occurrence of the transition's source
state replaced by the target state with all other entries unchanged, and
its acceptance flag is recomputed as "every buffer slot is empty". -/
theorem c1_fattibilita_caratterizzata (n : Nodo) (t : Transizione)
    (hst : t.stato0 ∈ n.stati) :
    ((verificaFattibilitaTransizione n t).isSome ↔
      (EventoNecessarioPresente n t ∧
        EventiOutputAmmissibili (bufsDopoNecessario n t) t.eventiOutput)) ∧
    (∀ n', verificaFattibilitaTransizione n t = some n' →
      ((∀ l, cercaContenutoLink n'.contenutoLink l =
          (match ultimoEventoOutput t.eventiOutput l with
           | some e => (cercaContenutoLink (bufsDopoNecessario n t) l).map
               (fun b => { b with evento := e })
           | none => cercaContenutoLink (bufsDopoNecessario n t) l)) ∧
       (∃ pre post, n.stati = pre ++ t.stato0 :: post ∧ t.stato0 ∉ pre ∧
          n'.stati = pre ++ t.stato1 :: post) ∧
       (n'.isFinale = true ↔ ∀ b ∈ n'.contenutoLink, b.evento = ""))) := by
  refine ⟨verificaFattibilitaIsSome n t, ?_⟩
  intro n' h
  obtain ⟨bufs2, hp, hstati, hcont, hfin⟩ := verificaFattibilitaSome n t n' h
  refine ⟨?_, ?_, ?_⟩
  · intro l
    rw [hcont]
    exact processaSlot t.eventiOutput _ bufs2 hp l
  · obtain ⟨pre, post, hsplit, hnot, hrepl⟩ := sostituisciPrimoSplit n.stati t.stato0 t.stato1 hst
    exact ⟨pre, post, hsplit, hnot, by rw [hstati, hrepl]⟩
  · rw [hcont, hfin]
    simp [List.all_eq_true]

/-- Claim C1, as stated, is false: a transition with two output events on
the same link finds every output link's buffer empty after consuming the
(absent) required event, yet the firing check fails, because the check is
sequential and the first output fills the slot the second one needs. -/
theorem c1_controesempio :
    verificaFattibilitaTransizione nodoEsempioC1 transizioneDoppioOutput = none ∧
    transizioneDoppioOutput.eventoNecessario = none ∧
    ∀ eo ∈ transizioneDoppioOutput.eventiOutput,
      ∃ b, cercaContenutoLink nodoEsempioC1.contenutoLink eo.link = some b ∧
        b.evento = "" := by
  refine ⟨by decide, rfl, ?_⟩
  intro eo heo
  simp only [transizioneDoppioOutput, List.mem_cons, List.not_mem_nil, or_false] at heo
  rcases heo with h | h <;> subst h <;> exact ⟨⟨0, ""⟩, rfl, rfl⟩

/-- Witness for the amended claim C1 at a concrete node and transition. -/
theorem c1_witness :
    transizioneSemplice.stato0 ∈ nodoEsempioC1.stati ∧
    ((verificaFattibilitaTransizione nodoEsempioC1 transizioneSemplice).isSome ↔
      (EventoNecessarioPresente nodoEsempioC1 transizioneSemplice ∧
        EventiOutputAmmissibili (bufsDopoNecessario nodoEsempioC1 transizioneSemplice)
          transizioneSemplice.eventiOutput)) :=
  ⟨by decide, (c1_fattibilita_caratterizzata nodoEsempioC1 transizioneSemplice (by decide)).1⟩

/-- The character scan of `estraiAlternative` over metacharacter-free input
only accumulates the buffer. -/
theorem foldPassoEstraiSemplice :
    ∀ (l : List Char) (p : Int) (b : String) (alts : List String),
      (∀ c ∈ l, c ≠ '|' ∧ c ≠ '(' ∧ c ≠ ')') →
      l.foldl passoEstrai (p, b, alts) = (p, ⟨b.data ++ l⟩, alts) := by
  intro l
  induction l with
  | nil =>
      intro p b alts _
      simp
  | cons c cs ih =>
      intro p b alts h
      obtain ⟨h1, h2, h3⟩ := h c (List.mem_cons_self c cs)
      have hstep : passoEstrai (p, b, alts) c = (p, b.push c, alts) := by
        simp [passoEstrai, h1, h2, h3]
      rw [List.foldl_cons, hstep, ih _ _ _ (fun x hx => h x (List.mem_cons_of_mem _ hx))]
      refine congrArg (fun s => ((p : Int), s, alts)) ?_
      refine congrArg String.mk ?_
      simp [String.push]

/-- On a non-epsilon string over the label alphabet, `estraiAlternative` is
the singleton of the string itself. -/
theorem estraiAlternativeSemplici (a : String) (h : senzaCaratteriSpeciali a = true)
    (hs : ¬(a = "" ∨ a = "ε")) : estraiAlternative a = [a] := by
  have hc : ∀ c ∈ a.toList, c ≠ '|' ∧ c ≠ '(' ∧ c ≠ ')' := by
    intro c hmem
    have hall := (List.all_eq_true.mp h) c hmem
    simp only [Bool.and_eq_true, bne_iff_ne, ne_eq] at hall
    exact ⟨hall.1.1, hall.1.2, hall.2⟩
  have hne : a ≠ "" := fun hx => hs (Or.inl hx)
  simp only [estraiAlternative, hs, if_false]
  rw [foldPassoEstraiSemplice a.toList 0 "" [] hc]
  have hmk : (⟨"".data ++ a.toList⟩ : String) = a := rfl
  rw [hmk]
  simp [hne, dedupPrimo]

/-- Claim C9: over strings of the regex label alphabet (no `|`, `(`, `)`
metacharacters), concatenation with the empty regex on either side and
self-alternation are identities, modulo the ordering of top-level
alternatives and the identification of `""` with `"ε"`. -/
theorem c9_identita_algebra (a : String) (h : senzaCaratteriSpeciali a = true) :
    equivalenti (concatenaRilevanza a "") a ∧ equivalenti (concatenaRilevanza "" a) a ∧
      equivalenti (alternativaRilevanza a a) a := by
  by_cases hs : a = "" ∨ a = "ε"
  · rcases hs with h0 | h0 <;> subst h0
    · exact ⟨by unfold equivalenti; decide, by unfold equivalenti; decide,
        by unfold equivalenti; decide⟩
    · exact ⟨by unfold equivalenti; decide, by unfold equivalenti; decide,
        by unfold equivalenti; decide⟩
  · have he : estraiAlternative a = [a] := estraiAlternativeSemplici a h hs
    have hne : a ≠ "" := fun hx => hs (Or.inl hx)
    have hneps : a ≠ "ε" := fun hx => hs (Or.inr hx)
    have hv : estraiAlternative "" = ["ε"] := rfl
    have hca : concatenaRilevanza a "" = a := by
      simp only [concatenaRilevanza, he, hv, List.foldl_cons, List.foldl_nil]
      simp [hne, hneps, String.append_empty, dedupPrimo, ricomponiAlternative]
    have hcb : concatenaRilevanza "" a = a := by
      simp only [concatenaRilevanza, he, hv, List.foldl_cons, List.foldl_nil]
      simp [hne, hneps, String.empty_append, dedupPrimo, ricomponiAlternative]
    have hal : alternativaRilevanza a a = a := by
      simp only [alternativaRilevanza, he]
      simp [dedupPrimo, ricomponiAlternative, hneps]
    rw [hca, hcb, hal]
    exact ⟨rfl, rfl, rfl⟩

/-- Witness for claim C9 at a concrete label string. -/
theorem c9_witness :
    senzaCaratteriSpeciali "ab" = true ∧ equivalenti (concatenaRilevanza "ab" "") "ab" :=
  ⟨by decide, (c9_identita_algebra "ab" (by decide)).1⟩

/-- Membership in the first-occurrence deduplication. -/
theorem dedupPrimoMem {α : Type _} [BEq α] [LawfulBEq α] (l : List α) (x : α) :
    x ∈ dedupPrimo l ↔ x ∈ l := by
  have passo : ∀ (l : List α) (acc : List α),
      (x ∈ l.foldl (fun acc x => if acc.contains x then acc else acc ++ [x]) acc ↔
        x ∈ acc ∨ x ∈ l) := by
    intro l
    induction l with
    | nil => intro acc; simp
    | cons y ys ih =>
        intro acc
        rw [List.foldl_cons, ih]
        by_cases hy : acc.contains y
        · have hmem : y ∈ acc := by simpa using hy
          simp only [hy, if_true, List.mem_cons]
          constructor
          · rintro (h | h)
            · exact Or.inl h
            · exact Or.inr (Or.inr h)
          · rintro (h | h | h)
            · exact Or.inl h
            · exact Or.inl (h ▸ hmem)
            · exact Or.inr h
        · have hy' : acc.contains y = false := by simpa using hy
          simp only [hy', Bool.false_eq_true, if_false, List.mem_append, List.mem_singleton,
            List.mem_cons]
          tauto
  rw [dedupPrimo, passo]
  simp

/-- The loop of the observation pre-check errors exactly when some label of
its list is absent from every transition. -/
theorem verificaOLAuxError (rete : ReteFA) :
    ∀ L : List String, (∃ e, verificaOsservazioneLineareAux rete L = Except.error e) ↔
      ∃ l ∈ L, esisteEtichetta rete l = false := by
  intro L
  induction L with
  | nil => simp [verificaOsservazioneLineareAux]
  | cons e rest ih =>
      by_cases he : esisteEtichetta rete e
      · simp only [verificaOsservazioneLineareAux, he, if_true]
        rw [ih]
        constructor
        · rintro ⟨l, hl, hfalse⟩
          exact ⟨l, List.mem_cons_of_mem _ hl, hfalse⟩
        · rintro ⟨l, hl, hfalse⟩
          rcases List.mem_cons.mp hl with h1 | h1
          · subst h1; rw [he] at hfalse; cases hfalse
          · exact ⟨l, h1, hfalse⟩
      · have he' : esisteEtichetta rete e = false := by simpa using he
        simp only [verificaOsservazioneLineareAux, he', Bool.false_eq_true, if_false]
        constructor
        · intro _
          exact ⟨e, List.mem_cons_self e rest, he'⟩
        · intro _
          exact ⟨e, rfl⟩

/-- A label is absent from every transition iff `esisteEtichetta` is
false. -/
theorem esisteEtichettaFalse (rete : ReteFA) (l : String) :
    esisteEtichetta rete l = false ↔
      ∀ c ∈ rete.comportamenti, ∀ t ∈ c.transizioni, t.osservabilita ≠ l := by
  simp only [esisteEtichetta, Bool.eq_false_iff, ne_eq, List.any_eq_true, beq_iff_eq]
  push_neg
  constructor
  · intro h c hc t ht
    exact h c hc t ht
  · intro h c hc t ht
    exact h c hc t ht

/-- Claim C6: the observation-filtered builder fails (with the
`ObservationIncompatible` error, raised by the pre-check before any node is
constructed) if and only if some label of the linear observation is the
observability label of no transition of the network; otherwise construction
proceeds without error. -/
theorem c6_osservazione_incompatibile (rete : ReteFA) (ol : List String) (fuel : Nat) :
    (∃ e, creaSpazioComportamentaleOL rete ol fuel = Except.error e) ↔
      ∃ etichetta ∈ ol, ∀ c ∈ rete.comportamenti, ∀ t ∈ c.transizioni,
        t.osservabilita ≠ etichetta := by
  have chiave : (∃ e, verificaOsservazioneLineareAux rete (dedupPrimo ol) = Except.error e) ↔
      ∃ etichetta ∈ ol, ∀ c ∈ rete.comportamenti, ∀ t ∈ c.transizioni,
        t.osservabilita ≠ etichetta := by
    rw [verificaOLAuxError]
    constructor
    · rintro ⟨l, hl, hfalse⟩
      exact ⟨l, (dedupPrimoMem ol l).mp hl, (esisteEtichettaFalse rete l).mp hfalse⟩
    · rintro ⟨l, hl, hne⟩
      exact ⟨l, (dedupPrimoMem ol l).mpr hl, (esisteEtichettaFalse rete l).mpr hne⟩
  cases hv : verificaOsservazioneLineareAux rete (dedupPrimo ol) with
  | error e =>
      simp only [creaSpazioComportamentaleOL, verificaOsservazioneLineare, hv]
      rw [← chiave]
      simp [hv]
  | ok u =>
      cases u
      simp only [creaSpazioComportamentaleOL, verificaOsservazioneLineare, hv]
      rw [← chiave]
      simp [hv]

/-- Invariance of a property along a left fold, for steps taken in the
list. -/
theorem foldlInvarianteMem {α σ : Type _} (P : σ → Prop) (f : σ → α → σ) :
    ∀ l : List α, (∀ s a, a ∈ l → P s → P (f s a)) → ∀ s, P s → P (l.foldl f s) := by
  intro l
  induction l with
  | nil => intro _ s hs; exact hs
  | cons x xs ih =>
      intro h s hs
      exact ih (fun s' a ha hP => h s' a (List.mem_cons_of_mem _ ha) hP) (f s x)
        (h s x (List.mem_cons_self x xs) hs)

/-- Claim C8 (amended): for every network from which no unobservable
transition can fire out of the initial configuration (which is always
accepting), the observation-filtered builder under the empty observation
produces a behavioural space with a single node and no edges, and the
pruner then fails with the `EmptySpace` error on that space — its edge
list is empty — so the direct extraction path, which prunes this filtered
space before extracting, stops in the pruning step without returning a
diagnosis.  (The diagnoser path prunes the unfiltered space instead and
is not constrained by this theorem.) -/
theorem c8_spazio_singolo (rete : ReteFA)
    (hsil : ∀ s ∈ (creaNodoIniziale rete).stati, ∀ t ∈ transizioniUscenti rete s,
      t.osservabilita = "" →
        verificaFattibilitaTransizione (nodoInizialeVuotaOL rete) t = none) :
    (∀ fuel : Nat, creaSpazioComportamentaleOL rete [] (fuel + 1) =
      Except.ok (some (spazioSingoloOL rete))) ∧
    (∀ fuel : Nat, potaturaRidenominazione (spazioSingoloOL rete) fuel =
      some (Except.error ())) := by
  have hproc : processaNodoOL rete [] (spazioSingoloOL rete) [] 0 =
      (spazioSingoloOL rete, []) := by
    unfold processaNodoOL
    refine foldlInvarianteMem (fun st => st = (spazioSingoloOL rete, [])) _ _ ?_ _ rfl
    intro acc s hs hP
    refine foldlInvarianteMem (fun st => st = (spazioSingoloOL rete, [])) _ _ ?_ _ hP
    intro acc2 t ht hP2
    subst hP2
    by_cases hoss : t.osservabilita = ""
    · have hget : (spazioSingoloOL rete).getN 0 = nodoInizialeVuotaOL rete := rfl
      have hmem : s ∈ (creaNodoIniziale rete).stati := by
        have : ((spazioSingoloOL rete).getN 0).stati = (creaNodoIniziale rete).stati := rfl
        rw [← this]
        exact hs
      have hver := hsil s hmem t ht hoss
      simp only [esploraTransizioneOL, hget, hoss, true_or, if_true, hver]
    · have hidx : ((spazioSingoloOL rete).getN 0).indiceOsservazione = 0 := rfl
      simp only [esploraTransizioneOL, hidx, List.length_nil, Nat.lt_irrefl, false_and,
        or_false, hoss, if_false]
  constructor
  · intro fuel
    have hred : creaSpazioComportamentaleOL rete [] (fuel + 1) =
        Except.ok (cicloCreaSpazioOL rete [] (fuel + 1) (spazioSingoloOL rete) 0 []) := rfl
    rw [hred]
    have hloop : cicloCreaSpazioOL rete [] (fuel + 1) (spazioSingoloOL rete) 0 [] =
        some (spazioSingoloOL rete) := by
      simp only [cicloCreaSpazioOL, hproc]
    rw [hloop]
  · intro fuel
    rfl

/-- Claim C8, as stated, is false on three counts, each witnessed by a
network whose initial configuration is accepting: with a firable silent
transition the empty-observation space has two nodes, not one; on the
network producing the single-node space the pruner of the direct
extraction path raises `EmptySpace` (the filtered space's edge list is
empty) instead of leading to the empty diagnosis; and on that same
network the diagnoser path fares no better, since the unfiltered space is
also a single node without edges and its pruning — the path's first step
after construction — raises `EmptySpace` too, so the path returns no
diagnosis at all. -/
theorem c8_controesempio :
    contaNodiCostruzioneOL reteSilenziosa [] 10 = some 2 ∧
    contaNodiCostruzioneOL reteSenzaTransizioni [] 10 = some 1 ∧
    potaturaDopoCostruzioneOL reteSenzaTransizioni [] 10 = some (Except.error ()) ∧
    potaturaDopoCostruzione reteSenzaTransizioni 10 = some (Except.error ()) :=
  ⟨rfl, rfl, rfl, rfl⟩

/-- Witness for the amended claim C8 at a concrete network. -/
theorem c8_witness :
    (∀ s ∈ (creaNodoIniziale reteSenzaTransizioni).stati,
      ∀ t ∈ transizioniUscenti reteSenzaTransizioni s, t.osservabilita = "" →
        verificaFattibilitaTransizione (nodoInizialeVuotaOL reteSenzaTransizioni) t = none) ∧
    creaSpazioComportamentaleOL reteSenzaTransizioni [] 10 =
      Except.ok (some (spazioSingoloOL reteSenzaTransizioni)) :=
  ⟨by decide, (c8_spazio_singolo reteSenzaTransizioni (by decide)).1 9⟩

/-!  Builder invariants (claim C10).  -/

/-- Reachability transfers to a space with the same initial node whose edge
list and edge values extend the given one. -/
theorem raggTrasferimento (sc sc' : SpazioComportamentale)
    (hini : sc'.nodoIniziale = sc.nodoIniziale)
    (harchi : ∀ eid ∈ sc.archi, eid ∈ sc'.archi ∧ sc'.getA eid = sc.getA eid) :
    ∀ v, Raggiungibile sc v → Raggiungibile sc' v := by
  intro v h
  induction h with
  | iniziale v hv => exact Raggiungibile.iniziale v (by rw [hini, hv])
  | passo eid hmem _ ih =>
      obtain ⟨hm', hga⟩ := harchi eid hmem
      have hstep := @Raggiungibile.passo sc' eid hm' (by rw [hga]; exact ih)
      rw [hga] at hstep
      exact hstep

/-- `addArco` leaves the membership lists, the initial node, and all node
fields except the source's adjacency unchanged; old edges keep their
values. -/
theorem getAAddArcoVecchio (sc : SpazioComportamentale) (a : Arco) (eid : Nat)
    (h : eid < sc.heapA.length) : (sc.addArco a).getA eid = sc.getA eid := by
  simp only [SpazioComportamentale.addArco, SpazioComportamentale.getA,
    SpazioComportamentale.setN, SpazioComportamentale.getN]
  exact List.getD_append _ _ _ _ h

/-- The fresh edge of `addArco` dereferences to the added value. -/
theorem getAAddArcoNuovo (sc : SpazioComportamentale) (a : Arco) :
    (sc.addArco a).getA sc.heapA.length = a := by
  simp only [SpazioComportamentale.addArco, SpazioComportamentale.getA,
    SpazioComportamentale.setN, SpazioComportamentale.getN]
  rw [List.getD_append_right _ _ _ _ (le_refl _)]
  simp

/-- `addArco` only touches the source node's adjacency list. -/
theorem getNAddArcoAltro (sc : SpazioComportamentale) (a : Arco) (nid : Nat)
    (h : nid ≠ a.nodo0) : (sc.addArco a).getN nid = sc.getN nid := by
  simp only [SpazioComportamentale.addArco, SpazioComportamentale.getN,
    SpazioComportamentale.setN]
  simp [List.getD, List.getElem?_set_ne (fun hx => h hx.symm)]

/-- `addArco` appends the fresh edge to the source node's adjacency. -/
theorem getNAddArcoSorgente (sc : SpazioComportamentale) (a : Arco)
    (h : a.nodo0 < sc.heapN.length) :
    (sc.addArco a).getN a.nodo0 =
      { sc.getN a.nodo0 with
        archiUscenti := (sc.getN a.nodo0).archiUscenti ++ [sc.heapA.length] } := by
  simp only [SpazioComportamentale.addArco, SpazioComportamentale.getN,
    SpazioComportamentale.setN]
  simp [List.getD, List.getElem?_set_self, h]

/-- `addNodo` does not change edge dereferencing. -/
theorem getAAddNodo (sc : SpazioComportamentale) (n : Nodo) (eid : Nat) :
    (sc.addNodo n).1.getA eid = sc.getA eid := rfl

/-- `addNodo` keeps the value of every old node. -/
theorem getNAddNodoVecchio (sc : SpazioComportamentale) (n : Nodo) (nid : Nat)
    (h : nid < sc.heapN.length) : (sc.addNodo n).1.getN nid = sc.getN nid := by
  simp only [SpazioComportamentale.addNodo, SpazioComportamentale.getN]
  exact List.getD_append _ _ _ _ h

/-- Adding an edge between nodes of the space preserves the structural
invariant. -/
theorem invArchiAddArco (sc : SpazioComportamentale) (a : Arco) (hinv : InvArchi sc)
    (h0 : a.nodo0 ∈ sc.nodi) (h1 : a.nodo1 ∈ sc.nodi) : InvArchi (sc.addArco a) := by
  obtain ⟨harchi, hnodi⟩ := hinv
  have hb0 : a.nodo0 < sc.heapN.length := hnodi a.nodo0 h0
  have harchiList : (sc.addArco a).archi = sc.archi ++ [sc.heapA.length] := rfl
  have hnodiList : (sc.addArco a).nodi = sc.nodi := rfl
  have hlenA : (sc.addArco a).heapA.length = sc.heapA.length + 1 := by
    simp [SpazioComportamentale.addArco, SpazioComportamentale.setN]
  have hlenN : (sc.addArco a).heapN.length = sc.heapN.length := by
    simp [SpazioComportamentale.addArco, SpazioComportamentale.setN]
  constructor
  · intro eid hmem
    rw [harchiList, List.mem_append, List.mem_singleton] at hmem
    rcases hmem with hold | hnew
    · obtain ⟨hlt, hm0, hm1, hadj⟩ := harchi eid hold
      have hga : (sc.addArco a).getA eid = sc.getA eid := getAAddArcoVecchio sc a eid hlt
      refine ⟨by rw [hlenA]; omega, by rw [hga, hnodiList]; exact hm0,
        by rw [hga, hnodiList]; exact hm1, ?_⟩
      rw [hga]
      by_cases hsrc : (sc.getA eid).nodo0 = a.nodo0
      · rw [hsrc, getNAddArcoSorgente sc a hb0]
        simp only [List.mem_append]
        exact Or.inl (hsrc ▸ hadj)
      · rw [getNAddArcoAltro sc a _ hsrc]
        exact hadj
    · subst hnew
      have hga : (sc.addArco a).getA sc.heapA.length = a := getAAddArcoNuovo sc a
      refine ⟨by rw [hlenA]; omega, by rw [hga, hnodiList]; exact h0,
        by rw [hga, hnodiList]; exact h1, ?_⟩
      rw [hga, getNAddArcoSorgente sc a hb0]
      simp
  · intro nid hmem
    rw [hnodiList] at hmem
    rw [hlenN]
    exact hnodi nid hmem

/-- Adding an edge preserves reachability of every node. -/
theorem raggAddArco (sc : SpazioComportamentale) (a : Arco) (hinv : InvArchi sc) :
    ∀ v, Raggiungibile sc v → Raggiungibile (sc.addArco a) v := by
  refine raggTrasferimento sc (sc.addArco a) rfl ?_
  intro eid hmem
  exact ⟨List.mem_append_left _ hmem, getAAddArcoVecchio sc a eid (hinv.1 eid hmem).1⟩

/-- Adding a node preserves reachability (the derivations do not mention
the node list). -/
theorem raggAddNodo (sc : SpazioComportamentale) (n : Nodo) :
    ∀ v, Raggiungibile sc v → Raggiungibile (sc.addNodo n).1 v := by
  refine raggTrasferimento sc (sc.addNodo n).1 rfl ?_
  intro eid hmem
  exact ⟨hmem, rfl⟩

/-- A node found by value search is in the node list. -/
theorem ricercaNodoMem (sc : SpazioComportamentale) (n : Nodo) (rif : Nat)
    (h : sc.ricercaNodo n = some rif) : rif ∈ sc.nodi :=
  List.mem_of_find?_eq_some h

/-- Deduplicated successor: adding only the edge preserves the full
construction invariant. -/
theorem invCasoTrovato (sc : SpazioComportamentale) (pending : List Nat)
    (nodoCorr rif : Nat) (tr : Option Transizione) (ril oss : String)
    (hinv : InvCostruzione sc pending) (hcorr : nodoCorr ∈ sc.nodi) (hrif : rif ∈ sc.nodi) :
    InvCostruzione (sc.addArco ⟨nodoCorr, rif, tr, true, ril, oss⟩) pending := by
  obtain ⟨harchi, hragg, hpend⟩ := hinv
  refine ⟨invArchiAddArco sc _ harchi hcorr hrif, ?_, ?_⟩
  · intro nid hmem
    exact raggAddArco sc _ harchi nid (hragg nid hmem)
  · intro nid hmem
    exact hpend nid hmem

/-- Fresh successor: adding the node and the edge from the current node
preserves the full construction invariant, with the fresh node pushed on
the stack. -/
theorem invCasoNuovo (sc : SpazioComportamentale) (pending : List Nat)
    (nodoCorr : Nat) (succ : Nodo) (tr : Option Transizione) (ril oss : String)
    (hinv : InvCostruzione sc pending) (hcorr : nodoCorr ∈ sc.nodi) :
    InvCostruzione
      ((sc.addNodo succ).1.addArco ⟨nodoCorr, (sc.addNodo succ).2, tr, true, ril, oss⟩)
      ((sc.addNodo succ).2 :: pending) := by
  obtain ⟨⟨harchi, hnodi⟩, hragg, hpend⟩ := hinv
  have hnodiN : (sc.addNodo succ).1.nodi = sc.nodi ++ [sc.heapN.length] := rfl
  have harchiN : (sc.addNodo succ).1.archi = sc.archi := rfl
  have hsnd : (sc.addNodo succ).2 = sc.heapN.length := rfl
  have hinv1 : InvArchi (sc.addNodo succ).1 := by
    constructor
    · intro eid hmem
      rw [harchiN] at hmem
      obtain ⟨hlt, hm0, hm1, hadj⟩ := harchi eid hmem
      have hga : (sc.addNodo succ).1.getA eid = sc.getA eid := rfl
      refine ⟨hlt, ?_, ?_, ?_⟩
      · rw [hga, hnodiN]; exact List.mem_append_left _ hm0
      · rw [hga, hnodiN]; exact List.mem_append_left _ hm1
      · rw [hga, getNAddNodoVecchio sc succ _ (hnodi _ hm0)]
        exact hadj
    · intro nid hmem
      rw [hnodiN, List.mem_append, List.mem_singleton] at hmem
      have hlen : (sc.addNodo succ).1.heapN.length = sc.heapN.length + 1 := by
        simp [SpazioComportamentale.addNodo]
      rw [hlen]
      rcases hmem with h | h
      · exact Nat.lt_succ_of_lt (hnodi nid h)
      · omega
  have hcorr1 : nodoCorr ∈ (sc.addNodo succ).1.nodi := by
    rw [hnodiN]; exact List.mem_append_left _ hcorr
  have hsucc1 : (sc.addNodo succ).2 ∈ (sc.addNodo succ).1.nodi := by
    rw [hnodiN, hsnd]
    exact List.mem_append_right _ (List.mem_singleton.mpr rfl)
  refine ⟨invArchiAddArco _ _ hinv1 hcorr1 hsucc1, ?_, ?_⟩
  · intro nid hmem
    have hraggCorr : Raggiungibile
        ((sc.addNodo succ).1.addArco ⟨nodoCorr, (sc.addNodo succ).2, tr, true, ril, oss⟩)
        nodoCorr :=
      raggAddArco _ _ hinv1 nodoCorr (raggAddNodo sc succ nodoCorr (hragg nodoCorr hcorr))
    have hnodiFin : ((sc.addNodo succ).1.addArco
        ⟨nodoCorr, (sc.addNodo succ).2, tr, true, ril, oss⟩).nodi = sc.nodi ++ [sc.heapN.length] :=
      rfl
    rw [hnodiFin, List.mem_append, List.mem_singleton] at hmem
    rcases hmem with h | h
    · exact raggAddArco _ _ hinv1 nid (raggAddNodo sc succ nid (hragg nid h))
    · subst h
      have heid : ((sc.addNodo succ).1.addArco
          ⟨nodoCorr, (sc.addNodo succ).2, tr, true, ril, oss⟩).getA
            (sc.addNodo succ).1.heapA.length =
          ⟨nodoCorr, (sc.addNodo succ).2, tr, true, ril, oss⟩ :=
        getAAddArcoNuovo (sc.addNodo succ).1 _
      have hmemArchi : (sc.addNodo succ).1.heapA.length ∈
          ((sc.addNodo succ).1.addArco
            ⟨nodoCorr, (sc.addNodo succ).2, tr, true, ril, oss⟩).archi :=
        List.mem_append_right _ (List.mem_singleton.mpr rfl)
      have hstep := @Raggiungibile.passo ((sc.addNodo succ).1.addArco
          ⟨nodoCorr, (sc.addNodo succ).2, tr, true, ril, oss⟩)
        (sc.addNodo succ).1.heapA.length hmemArchi (by rw [heid]; exact hraggCorr)
      rw [heid] at hstep
      rw [← hsnd]
      exact hstep
  · intro nid hmem
    rcases List.mem_cons.mp hmem with h | h
    · subst h
      exact hsucc1
    · show nid ∈ sc.nodi ++ [sc.heapN.length]
      exact List.mem_append_left _ (hpend nid h)

/-- One transition attempt of the unfiltered builder preserves the
construction invariant. -/
theorem invEsploraTransizione (sc : SpazioComportamentale) (stack : List Nat)
    (nodoCorr : Nat) (trans : Transizione)
    (h : InvCostruzione sc stack ∧ nodoCorr ∈ sc.nodi) :
    InvCostruzione (esploraTransizione sc stack nodoCorr trans).1
        (esploraTransizione sc stack nodoCorr trans).2 ∧
      nodoCorr ∈ (esploraTransizione sc stack nodoCorr trans).1.nodi := by
  obtain ⟨hinv, hcorr⟩ := h
  rcases hv : verificaFattibilitaTransizione (sc.getN nodoCorr) trans with _ | succ
  · simp only [esploraTransizione, hv]
    exact ⟨hinv, hcorr⟩
  · simp only [esploraTransizione, hv]
    rcases hric : sc.ricercaNodo succ with _ | rif
    · simp only [hric]
      exact ⟨invCasoNuovo sc stack nodoCorr succ (some trans) trans.rilevanza
        trans.osservabilita hinv hcorr, List.mem_append_left _ hcorr⟩
    · simp only [hric]
      exact ⟨invCasoTrovato sc stack nodoCorr rif (some trans) trans.rilevanza
        trans.osservabilita hinv hcorr (ricercaNodoMem sc succ rif hric), hcorr⟩

/-- One transition attempt of the observation-filtered builder preserves
the construction invariant. -/
theorem invEsploraTransizioneOL (ol : List String) (sc : SpazioComportamentale)
    (stack : List Nat) (nodoCorr : Nat) (trans : Transizione)
    (h : InvCostruzione sc stack ∧ nodoCorr ∈ sc.nodi) :
    InvCostruzione (esploraTransizioneOL ol sc stack nodoCorr trans).1
        (esploraTransizioneOL ol sc stack nodoCorr trans).2 ∧
      nodoCorr ∈ (esploraTransizioneOL ol sc stack nodoCorr trans).1.nodi := by
  obtain ⟨hinv, hcorr⟩ := h
  by_cases hf : trans.osservabilita = "" ∨
      ((sc.getN nodoCorr).indiceOsservazione < ol.length ∧
        ol.getD (sc.getN nodoCorr).indiceOsservazione "" = trans.osservabilita)
  · rcases hv : verificaFattibilitaTransizione (sc.getN nodoCorr) trans with _ | n1
    · simp only [esploraTransizioneOL, hv]
      rw [if_pos hf]
      exact ⟨hinv, hcorr⟩
    · simp only [esploraTransizioneOL, hv]
      rw [if_pos hf]
      rcases hric : sc.ricercaNodo
          { n1 with
            indiceOsservazione :=
              if trans.osservabilita = "" then (sc.getN nodoCorr).indiceOsservazione
              else (sc.getN nodoCorr).indiceOsservazione + 1,
            isFinale := n1.isFinale &&
              ((if trans.osservabilita = "" then (sc.getN nodoCorr).indiceOsservazione
                else (sc.getN nodoCorr).indiceOsservazione + 1) == ol.length) } with _ | rif
      · simp only [hric]
        exact ⟨invCasoNuovo sc stack nodoCorr _ (some trans) trans.rilevanza
          trans.osservabilita hinv hcorr, List.mem_append_left _ hcorr⟩
      · simp only [hric]
        exact ⟨invCasoTrovato sc stack nodoCorr rif (some trans) trans.rilevanza
          trans.osservabilita hinv hcorr (ricercaNodoMem sc _ rif hric), hcorr⟩
  · simp only [esploraTransizioneOL]
    rw [if_neg hf]
    exact ⟨hinv, hcorr⟩

/-- Processing one node of the exploration stack preserves the construction
invariant (unfiltered builder). -/
theorem invProcessaNodo (rete : ReteFA) (sc : SpazioComportamentale) (stack : List Nat)
    (nodoCorr : Nat) (hinv : InvCostruzione sc stack) (hcorr : nodoCorr ∈ sc.nodi) :
    InvCostruzione (processaNodo rete sc stack nodoCorr).1
        (processaNodo rete sc stack nodoCorr).2 ∧
      nodoCorr ∈ (processaNodo rete sc stack nodoCorr).1.nodi := by
  unfold processaNodo
  refine foldlInvarianteMem
    (fun (st : SpazioComportamentale × List Nat) => InvCostruzione st.1 st.2 ∧ nodoCorr ∈ st.1.nodi) _ _ ?_ _ ⟨hinv, hcorr⟩
  intro s a _ hP
  refine foldlInvarianteMem
    (fun (st : SpazioComportamentale × List Nat) => InvCostruzione st.1 st.2 ∧ nodoCorr ∈ st.1.nodi) _ _ ?_ _ hP
  intro s2 t _ hP2
  exact invEsploraTransizione s2.1 s2.2 nodoCorr t hP2

/-- Processing one node of the exploration stack preserves the construction
invariant (observation-filtered builder). -/
theorem invProcessaNodoOL (rete : ReteFA) (ol : List String) (sc : SpazioComportamentale)
    (stack : List Nat) (nodoCorr : Nat)
    (hinv : InvCostruzione sc stack) (hcorr : nodoCorr ∈ sc.nodi) :
    InvCostruzione (processaNodoOL rete ol sc stack nodoCorr).1
        (processaNodoOL rete ol sc stack nodoCorr).2 ∧
      nodoCorr ∈ (processaNodoOL rete ol sc stack nodoCorr).1.nodi := by
  unfold processaNodoOL
  refine foldlInvarianteMem
    (fun (st : SpazioComportamentale × List Nat) => InvCostruzione st.1 st.2 ∧ nodoCorr ∈ st.1.nodi) _ _ ?_ _ ⟨hinv, hcorr⟩
  intro s a _ hP
  refine foldlInvarianteMem
    (fun (st : SpazioComportamentale × List Nat) => InvCostruzione st.1 st.2 ∧ nodoCorr ∈ st.1.nodi) _ _ ?_ _ hP
  intro s2 t _ hP2
  exact invEsploraTransizioneOL ol s2.1 s2.2 nodoCorr t hP2

/-- The exploration loop of the unfiltered builder turns the construction
invariant into well-formedness of its result. -/
theorem invCicloCreaSpazio (rete : ReteFA) :
    ∀ (fuel : Nat) (sc : SpazioComportamentale) (nodoCorr : Nat) (stack : List Nat)
      (sc' : SpazioComportamentale),
      InvCostruzione sc stack → nodoCorr ∈ sc.nodi →
      cicloCreaSpazio rete fuel sc nodoCorr stack = some sc' → SpazioBenFormato sc' := by
  intro fuel
  induction fuel with
  | zero => intro sc nodoCorr stack sc' _ _ hrun; cases hrun
  | succ fuel ih =>
      intro sc nodoCorr stack sc' hinv hcorr hrun
      obtain ⟨hinv', _⟩ := invProcessaNodo rete sc stack nodoCorr hinv hcorr
      simp only [cicloCreaSpazio] at hrun
      cases hstack : (processaNodo rete sc stack nodoCorr).2 with
      | nil =>
          rw [hstack] at hrun
          cases hrun
          rw [hstack] at hinv'
          exact ⟨hinv'.1.1, hinv'.2.1⟩
      | cons n rest =>
          rw [hstack] at hrun
          rw [hstack] at hinv'
          refine ih _ n rest sc' ⟨hinv'.1, hinv'.2.1, ?_⟩ ?_ hrun
          · intro nid hmem
            exact hinv'.2.2 nid (List.mem_cons_of_mem _ hmem)
          · exact hinv'.2.2 n (List.mem_cons_self n rest)

/-- The exploration loop of the observation-filtered builder turns the
construction invariant into well-formedness of its result. -/
theorem invCicloCreaSpazioOL (rete : ReteFA) (ol : List String) :
    ∀ (fuel : Nat) (sc : SpazioComportamentale) (nodoCorr : Nat) (stack : List Nat)
      (sc' : SpazioComportamentale),
      InvCostruzione sc stack → nodoCorr ∈ sc.nodi →
      cicloCreaSpazioOL rete ol fuel sc nodoCorr stack = some sc' → SpazioBenFormato sc' := by
  intro fuel
  induction fuel with
  | zero => intro sc nodoCorr stack sc' _ _ hrun; cases hrun
  | succ fuel ih =>
      intro sc nodoCorr stack sc' hinv hcorr hrun
      obtain ⟨hinv', _⟩ := invProcessaNodoOL rete ol sc stack nodoCorr hinv hcorr
      simp only [cicloCreaSpazioOL] at hrun
      cases hstack : (processaNodoOL rete ol sc stack nodoCorr).2 with
      | nil =>
          rw [hstack] at hrun
          cases hrun
          rw [hstack] at hinv'
          exact ⟨hinv'.1.1, hinv'.2.1⟩
      | cons n rest =>
          rw [hstack] at hrun
          rw [hstack] at hinv'
          refine ih _ n rest sc' ⟨hinv'.1, hinv'.2.1, ?_⟩ ?_ hrun
          · intro nid hmem
            exact hinv'.2.2 nid (List.mem_cons_of_mem _ hmem)
          · exact hinv'.2.2 n (List.mem_cons_self n rest)

/-- The construction invariant of the one-node space the builders start
from. -/
theorem invSpazioIniziale (ni : Nodo) :
    InvCostruzione ⟨[ni], [], [0], [], some 0⟩ [] := by
  refine ⟨⟨?_, ?_⟩, ?_, ?_⟩
  · intro eid hmem; cases hmem
  · intro nid hmem
    rcases List.mem_singleton.mp hmem with h
    subst h
    simp
  · intro nid hmem
    rcases List.mem_singleton.mp hmem with h
    subst h
    exact Raggiungibile.iniziale 0 rfl
  · intro nid hmem; cases hmem

/-- Claim C10: in every behavioural space returned by either builder, each
edge's endpoints are nodes of the space, each edge is recorded in its
source node's outgoing list, and every node is reachable from the initial
node along the space's edges. -/
theorem c10_costruzione_ben_formata :
    (∀ (rete : ReteFA) (fuel : Nat) (sc : SpazioComportamentale),
      creaSpazioComportamentale rete fuel = some sc → SpazioBenFormato sc) ∧
    (∀ (rete : ReteFA) (ol : List String) (fuel : Nat) (sc : SpazioComportamentale),
      creaSpazioComportamentaleOL rete ol fuel = Except.ok (some sc) →
        SpazioBenFormato sc) := by
  constructor
  · intro rete fuel sc hrun
    unfold creaSpazioComportamentale at hrun
    exact invCicloCreaSpazio rete fuel _ 0 [] sc (invSpazioIniziale _)
      (List.mem_singleton.mpr rfl) hrun
  · intro rete ol fuel sc hrun
    unfold creaSpazioComportamentaleOL at hrun
    cases hv : verificaOsservazioneLineare rete ol with
    | error e => rw [hv] at hrun; cases hrun
    | ok u =>
        rw [hv] at hrun
        simp only [Except.ok.injEq] at hrun
        exact invCicloCreaSpazioOL rete ol fuel _ 0 [] sc (invSpazioIniziale _)
          (List.mem_singleton.mpr rfl) hrun

/-- Witness for claim C10: both builders on the example network. -/
theorem c10_witness :
    creaSpazioComportamentale reteEsempio 10 = some spazioTestimoneC10 ∧
    SpazioBenFormato spazioTestimoneC10 ∧
    creaSpazioComportamentaleOL reteEsempio ["o"] 10 = Except.ok (some spazioTestimoneC10OL) ∧
    SpazioBenFormato spazioTestimoneC10OL :=
  ⟨rfl, c10_costruzione_ben_formata.1 reteEsempio 10 spazioTestimoneC10 rfl, rfl,
    c10_costruzione_ben_formata.2 reteEsempio ["o"] 10 spazioTestimoneC10OL rfl⟩

/-!  Helpers for the pruning analysis (claims C2 and C7).  -/

/-- Rewriting a node's prune flag with its own value is the identity. -/
theorem nodoFlagId (n : Nodo) : { n with isPotato := n.isPotato } = n := rfl

/-- Rewriting an edge's prune flag with its own value is the identity. -/
theorem arcoFlagId (a : Arco) : { a with isPotato := a.isPotato } = a := rfl

/-- Node value equality ignores the prune flag. -/
theorem nodoEqFlag (n m : Nodo) (b c : Bool) :
    nodoEq { n with isPotato := b } { m with isPotato := c } = nodoEq n m := rfl

/-- A list always equals itself as a set. -/
theorem setEqListRefl {α : Type _} [DecidableEq α] (xs : List α) :
    setEqList xs xs = true := by
  simp [setEqList, List.all_eq_true]

/-- Node value equality is reflexive. -/
theorem nodoEqRefl (n : Nodo) : nodoEq n n = true := by
  simp [nodoEq, setEqListRefl]

/-- Reading back an in-range node write. -/
theorem getNSetStesso (sc : SpazioComportamentale) (i : Nat) (n : Nodo)
    (h : i < sc.heapN.length) : (sc.setN i n).getN i = n := by
  simp [SpazioComportamentale.setN, SpazioComportamentale.getN,
    List.getD_eq_getElem?_getD, List.getElem?_set_self, h]

/-- A node write leaves every other node unchanged. -/
theorem getNSetAltro (sc : SpazioComportamentale) (i j : Nat) (n : Nodo)
    (h : j ≠ i) : (sc.setN i n).getN j = sc.getN j := by
  simp [SpazioComportamentale.setN, SpazioComportamentale.getN,
    List.getD_eq_getElem?_getD, List.getElem?_set_ne (fun hh => h hh.symm)]

/-- An out-of-range node write is a no-op. -/
theorem setNFuori (sc : SpazioComportamentale) (i : Nat) (n : Nodo)
    (h : ¬ i < sc.heapN.length) : sc.setN i n = sc := by
  simp [SpazioComportamentale.setN, List.set_eq_of_length_le (Nat.le_of_not_lt h)]

/-- Reading back an in-range edge write. -/
theorem getASetStesso (sc : SpazioComportamentale) (e : Nat) (a : Arco)
    (h : e < sc.heapA.length) : (sc.setA e a).getA e = a := by
  simp [SpazioComportamentale.setA, SpazioComportamentale.getA,
    List.getD_eq_getElem?_getD, List.getElem?_set_self, h]

/-- An edge write leaves every other edge unchanged. -/
theorem getASetAltro (sc : SpazioComportamentale) (e x : Nat) (a : Arco)
    (h : x ≠ e) : (sc.setA e a).getA x = sc.getA x := by
  simp [SpazioComportamentale.setA, SpazioComportamentale.getA,
    List.getD_eq_getElem?_getD, List.getElem?_set_ne (fun hh => h hh.symm)]

/-- An out-of-range edge write is a no-op. -/
theorem setAFuori (sc : SpazioComportamentale) (e : Nat) (a : Arco)
    (h : ¬ e < sc.heapA.length) : sc.setA e a = sc := by
  simp [SpazioComportamentale.setA, List.set_eq_of_length_le (Nat.le_of_not_lt h)]

/-- Writing into an edge slot the value it already holds changes no
dereference. -/
theorem getASetStessoValore (sc : SpazioComportamentale) (e : Nat) (a : Arco)
    (ha : sc.getA e = a) : ∀ x, (sc.setA e a).getA x = sc.getA x := by
  intro x
  by_cases hx : x = e
  · subst hx
    by_cases hr : x < sc.heapA.length
    · rw [getASetStesso sc x a hr, ha]
    · rw [setAFuori sc x a hr]
  · exact getASetAltro sc e x a hx

/-- Out-of-range edge reads give the default edge object. -/
theorem getAFuori (sc : SpazioComportamentale) (e : Nat)
    (h : ¬ e < sc.heapA.length) : sc.getA e = default := by
  simp [SpazioComportamentale.getA, List.getD_eq_getElem?_getD,
    List.getElem?_eq_none (Nat.le_of_not_lt h)]

/-- Out-of-range node reads give the default node object. -/
theorem getNFuori (sc : SpazioComportamentale) (i : Nat)
    (h : ¬ i < sc.heapN.length) : sc.getN i = default := by
  simp [SpazioComportamentale.getN, List.getD_eq_getElem?_getD,
    List.getElem?_eq_none (Nat.le_of_not_lt h)]

/-- The acceptance flag transfers along a flags-only variance. -/
theorem soloFlagFinale (sc s : SpazioComportamentale) (h : SoloFlag sc s) (i : Nat) :
    (s.getN i).isFinale = (sc.getN i).isFinale := by
  obtain ⟨-, -, -, -, -, hn, -⟩ := h
  rw [hn i]

/-- Node value equality transfers along a flags-only variance. -/
theorem soloFlagNodoEq (sc s : SpazioComportamentale) (h : SoloFlag sc s) (i j : Nat) :
    nodoEq (s.getN i) (s.getN j) = nodoEq (sc.getN i) (sc.getN j) := by
  obtain ⟨-, -, -, -, -, hn, -⟩ := h
  rw [hn i, hn j, nodoEqFlag]

/-- Edge endpoints transfer along a flags-only variance. -/
theorem soloFlagEstremi (sc s : SpazioComportamentale) (h : SoloFlag sc s) (e : Nat) :
    (s.getA e).nodo0 = (sc.getA e).nodo0 ∧ (s.getA e).nodo1 = (sc.getA e).nodo1 := by
  obtain ⟨-, -, -, -, -, -, ha⟩ := h
  rw [ha e]
  exact ⟨rfl, rfl⟩

/-- The edge-flagging fold of `setAllIsPotato` with value `true`: membership
data untouched, every edge at most flag-raised, listed edges raised. -/
theorem foldFlagArchi :
    ∀ (l : List Nat) (s r : SpazioComportamentale),
    l.foldl (fun t e => t.setA e { t.getA e with isPotato := true }) s = r →
    r.heapN = s.heapN ∧ r.nodi = s.nodi ∧ r.archi = s.archi ∧
    r.nodoIniziale = s.nodoIniziale ∧ r.heapA.length = s.heapA.length ∧
    (∀ e, r.getA e = s.getA e ∨ r.getA e = { s.getA e with isPotato := true }) ∧
    (∀ e ∈ l, (r.getA e).isPotato = true) := by
  intro l
  induction l with
  | nil =>
      intro s r hr
      cases hr
      exact ⟨rfl, rfl, rfl, rfl, rfl, fun e => Or.inl rfl,
        fun e h => absurd h (List.not_mem_nil e)⟩
  | cons e0 rest ih =>
      intro s r hr
      have hstep : ∀ x, (s.setA e0 { s.getA e0 with isPotato := true }).getA x = s.getA x ∨
          (s.setA e0 { s.getA e0 with isPotato := true }).getA x =
            { s.getA x with isPotato := true } := by
        intro x
        by_cases hx : x = e0
        · subst hx
          by_cases hrange : x < s.heapA.length
          · exact Or.inr (getASetStesso s x _ hrange)
          · rw [setAFuori s x _ hrange]
            exact Or.inl rfl
        · rw [getASetAltro s e0 x _ hx]
          exact Or.inl rfl
      obtain ⟨h1, h2, h3, h4, h5, h6, h7⟩ :=
        ih (s.setA e0 { s.getA e0 with isPotato := true }) r hr
      refine ⟨h1, h2, h3, h4, by rw [h5]; simp [SpazioComportamentale.setA], ?_, ?_⟩
      · intro e
        rcases h6 e with hc | hc <;> rcases hstep e with hs | hs <;> rw [hc, hs]
        · exact Or.inl rfl
        · exact Or.inr rfl
        · exact Or.inr rfl
        · exact Or.inr rfl
      · intro e he
        rcases List.mem_cons.mp he with he0 | herest
        · subst he0
          have hflag : ((s.setA e { s.getA e with isPotato := true }).getA e).isPotato
              = true := by
            by_cases hrange : e < s.heapA.length
            · rw [getASetStesso s e _ hrange]
            · rw [setAFuori s e _ hrange, getAFuori s e hrange]
              rfl
          rcases h6 e with hc | hc
          · rw [hc]
            exact hflag
          · rw [hc]
        · exact h7 e herest

/-- The node-flagging fold of `setAllIsPotato` with value `true`. -/
theorem foldFlagNodi :
    ∀ (l : List Nat) (s r : SpazioComportamentale),
    l.foldl (fun t i => t.setN i { t.getN i with isPotato := true }) s = r →
    r.heapA = s.heapA ∧ r.nodi = s.nodi ∧ r.archi = s.archi ∧
    r.nodoIniziale = s.nodoIniziale ∧ r.heapN.length = s.heapN.length ∧
    (∀ i, r.getN i = s.getN i ∨ r.getN i = { s.getN i with isPotato := true }) ∧
    (∀ i ∈ l, (r.getN i).isPotato = true) := by
  intro l
  induction l with
  | nil =>
      intro s r hr
      cases hr
      exact ⟨rfl, rfl, rfl, rfl, rfl, fun i => Or.inl rfl,
        fun i h => absurd h (List.not_mem_nil i)⟩
  | cons i0 rest ih =>
      intro s r hr
      have hstep : ∀ x, (s.setN i0 { s.getN i0 with isPotato := true }).getN x = s.getN x ∨
          (s.setN i0 { s.getN i0 with isPotato := true }).getN x =
            { s.getN x with isPotato := true } := by
        intro x
        by_cases hx : x = i0
        · subst hx
          by_cases hrange : x < s.heapN.length
          · exact Or.inr (getNSetStesso s x _ hrange)
          · rw [setNFuori s x _ hrange]
            exact Or.inl rfl
        · rw [getNSetAltro s i0 x _ hx]
          exact Or.inl rfl
      obtain ⟨h1, h2, h3, h4, h5, h6, h7⟩ :=
        ih (s.setN i0 { s.getN i0 with isPotato := true }) r hr
      refine ⟨h1, h2, h3, h4, by rw [h5]; simp [SpazioComportamentale.setN], ?_, ?_⟩
      · intro i
        rcases h6 i with hc | hc <;> rcases hstep i with hs | hs <;> rw [hc, hs]
        · exact Or.inl rfl
        · exact Or.inr rfl
        · exact Or.inr rfl
        · exact Or.inr rfl
      · intro i hi
        rcases List.mem_cons.mp hi with hi0 | hirest
        · subst hi0
          have hflag : ((s.setN i { s.getN i with isPotato := true }).getN i).isPotato
              = true := by
            by_cases hrange : i < s.heapN.length
            · rw [getNSetStesso s i _ hrange]
            · rw [setNFuori s i _ hrange, getNFuori s i hrange]
              rfl
          rcases h6 i with hc | hc
          · rw [hc]
            exact hflag
          · rw [hc]
        · exact h7 i hirest

/-- `setAllIsPotato` with `true` is a flags-only variance of the space in
which every listed node and edge carries the prune flag. -/
theorem setAllPotatoSpec (sc : SpazioComportamentale) :
    SoloFlag sc (setAllIsPotato sc true) ∧
    (∀ v ∈ sc.nodi, ((setAllIsPotato sc true).getN v).isPotato = true) ∧
    (∀ e ∈ sc.archi, ((setAllIsPotato sc true).getA e).isPotato = true) := by
  obtain ⟨a1, a2, a3, a4, a5, a6, a7⟩ :=
    foldFlagArchi sc.archi sc
      (sc.archi.foldl (fun t e => t.setA e { t.getA e with isPotato := true }) sc) rfl
  obtain ⟨n1, n2, n3, n4, n5, n6, n7⟩ :=
    foldFlagNodi sc.nodi
      (sc.archi.foldl (fun t e => t.setA e { t.getA e with isPotato := true }) sc)
      (setAllIsPotato sc true) rfl
  have hgetN1 : ∀ i,
      (sc.archi.foldl (fun t e => t.setA e { t.getA e with isPotato := true }) sc).getN i
        = sc.getN i := by
    intro i
    simp only [SpazioComportamentale.getN, a1]
  have hgetA : ∀ e, (setAllIsPotato sc true).getA e =
      (sc.archi.foldl (fun t e => t.setA e { t.getA e with isPotato := true }) sc).getA e := by
    intro e
    simp only [SpazioComportamentale.getA, n1]
  refine ⟨⟨n2.trans a2, n3.trans a3, n4.trans a4, n5.trans (congrArg List.length a1),
      (congrArg List.length n1).trans a5, ?_, ?_⟩, ?_, ?_⟩
  · intro i
    rcases n6 i with hc | hc
    · rw [hc, hgetN1 i]
    · rw [hc, hgetN1 i]
  · intro e
    rw [hgetA e]
    rcases a6 e with hc | hc
    · rw [hc]
    · rw [hc]
  · intro v hv
    exact n7 v hv
  · intro e he
    rw [hgetA e]
    exact a7 e he

/-- Node dereferences transfer along an edge-flag variance. -/
theorem varianteGetN (b t : SpazioComportamentale) (h : VarianteArchi b t) (i : Nat) :
    t.getN i = b.getN i := by
  simp only [SpazioComportamentale.getN, h.1]

/-- Edge endpoints transfer along an edge-flag variance. -/
theorem varianteEstremi (b t : SpazioComportamentale) (h : VarianteArchi b t) (e : Nat) :
    (t.getA e).nodo0 = (b.getA e).nodo0 ∧ (t.getA e).nodo1 = (b.getA e).nodo1 := by
  rcases h.2.2.2.2.2 e with hc | hc <;> rw [hc] <;> exact ⟨rfl, rfl⟩

/-- Every space is an edge-flag variance of itself. -/
theorem varianteRefl (b : SpazioComportamentale) : VarianteArchi b b :=
  ⟨rfl, rfl, rfl, rfl, rfl, fun _ => Or.inl rfl⟩

/-- Clearing one edge flag extends an edge-flag variance. -/
theorem varianteSetA (b t : SpazioComportamentale) (h : VarianteArchi b t) (e : Nat) :
    VarianteArchi b (t.setA e { t.getA e with isPotato := false }) := by
  obtain ⟨h1, h2, h3, h4, h5, h6⟩ := h
  refine ⟨h1, h2, h3, h4, by simp [SpazioComportamentale.setA, h5], ?_⟩
  intro x
  by_cases hx : x = e
  · subst hx
    by_cases hr : x < t.heapA.length
    · rw [getASetStesso t x _ hr]
      rcases h6 x with hc | hc <;> rw [hc] <;> exact Or.inr rfl
    · rw [setAFuori t x _ hr]
      exact h6 x
  · rw [getASetAltro t e x _ hx]
    exact h6 x

/-- The edge scan of `scansionePotatura`, relative to the post-clearing
base space `b` and the current node `c`: each listed edge whose target
equals (by node value) the current node is cleared and, when its source is
still flagged, pushed; every other edge is untouched; the stack only
grows, by cleared listed edges. -/
theorem scanFold (b : SpazioComportamentale) (c : Nat) :
    ∀ (l : List Nat) (t : SpazioComportamentale) (st : List Nat)
      (r : SpazioComportamentale × List Nat),
    VarianteArchi b t → (∀ e ∈ l, e < b.heapA.length) →
    l.foldl
      (fun acc eid =>
        let s := acc.1
        let a := s.getA eid
        if nodoEq (s.getN a.nodo1) (s.getN c) then
          let s1 := s.setA eid { a with isPotato := false }
          if (s1.getN a.nodo0).isPotato then (s1, eid :: acc.2) else (s1, acc.2)
        else acc)
      (t, st) = r →
    VarianteArchi b r.1 ∧
    (∀ e, (t.getA e).isPotato = false → (r.1.getA e).isPotato = false) ∧
    (∀ e, (e ∉ l ∨ nodoEq (b.getN (b.getA e).nodo1) (b.getN c) = false) →
      r.1.getA e = t.getA e) ∧
    (∀ e ∈ l, nodoEq (b.getN (b.getA e).nodo1) (b.getN c) = true →
      (r.1.getA e).isPotato = false ∧
      ((b.getN (b.getA e).nodo0).isPotato = false ∨ e ∈ r.2)) ∧
    (∀ x ∈ st, x ∈ r.2) ∧
    (∀ x ∈ r.2, x ∈ st ∨ (x ∈ l ∧ (r.1.getA x).isPotato = false)) := by
  intro l
  induction l with
  | nil =>
      intro t st r ht hrange hr
      cases hr
      exact ⟨ht, fun _ he => he, fun _ _ => rfl,
        fun e he => absurd he (List.not_mem_nil e),
        fun _ hx => hx, fun _ hx => Or.inl hx⟩
  | cons e0 rest ih =>
      intro t st r ht hrange hr
      rw [List.foldl_cons] at hr
      dsimp only at hr
      have hgn := varianteGetN b t ht
      have hest := varianteEstremi b t ht
      have hcond : nodoEq (t.getN (t.getA e0).nodo1) (t.getN c)
          = nodoEq (b.getN (b.getA e0).nodo1) (b.getN c) := by
        rw [hgn ((t.getA e0).nodo1), hgn c, (hest e0).2]
      by_cases hT : nodoEq (b.getN (b.getA e0).nodo1) (b.getN c) = true
      · rw [if_pos (hcond.trans hT)] at hr
        have hs1 : (t.setA e0 { t.getA e0 with isPotato := false }).getN (t.getA e0).nodo0
            = b.getN (b.getA e0).nodo0 := by
          rw [show (t.setA e0 { t.getA e0 with isPotato := false }).getN ((t.getA e0).nodo0)
              = t.getN ((t.getA e0).nodo0) from rfl, hgn ((t.getA e0).nodo0), (hest e0).1]
        rw [hs1] at hr
        have hpair :
            (if (b.getN (b.getA e0).nodo0).isPotato = true
              then (t.setA e0 { t.getA e0 with isPotato := false }, e0 :: st)
              else (t.setA e0 { t.getA e0 with isPotato := false }, st))
            = (t.setA e0 { t.getA e0 with isPotato := false },
               if (b.getN (b.getA e0).nodo0).isPotato = true then e0 :: st else st) := by
          by_cases hp : (b.getN (b.getA e0).nodo0).isPotato = true <;> simp [hp]
        rw [hpair] at hr
        have ht1 : VarianteArchi b (t.setA e0 { t.getA e0 with isPotato := false }) :=
          varianteSetA b t ht e0
        have hre0 : e0 < t.heapA.length := by
          rw [ht.2.2.2.2.1]
          exact hrange e0 (List.mem_cons_self e0 rest)
        have hT1e0 : ((t.setA e0 { t.getA e0 with isPotato := false }).getA e0).isPotato
            = false := by
          rw [getASetStesso t e0 _ hre0]
        have hT1altro : ∀ e, e ≠ e0 →
            (t.setA e0 { t.getA e0 with isPotato := false }).getA e = t.getA e :=
          fun e he => getASetAltro t e0 e _ he
        obtain ⟨c1, c2, c3, c4, c5, c6⟩ := ih _ _ r ht1
          (fun e he => hrange e (List.mem_cons_of_mem _ he)) hr
        refine ⟨c1, ?_, ?_, ?_, ?_, ?_⟩
        · intro e hfe
          apply c2 e
          by_cases he : e = e0
          · subst he
            exact hT1e0
          · rw [hT1altro e he]
            exact hfe
        · intro e hor
          have he0 : e ≠ e0 := by
            intro h
            subst h
            rcases hor with h1 | h2
            · exact h1 (List.mem_cons_self e rest)
            · exact Bool.false_ne_true (h2.symm.trans hT)
          have hrest : e ∉ rest ∨ nodoEq (b.getN (b.getA e).nodo1) (b.getN c) = false := by
            rcases hor with h1 | h2
            · exact Or.inl (fun hh => h1 (List.mem_cons_of_mem _ hh))
            · exact Or.inr h2
          rw [c3 e hrest, hT1altro e he0]
        · intro e he hTe
          rcases List.mem_cons.mp he with he' | he'
          · subst he'
            refine ⟨c2 e hT1e0, ?_⟩
            rcases Bool.eq_false_or_eq_true ((b.getN (b.getA e).nodo0).isPotato) with htr | hf
            · refine Or.inr (c5 e ?_)
              rw [if_pos htr]
              exact List.mem_cons_self e st
            · exact Or.inl hf
          · exact c4 e he' hTe
        · intro x hx
          apply c5 x
          by_cases hp : (b.getN (b.getA e0).nodo0).isPotato = true
          · rw [if_pos hp]
            exact List.mem_cons_of_mem _ hx
          · rw [if_neg hp]
            exact hx
        · intro x hx
          rcases c6 x hx with hin | ⟨hmem, hflag⟩
          · by_cases hp : (b.getN (b.getA e0).nodo0).isPotato = true
            · rw [if_pos hp] at hin
              rcases List.mem_cons.mp hin with hx0 | hx0
              · subst hx0
                exact Or.inr ⟨List.mem_cons_self x rest, c2 x hT1e0⟩
              · exact Or.inl hx0
            · rw [if_neg hp] at hin
              exact Or.inl hin
          · exact Or.inr ⟨List.mem_cons_of_mem _ hmem, hflag⟩
      · rw [if_neg (fun h => hT (hcond.symm.trans h))] at hr
        obtain ⟨c1, c2, c3, c4, c5, c6⟩ := ih _ _ r ht
          (fun e he => hrange e (List.mem_cons_of_mem _ he)) hr
        refine ⟨c1, c2, ?_, ?_, c5, ?_⟩
        · intro e hor
          by_cases he0 : e = e0
          · subst he0
            apply c3 e
            rcases hor with h1 | h2
            · exact absurd (List.mem_cons_self e rest) h1
            · exact Or.inr h2
          · apply c3 e
            rcases hor with h1 | h2
            · exact Or.inl (fun hh => h1 (List.mem_cons_of_mem _ hh))
            · exact Or.inr h2
        · intro e he hTe
          rcases List.mem_cons.mp he with he' | he'
          · subst he'
            exact absurd hTe hT
          · exact c4 e he' hTe
        · intro x hx
          rcases c6 x hx with hin | ⟨hmem, hflag⟩
          · exact Or.inl hin
          · exact Or.inr ⟨List.mem_cons_of_mem _ hmem, hflag⟩

/-- Rewriting one node's prune flag preserves a flags-only variance. -/
theorem soloFlagSetFlagN (sc s : SpazioComportamentale) (h : SoloFlag sc s)
    (i : Nat) (bo : Bool) :
    SoloFlag sc (s.setN i { s.getN i with isPotato := bo }) := by
  obtain ⟨h1, h2, h3, h4, h5, h6, h7⟩ := h
  refine ⟨h1, h2, h3, by simp [SpazioComportamentale.setN, h4], h5, ?_, h7⟩
  intro j
  by_cases hj : j = i
  · subst hj
    by_cases hrange : j < s.heapN.length
    · rw [getNSetStesso s j _ hrange, h6 j]
    · rw [setNFuori s j _ hrange]
      exact h6 j
  · rw [getNSetAltro s i j _ hj]
    exact h6 j

/-- An edge-flag variance of a flags-only variance is a flags-only
variance. -/
theorem varianteSoloFlag (sc b t : SpazioComportamentale)
    (hb : SoloFlag sc b) (ht : VarianteArchi b t) : SoloFlag sc t := by
  obtain ⟨b1, b2, b3, b4, b5, b6, b7⟩ := hb
  obtain ⟨t1, t2, t3, t4, t5, t6⟩ := ht
  refine ⟨t2.trans b1, t3.trans b2, t4.trans b3,
    (congrArg List.length t1).trans b4, t5.trans b5, ?_, ?_⟩
  · intro i
    have hgi : t.getN i = b.getN i := by
      simp only [SpazioComportamentale.getN, t1]
    rw [hgi]
    exact b6 i
  · intro e
    rcases t6 e with hc | hc
    · rw [hc]
      exact b7 e
    · rw [hc, b7 e]

/-- Full characterisation of one scan of the inner pruning walk: the
current node is cleared, the edges into it are cleared, the stack gains
exactly the cleared incoming edges whose source is still flagged, and
nothing else changes. -/
theorem scansioneSpec (sc s : SpazioComportamentale) (c : Nat) (stack : List Nat)
    (hp : SpazioPotabile sc) (hsf : SoloFlag sc s) (hc : c ∈ sc.nodi) :
    SoloFlag sc (scansionePotatura s c stack).1 ∧
    (∀ v, ((scansionePotatura s c stack).1.getN v).isPotato = false ↔
      (v = c ∨ (s.getN v).isPotato = false)) ∧
    (∀ e, ((scansionePotatura s c stack).1.getA e).isPotato = false ↔
      ((s.getA e).isPotato = false ∨ (e ∈ sc.archi ∧ (sc.getA e).nodo1 = c))) ∧
    (∀ x ∈ stack, x ∈ (scansionePotatura s c stack).2) ∧
    (∀ x ∈ (scansionePotatura s c stack).2, x ∈ stack ∨
      (x ∈ sc.archi ∧ ((scansionePotatura s c stack).1.getA x).isPotato = false)) ∧
    (∀ e ∈ sc.archi, (sc.getA e).nodo1 = c →
      (((scansionePotatura s c stack).1.getN (sc.getA e).nodo0).isPotato = false ∨
        e ∈ (scansionePotatura s c stack).2)) := by
  obtain ⟨hA, hN, hD, hnd⟩ := hp
  obtain ⟨hs1, hs2, hs3, hs4, hs5, hs6, hs7⟩ := hsf
  have hsf' : SoloFlag sc s := ⟨hs1, hs2, hs3, hs4, hs5, hs6, hs7⟩
  have harchi : (s.setN c { s.getN c with isPotato := false }).archi = sc.archi := hs2
  have hlenA : (s.setN c { s.getN c with isPotato := false }).heapA.length
      = sc.heapA.length := hs5
  have hrange : ∀ e ∈ (s.setN c { s.getN c with isPotato := false }).archi,
      e < (s.setN c { s.getN c with isPotato := false }).heapA.length := by
    intro e he
    rw [harchi] at he
    rw [hlenA]
    exact (hA e he).1
  obtain ⟨c1, c2, c3, c4, c5, c6⟩ :=
    scanFold (s.setN c { s.getN c with isPotato := false }) c
      (s.setN c { s.getN c with isPotato := false }).archi
      (s.setN c { s.getN c with isPotato := false }) stack
      (scansionePotatura s c stack)
      (varianteRefl _) hrange rfl
  have hsfc1 : SoloFlag sc (s.setN c { s.getN c with isPotato := false }) :=
    soloFlagSetFlagN sc s hsf' c false
  have hcrange : c < s.heapN.length := by
    rw [hs4]
    exact hN c hc
  have hcc : (s.setN c { s.getN c with isPotato := false }).getN c
      = { s.getN c with isPotato := false } :=
    getNSetStesso s c _ hcrange
  have haltro : ∀ v, v ≠ c →
      (s.setN c { s.getN c with isPotato := false }).getN v = s.getN v :=
    fun v hv => getNSetAltro s c v _ hv
  have hTiff : ∀ e ∈ sc.archi,
      (nodoEq ((s.setN c { s.getN c with isPotato := false }).getN
          (((s.setN c { s.getN c with isPotato := false }).getA e).nodo1))
        ((s.setN c { s.getN c with isPotato := false }).getN c) = true
        ↔ (sc.getA e).nodo1 = c) := by
    intro e he
    rw [soloFlagNodoEq sc _ hsfc1 _ c, (soloFlagEstremi sc _ hsfc1 e).2]
    constructor
    · intro h
      exact hD _ (hA e he).2.2 c hc h
    · intro h
      rw [h]
      exact nodoEqRefl _
  have hrgN : ∀ v, (scansionePotatura s c stack).1.getN v
      = (s.setN c { s.getN c with isPotato := false }).getN v :=
    varianteGetN _ _ c1
  refine ⟨varianteSoloFlag sc _ _ hsfc1 c1, ?_, ?_, c5, ?_, ?_⟩
  · intro v
    rw [hrgN v]
    by_cases hv : v = c
    · subst hv
      rw [hcc]
      simp
    · rw [haltro v hv]
      simp [hv]
  · intro e
    constructor
    · intro hflag
      by_cases hmem : e ∈ sc.archi
      · by_cases htgt : (sc.getA e).nodo1 = c
        · exact Or.inr ⟨hmem, htgt⟩
        · refine Or.inl ?_
          have hTf : nodoEq ((s.setN c { s.getN c with isPotato := false }).getN
              (((s.setN c { s.getN c with isPotato := false }).getA e).nodo1))
              ((s.setN c { s.getN c with isPotato := false }).getN c) = false :=
            Bool.eq_false_iff.mpr (fun h => htgt ((hTiff e hmem).mp h))
          rw [c3 e (Or.inr hTf)] at hflag
          exact hflag
      · refine Or.inl ?_
        have hne : e ∉ (s.setN c { s.getN c with isPotato := false }).archi := by
          rw [harchi]
          exact hmem
        rw [c3 e (Or.inl hne)] at hflag
        exact hflag
    · intro hcase
      rcases hcase with hflag | ⟨hmem, htgt⟩
      · exact c2 e hflag
      · have hmem' : e ∈ (s.setN c { s.getN c with isPotato := false }).archi := by
          rw [harchi]
          exact hmem
        exact (c4 e hmem' ((hTiff e hmem).mpr htgt)).1
  · intro x hx
    rcases c6 x hx with hin | ⟨hmem, hflag⟩
    · exact Or.inl hin
    · refine Or.inr ⟨?_, hflag⟩
      rw [harchi] at hmem
      exact hmem
  · intro e he htgt
    have hmem' : e ∈ (s.setN c { s.getN c with isPotato := false }).archi := by
      rw [harchi]
      exact he
    rcases (c4 e hmem' ((hTiff e he).mpr htgt)).2 with hsrc | hpush
    · refine Or.inl ?_
      rw [hrgN]
      rw [(soloFlagEstremi sc _ hsfc1 e).1] at hsrc
      exact hsrc
    · exact Or.inr hpush

/-- The inner backward walk of `decidiPotatura` preserves the invariants,
never re-flags anything, clears its starting node and ends quiescent. -/
theorem cicloInternoSpec (sc : SpazioComportamentale) (hp : SpazioPotabile sc) :
    ∀ (fuel : Nat) (s : SpazioComportamentale) (c : Nat) (stack : List Nat)
      (s' : SpazioComportamentale),
    InvPotaturaStack sc s c stack →
    cicloInternoPotatura fuel s c stack = some s' →
    InvPotaturaChiusa sc s' ∧
    (∀ v, (s.getN v).isPotato = false → (s'.getN v).isPotato = false) ∧
    (s'.getN c).isPotato = false := by
  intro fuel
  induction fuel with
  | zero =>
      intro s c stack s' hinv hrun
      cases hrun
  | succ fuel ih =>
      intro s c stack s' hinv hrun
      obtain ⟨⟨hsf, hA', hE⟩, hcmem, hcAF, hstk, hC⟩ := hinv
      obtain ⟨S1, S2, S3, S4, S5, S6⟩ := scansioneSpec sc s c stack hp hsf hcmem
      have hApost : ∀ v ∈ sc.nodi,
          ((scansionePotatura s c stack).1.getN v).isPotato = false →
          ArrivaAFinale sc v := by
        intro v hv hf
        rcases (S2 v).mp hf with hvc | hfs
        · subst hvc
          exact hcAF
        · exact hA' v hv hfs
      have hEpost : ∀ e ∈ sc.archi,
          ((scansionePotatura s c stack).1.getA e).isPotato = false →
          ((scansionePotatura s c stack).1.getN (sc.getA e).nodo1).isPotato = false := by
        intro e he hf
        rcases (S3 e).mp hf with hfs | ⟨-, htgt⟩
        · exact (S2 _).mpr (Or.inr (hE e he hfs))
        · exact (S2 _).mpr (Or.inl htgt)
      have hStkpost : ∀ x ∈ (scansionePotatura s c stack).2,
          x ∈ sc.archi ∧ ((scansionePotatura s c stack).1.getA x).isPotato = false := by
        intro x hx
        rcases S5 x hx with hin | ⟨hmem, hflag⟩
        · exact ⟨(hstk x hin).1, (S3 x).mpr (Or.inl (hstk x hin).2)⟩
        · exact ⟨hmem, hflag⟩
      have hCpost : ∀ e ∈ sc.archi,
          ((scansionePotatura s c stack).1.getN (sc.getA e).nodo1).isPotato = false →
          ((scansionePotatura s c stack).1.getA e).isPotato = false ∧
          (((scansionePotatura s c stack).1.getN (sc.getA e).nodo0).isPotato = false ∨
            e ∈ (scansionePotatura s c stack).2) := by
        intro e he hft
        rcases (S2 _).mp hft with htc | hst
        · exact ⟨(S3 e).mpr (Or.inr ⟨he, htc⟩), S6 e he htc⟩
        · obtain ⟨hEs, hdisj⟩ := hC e he hst
          refine ⟨(S3 e).mpr (Or.inl hEs), ?_⟩
          rcases hdisj with hsrc | hstmem | hsrcc
          · exact Or.inl ((S2 _).mpr (Or.inr hsrc))
          · exact Or.inr (S4 e hstmem)
          · exact Or.inl ((S2 _).mpr (Or.inl hsrcc))
      have hcclear : ((scansionePotatura s c stack).1.getN c).isPotato = false :=
        (S2 c).mpr (Or.inl rfl)
      simp only [cicloInternoPotatura] at hrun
      cases hstack : (scansionePotatura s c stack).2 with
      | nil =>
          rw [hstack] at hrun
          cases hrun
          refine ⟨⟨⟨S1, hApost, hEpost⟩, ?_⟩, fun v hv => (S2 v).mpr (Or.inr hv), hcclear⟩
          intro e he hft
          obtain ⟨hEdge, hdisj⟩ := hCpost e he hft
          refine ⟨hEdge, ?_⟩
          rcases hdisj with hsrc | hmem
          · exact hsrc
          · rw [hstack] at hmem
            exact absurd hmem (List.not_mem_nil e)
      | cons eid rest =>
          rw [hstack] at hrun
          have heid : eid ∈ (scansionePotatura s c stack).2 := by
            rw [hstack]
            exact List.mem_cons_self eid rest
          obtain ⟨heidmem, heidflag⟩ := hStkpost eid heid
          have hnodo0 : ((scansionePotatura s c stack).1.getA eid).nodo0
              = (sc.getA eid).nodo0 :=
            (soloFlagEstremi sc _ S1 eid).1
          have hc'mem : ((scansionePotatura s c stack).1.getA eid).nodo0 ∈ sc.nodi := by
            rw [hnodo0]
            exact (hp.1 eid heidmem).2.1
          have htgtAF := hApost _ (hp.1 eid heidmem).2.2 (hEpost eid heidmem heidflag)
          have hc'AF : ArrivaAFinale sc ((scansionePotatura s c stack).1.getA eid).nodo0 := by
            rw [hnodo0]
            exact ArrivaAFinale.passo eid heidmem (hp.1 eid heidmem).2.1 htgtAF
          have hstk' : ∀ e ∈ rest, e ∈ sc.archi ∧
              ((scansionePotatura s c stack).1.getA e).isPotato = false := by
            intro e he
            apply hStkpost
            rw [hstack]
            exact List.mem_cons_of_mem _ he
          have hC' : ∀ e ∈ sc.archi,
              ((scansionePotatura s c stack).1.getN (sc.getA e).nodo1).isPotato = false →
              ((scansionePotatura s c stack).1.getA e).isPotato = false ∧
              (((scansionePotatura s c stack).1.getN (sc.getA e).nodo0).isPotato = false ∨
                e ∈ rest ∨
                (sc.getA e).nodo0 = ((scansionePotatura s c stack).1.getA eid).nodo0) := by
            intro e he hft
            obtain ⟨hEdge, hdisj⟩ := hCpost e he hft
            refine ⟨hEdge, ?_⟩
            rcases hdisj with hsrc | hmem
            · exact Or.inl hsrc
            · rw [hstack] at hmem
              rcases List.mem_cons.mp hmem with heq | hrest
              · subst heq
                exact Or.inr (Or.inr hnodo0.symm)
              · exact Or.inr (Or.inl hrest)
          obtain ⟨hq, hmono, -⟩ := ih _ _ rest s'
            ⟨⟨S1, hApost, hEpost⟩, hc'mem, hc'AF, hstk', hC'⟩ hrun
          refine ⟨hq, ?_, ?_⟩
          · intro v hv
            exact hmono v ((S2 v).mpr (Or.inr hv))
          · exact hmono c hcclear

/-- The outer loop of `decidiPotatura` preserves the quiescent invariant,
never re-flags, and clears every listed acceptance node. -/
theorem cicloEsternoSpec (sc : SpazioComportamentale) (hp : SpazioPotabile sc)
    (fuel : Nat) :
    ∀ (l : List Nat) (s s' : SpazioComportamentale),
    (∀ v ∈ l, v ∈ sc.nodi) → InvPotaturaChiusa sc s →
    cicloEsternoPotatura fuel s l = some s' →
    InvPotaturaChiusa sc s' ∧
    (∀ v, (s.getN v).isPotato = false → (s'.getN v).isPotato = false) ∧
    (∀ v ∈ l, (sc.getN v).isFinale = true → (s'.getN v).isPotato = false) := by
  intro l
  induction l with
  | nil =>
      intro s s' hsub hinv hrun
      simp only [cicloEsternoPotatura] at hrun
      cases hrun
      exact ⟨hinv, fun v hv => hv, fun v hv => absurd hv (List.not_mem_nil v)⟩
  | cons nid rest ih =>
      intro s s' hsub hinv hrun
      have hsub' : ∀ v ∈ rest, v ∈ sc.nodi :=
        fun v hv => hsub v (List.mem_cons_of_mem _ hv)
      have hnidmem : nid ∈ sc.nodi := hsub nid (List.mem_cons_self nid rest)
      obtain ⟨⟨hsf, hA', hE⟩, hCC⟩ := hinv
      simp only [cicloEsternoPotatura] at hrun
      by_cases hcond : ((s.getN nid).isFinale && (s.getN nid).isPotato) = true
      · rw [if_pos hcond] at hrun
        have hfinale : (sc.getN nid).isFinale = true := by
          rw [← soloFlagFinale sc s hsf nid]
          have hc := hcond
          rw [Bool.and_eq_true] at hc
          exact hc.1
        have hstack0 : InvPotaturaStack sc s nid [] := by
          refine ⟨⟨hsf, hA', hE⟩, hnidmem, ArrivaAFinale.qui nid hnidmem hfinale,
            fun e he => absurd he (List.not_mem_nil e), ?_⟩
          intro e he hft
          obtain ⟨h1, h2⟩ := hCC e he hft
          exact ⟨h1, Or.inl h2⟩
        cases hint : cicloInternoPotatura fuel s nid [] with
        | none =>
            rw [hint] at hrun
            cases hrun
        | some s1 =>
            rw [hint] at hrun
            obtain ⟨hq1, hmono1, hnidclear⟩ := cicloInternoSpec sc hp fuel s nid [] s1
              hstack0 hint
            obtain ⟨hq, hmono2, hfin⟩ := ih s1 s' hsub' hq1 hrun
            refine ⟨hq, fun v hv => hmono2 v (hmono1 v hv), ?_⟩
            intro v hv hvf
            rcases List.mem_cons.mp hv with hveq | hvrest
            · subst hveq
              exact hmono2 v hnidclear
            · exact hfin v hvrest hvf
      · rw [if_neg hcond] at hrun
        obtain ⟨hq, hmono, hfin⟩ := ih s s' hsub' ⟨⟨hsf, hA', hE⟩, hCC⟩ hrun
        refine ⟨hq, hmono, ?_⟩
        intro v hv hvf
        rcases List.mem_cons.mp hv with hveq | hvrest
        · subst hveq
          have hsfin : (s.getN v).isFinale = true := by
            rw [soloFlagFinale sc s hsf v]
            exact hvf
          have hspotato : (s.getN v).isPotato = false := by
            rcases Bool.eq_false_or_eq_true ((s.getN v).isPotato) with h | h
            · exact absurd (by rw [hsfin, h]; rfl) hcond
            · exact h
          exact hmono v hspotato
        · exact hfin v hvrest hvf

/-- Characterisation of `decidiPotatura`: on success the result is a
flags-only variance of the input in which a listed node is cleared exactly
when it reaches an acceptance node, and a listed edge exactly when its
target does. -/
theorem decidiPotaturaSpec (sc scd : SpazioComportamentale) (fuel : Nat)
    (hp : SpazioPotabile sc) (hrun : decidiPotatura sc fuel = some scd) :
    SoloFlag sc scd ∧ InvPotaturaChiusa sc scd ∧
    (∀ v ∈ sc.nodi, ((scd.getN v).isPotato = false ↔ ArrivaAFinale sc v)) ∧
    (∀ e ∈ sc.archi, ((scd.getA e).isPotato = false ↔
      ArrivaAFinale sc (sc.getA e).nodo1)) := by
  obtain ⟨hall1, hall2, hall3⟩ := setAllPotatoSpec sc
  have hinv0 : InvPotaturaChiusa sc (setAllIsPotato sc true) := by
    refine ⟨⟨hall1, ?_, ?_⟩, ?_⟩
    · intro v hv hf
      rw [hall2 v hv] at hf
      cases hf
    · intro e he hf
      rw [hall3 e he] at hf
      cases hf
    · intro e he hft
      rw [hall2 _ (hp.1 e he).2.2] at hft
      cases hft
  simp only [decidiPotatura] at hrun
  obtain ⟨hq, hmono, hfin⟩ := cicloEsternoSpec sc hp fuel (setAllIsPotato sc true).nodi
    (setAllIsPotato sc true) scd
    (by intro v hv; rw [hall1.1] at hv; exact hv) hinv0 hrun
  obtain ⟨⟨hsf, hA', hE⟩, hCC⟩ := hq
  have hAFclear : ∀ v, ArrivaAFinale sc v → (scd.getN v).isPotato = false := by
    intro v hv
    induction hv with
    | qui w hw hwf => exact hfin w (by rw [hall1.1]; exact hw) hwf
    | passo eid he h0 h1 ih => exact (hCC eid he ih).2
  refine ⟨hsf, ⟨⟨hsf, hA', hE⟩, hCC⟩, ?_, ?_⟩
  · intro v hv
    exact ⟨hA' v hv, hAFclear v⟩
  · intro e he
    constructor
    · intro hf
      exact hA' _ (hp.1 e he).2.2 (hE e he hf)
    · intro haf
      exact (hCC e he (hAFclear _ haf)).1

/-- Raising a flag that is already raised is the identity on the edge. -/
theorem arcoFlagTrue (a : Arco) (h : a.isPotato = true) :
    { a with isPotato := true } = a := by
  rw [← h]

/-- Pointwise agreement is reflexive. -/
theorem puntualeRefl (s : SpazioComportamentale) : PuntualmenteUguale s s :=
  ⟨fun _ => rfl, fun _ => rfl, rfl, rfl, rfl, rfl, rfl⟩

/-- Pointwise agreement is transitive. -/
theorem puntualeTrans (a b c : SpazioComportamentale)
    (hab : PuntualmenteUguale a b) (hbc : PuntualmenteUguale b c) :
    PuntualmenteUguale a c :=
  ⟨fun i => (hbc.1 i).trans (hab.1 i), fun e => (hbc.2.1 e).trans (hab.2.1 e),
   hbc.2.2.1.trans hab.2.2.1, hbc.2.2.2.1.trans hab.2.2.2.1,
   hbc.2.2.2.2.1.trans hab.2.2.2.2.1, hbc.2.2.2.2.2.1.trans hab.2.2.2.2.2.1,
   hbc.2.2.2.2.2.2.trans hab.2.2.2.2.2.2⟩

/-- Writing an edge slot with its current value agrees pointwise with the
original space. -/
theorem puntualeSetAStesso (t : SpazioComportamentale) (e : Nat) (a : Arco)
    (ha : t.getA e = a) : PuntualmenteUguale t (t.setA e a) :=
  ⟨fun _ => rfl, getASetStessoValore t e a ha, rfl, rfl, rfl, rfl,
   by simp [SpazioComportamentale.setA]⟩

/-- The incident-edge flagging fold of `potatura` changes nothing when
every incident edge is already flagged (in the base space). -/
theorem foldIncidentiPuntuale (base : SpazioComportamentale) (v : Nat) :
    ∀ (l : List Nat) (t : SpazioComportamentale),
    PuntualmenteUguale base t →
    (∀ e ∈ l, ((base.getA e).nodo0 = v ∨ (base.getA e).nodo1 = v) →
      (base.getA e).isPotato = true) →
    PuntualmenteUguale base
      (l.foldl
        (fun s2 eid =>
          let a := s2.getA eid
          if a.nodo0 = v ∨ a.nodo1 = v then s2.setA eid { a with isPotato := true }
          else s2) t) := by
  intro l
  induction l with
  | nil =>
      intro t ht _
      exact ht
  | cons e0 rest ih =>
      intro t ht hfl
      rw [List.foldl_cons]
      dsimp only
      by_cases hinc : (t.getA e0).nodo0 = v ∨ (t.getA e0).nodo1 = v
      · rw [if_pos hinc]
        have hbinc : (base.getA e0).nodo0 = v ∨ (base.getA e0).nodo1 = v := by
          rw [← ht.2.1 e0]
          exact hinc
        have hflag : (t.getA e0).isPotato = true := by
          rw [ht.2.1 e0]
          exact hfl e0 (List.mem_cons_self e0 rest) hbinc
        refine ih _ (puntualeTrans base t _ ht
          (puntualeSetAStesso t e0 _ (arcoFlagTrue _ hflag).symm))
          (fun e he hi => hfl e (List.mem_cons_of_mem _ he) hi)
      · rw [if_neg hinc]
        exact ih t ht (fun e he hi => hfl e (List.mem_cons_of_mem _ he) hi)

/-- The node loop of `potatura` changes nothing when every edge incident
to a flagged listed node is already flagged. -/
theorem foldPotaturaNodi (base : SpazioComportamentale)
    (hfl : ∀ e ∈ base.archi, ∀ w ∈ base.nodi,
      ((base.getA e).nodo0 = w ∨ (base.getA e).nodo1 = w) →
      (base.getN w).isPotato = true → (base.getA e).isPotato = true) :
    ∀ (l : List Nat) (t : SpazioComportamentale),
    (∀ w ∈ l, w ∈ base.nodi) →
    PuntualmenteUguale base t →
    PuntualmenteUguale base
      (l.foldl
        (fun s nid =>
          if (s.getN nid).isPotato then
            s.archi.foldl
              (fun s2 eid =>
                let a := s2.getA eid
                if a.nodo0 = nid ∨ a.nodo1 = nid then s2.setA eid { a with isPotato := true }
                else s2)
              s
          else s) t) := by
  intro l
  induction l with
  | nil =>
      intro t _ ht
      exact ht
  | cons w0 rest ih =>
      intro t hsub ht
      rw [List.foldl_cons]
      dsimp only
      by_cases hpot : (t.getN w0).isPotato = true
      · rw [if_pos hpot]
        refine ih _ (fun w hw => hsub w (List.mem_cons_of_mem _ hw)) ?_
        refine foldIncidentiPuntuale base w0 t.archi t ht ?_
        intro e he hinc
        have hearchi : e ∈ base.archi := by
          rw [← ht.2.2.2.1]
          exact he
        have hwpot : (base.getN w0).isPotato = true := by
          rw [← ht.1 w0]
          exact hpot
        exact hfl e hearchi w0 (hsub w0 (List.mem_cons_self w0 rest)) hinc hwpot
      · rw [if_neg hpot]
        exact ih _ (fun w hw => hsub w (List.mem_cons_of_mem _ hw)) ht

/-- The adjacency-filtering fold of `potaturaArchi` only rewrites
adjacency lists. -/
theorem foldAdiacenza :
    ∀ (l : List Nat) (base t : SpazioComportamentale),
    UgualeTranneAdiacenza base t →
    UgualeTranneAdiacenza base
      (l.foldl
        (fun s nid =>
          let n := s.getN nid
          s.setN nid
            { n with archiUscenti :=
                n.archiUscenti.filter (fun eid => !(s.getA eid).isPotato) })
        t) := by
  intro l
  induction l with
  | nil =>
      intro base t ht
      exact ht
  | cons nid rest ih =>
      intro base t ht
      rw [List.foldl_cons]
      dsimp only
      refine ih base _ ⟨?_, ht.2.1, ht.2.2.1, ht.2.2.2.1, ht.2.2.2.2.1,
        by simp [SpazioComportamentale.setN, ht.2.2.2.2.2.1], ht.2.2.2.2.2.2⟩
      intro j
      by_cases hj : j = nid
      · subst hj
        by_cases hrange : j < t.heapN.length
        · rw [getNSetStesso t j _ hrange, ht.1 j]
        · rw [setNFuori t j _ hrange]
          exact ht.1 j
      · rw [getNSetAltro t nid j _ hj]
        exact ht.1 j

/-- Characterisation of `potaturaArchi`: it filters the flagged edges out
of the edge list and out of the adjacency lists, and changes nothing
else. -/
theorem potaturaArchiSpec (s : SpazioComportamentale) :
    (∀ i, (potaturaArchi s).getN i
      = { s.getN i with archiUscenti := ((potaturaArchi s).getN i).archiUscenti }) ∧
    (∀ e, (potaturaArchi s).getA e = s.getA e) ∧
    (potaturaArchi s).nodi = s.nodi ∧
    (potaturaArchi s).archi = s.archi.filter (fun e => !(s.getA e).isPotato) ∧
    (potaturaArchi s).nodoIniziale = s.nodoIniziale ∧
    (potaturaArchi s).heapN.length = s.heapN.length ∧
    (potaturaArchi s).heapA.length = s.heapA.length := by
  have h := foldAdiacenza
    ({ s with archi := s.archi.filter (fun e => !(s.getA e).isPotato) }
      : SpazioComportamentale).nodi
    { s with archi := s.archi.filter (fun e => !(s.getA e).isPotato) }
    { s with archi := s.archi.filter (fun e => !(s.getA e).isPotato) }
    ⟨fun _ => rfl, fun _ => rfl, rfl, rfl, rfl, rfl, rfl⟩
  exact ⟨h.1, h.2.1, h.2.2.1, h.2.2.2.1, h.2.2.2.2.1, h.2.2.2.2.2.1, h.2.2.2.2.2.2⟩

/-- Characterisation of `potatura` relative to a decided space in which
every edge incident to a flagged listed node is already flagged: it
filters the node and edge lists by the flags and touches nothing but
adjacency lists. -/
theorem potaturaSpecAux (scd sc1 : SpazioComportamentale)
    (hpt : PuntualmenteUguale scd sc1) :
    (potaturaArchi { sc1 with
        nodi := sc1.nodi.filter (fun nid => !(sc1.getN nid).isPotato) }).nodi
      = scd.nodi.filter (fun v => !(scd.getN v).isPotato) ∧
    (potaturaArchi { sc1 with
        nodi := sc1.nodi.filter (fun nid => !(sc1.getN nid).isPotato) }).archi
      = scd.archi.filter (fun e => !(scd.getA e).isPotato) ∧
    (∀ i, (potaturaArchi { sc1 with
        nodi := sc1.nodi.filter (fun nid => !(sc1.getN nid).isPotato) }).getN i
      = { scd.getN i with archiUscenti := ((potaturaArchi { sc1 with
            nodi := sc1.nodi.filter (fun nid => !(sc1.getN nid).isPotato) }).getN
              i).archiUscenti }) ∧
    (∀ e, (potaturaArchi { sc1 with
        nodi := sc1.nodi.filter (fun nid => !(sc1.getN nid).isPotato) }).getA e
      = scd.getA e) ∧
    (potaturaArchi { sc1 with
        nodi := sc1.nodi.filter (fun nid => !(sc1.getN nid).isPotato) }).nodoIniziale
      = scd.nodoIniziale ∧
    (potaturaArchi { sc1 with
        nodi := sc1.nodi.filter (fun nid => !(sc1.getN nid).isPotato) }).heapN.length
      = scd.heapN.length ∧
    (potaturaArchi { sc1 with
        nodi := sc1.nodi.filter (fun nid => !(sc1.getN nid).isPotato) }).heapA.length
      = scd.heapA.length := by
  obtain ⟨p1, p2, p3, p4, p5, p6, p7⟩ := potaturaArchiSpec
    { sc1 with nodi := sc1.nodi.filter (fun nid => !(sc1.getN nid).isPotato) }
  refine ⟨?_, ?_, ?_, ?_, ?_, ?_, ?_⟩
  · rw [p3]
    show sc1.nodi.filter (fun nid => !(sc1.getN nid).isPotato) = _
    rw [hpt.2.2.1]
    exact List.filter_congr (fun x _ => by rw [hpt.1 x])
  · rw [p4]
    show sc1.archi.filter (fun e => !(sc1.getA e).isPotato) = _
    rw [hpt.2.2.2.1]
    exact List.filter_congr (fun x _ => by rw [hpt.2.1 x])
  · intro i
    have h1 : (potaturaArchi { sc1 with
        nodi := sc1.nodi.filter (fun nid => !(sc1.getN nid).isPotato) }).getN i
      = { sc1.getN i with archiUscenti := ((potaturaArchi { sc1 with
            nodi := sc1.nodi.filter (fun nid => !(sc1.getN nid).isPotato) }).getN
              i).archiUscenti } := p1 i
    rw [hpt.1 i] at h1
    exact h1
  · intro e
    have h1 : (potaturaArchi { sc1 with
        nodi := sc1.nodi.filter (fun nid => !(sc1.getN nid).isPotato) }).getA e
      = sc1.getA e := p2 e
    exact h1.trans (hpt.2.1 e)
  · have h1 : (potaturaArchi { sc1 with
        nodi := sc1.nodi.filter (fun nid => !(sc1.getN nid).isPotato) }).nodoIniziale
      = sc1.nodoIniziale := p5
    exact h1.trans hpt.2.2.2.2.1
  · have h1 : (potaturaArchi { sc1 with
        nodi := sc1.nodi.filter (fun nid => !(sc1.getN nid).isPotato) }).heapN.length
      = sc1.heapN.length := p6
    exact h1.trans hpt.2.2.2.2.2.1
  · have h1 : (potaturaArchi { sc1 with
        nodi := sc1.nodi.filter (fun nid => !(sc1.getN nid).isPotato) }).heapA.length
      = sc1.heapA.length := p7
    exact h1.trans hpt.2.2.2.2.2.2

/-- Characterisation of `potatura` under the closure hypothesis delivered
by `decidiPotatura`. -/
theorem potaturaSpec (scd : SpazioComportamentale)
    (hfl : ∀ e ∈ scd.archi, ∀ w ∈ scd.nodi,
      ((scd.getA e).nodo0 = w ∨ (scd.getA e).nodo1 = w) →
      (scd.getN w).isPotato = true → (scd.getA e).isPotato = true) :
    (potatura scd).nodi = scd.nodi.filter (fun v => !(scd.getN v).isPotato) ∧
    (potatura scd).archi = scd.archi.filter (fun e => !(scd.getA e).isPotato) ∧
    (∀ i, (potatura scd).getN i
      = { scd.getN i with archiUscenti := ((potatura scd).getN i).archiUscenti }) ∧
    (∀ e, (potatura scd).getA e = scd.getA e) ∧
    (potatura scd).nodoIniziale = scd.nodoIniziale ∧
    (potatura scd).heapN.length = scd.heapN.length ∧
    (potatura scd).heapA.length = scd.heapA.length := by
  exact potaturaSpecAux scd
    (scd.nodi.foldl
      (fun s nid =>
        if (s.getN nid).isPotato then
          s.archi.foldl
            (fun s2 eid =>
              let a := s2.getA eid
              if a.nodo0 = nid ∨ a.nodo1 = nid then s2.setA eid { a with isPotato := true }
              else s2)
            s
        else s) scd)
    (foldPotaturaNodi scd hfl scd.nodi scd (fun _ hw => hw) (puntualeRefl scd))

/-- The renaming fold of `potaturaRidenominazione`: the i-th listed node
(in a duplicate-free list of in-range references) gets the name
`toString (k + i)`; everything else is untouched. -/
theorem rinominaFoldSpec :
    ∀ (l : List Nat) (s : SpazioComportamentale) (k : Nat),
    l.Nodup → (∀ nid ∈ l, nid < s.heapN.length) →
    (∀ i, ∀ hi : i < l.length,
      (l.foldl
        (fun (acc : SpazioComportamentale × Nat) nid =>
          (acc.1.setN nid { acc.1.getN nid with nome := toString acc.2 }, acc.2 + 1))
        (s, k)).1.getN (l.get ⟨i, hi⟩)
      = { s.getN (l.get ⟨i, hi⟩) with nome := toString (k + i) }) ∧
    (∀ v, v ∉ l →
      (l.foldl
        (fun (acc : SpazioComportamentale × Nat) nid =>
          (acc.1.setN nid { acc.1.getN nid with nome := toString acc.2 }, acc.2 + 1))
        (s, k)).1.getN v = s.getN v) ∧
    (l.foldl
      (fun (acc : SpazioComportamentale × Nat) nid =>
        (acc.1.setN nid { acc.1.getN nid with nome := toString acc.2 }, acc.2 + 1))
      (s, k)).1.heapA = s.heapA ∧
    (l.foldl
      (fun (acc : SpazioComportamentale × Nat) nid =>
        (acc.1.setN nid { acc.1.getN nid with nome := toString acc.2 }, acc.2 + 1))
      (s, k)).1.nodi = s.nodi ∧
    (l.foldl
      (fun (acc : SpazioComportamentale × Nat) nid =>
        (acc.1.setN nid { acc.1.getN nid with nome := toString acc.2 }, acc.2 + 1))
      (s, k)).1.archi = s.archi ∧
    (l.foldl
      (fun (acc : SpazioComportamentale × Nat) nid =>
        (acc.1.setN nid { acc.1.getN nid with nome := toString acc.2 }, acc.2 + 1))
      (s, k)).1.nodoIniziale = s.nodoIniziale ∧
    (l.foldl
      (fun (acc : SpazioComportamentale × Nat) nid =>
        (acc.1.setN nid { acc.1.getN nid with nome := toString acc.2 }, acc.2 + 1))
      (s, k)).1.heapN.length = s.heapN.length := by
  intro l
  induction l with
  | nil =>
      intro s k _ _
      refine ⟨?_, fun v _ => rfl, rfl, rfl, rfl, rfl, rfl⟩
      intro i hi
      exact absurd hi (Nat.not_lt_zero i)
  | cons nid rest ih =>
      intro s k hnd hlen
      obtain ⟨hnotin, hndrest⟩ := List.nodup_cons.mp hnd
      have hnidrange : nid < s.heapN.length := hlen nid (List.mem_cons_self nid rest)
      have hlen' : ∀ w ∈ rest,
          w < (s.setN nid { s.getN nid with nome := toString k }).heapN.length := by
        intro w hw
        have : (s.setN nid { s.getN nid with nome := toString k }).heapN.length
            = s.heapN.length := by
          simp [SpazioComportamentale.setN]
        rw [this]
        exact hlen w (List.mem_cons_of_mem _ hw)
      obtain ⟨i1, i2, i3, i4, i5, i6, i7⟩ :=
        ih (s.setN nid { s.getN nid with nome := toString k }) (k + 1) hndrest hlen'
      rw [List.foldl_cons]
      dsimp only
      refine ⟨?_, ?_, i3, i4, i5, i6, by
        rw [i7]
        simp [SpazioComportamentale.setN]⟩
      · intro i hi
        cases i with
        | zero =>
            have hget0 : (nid :: rest).get ⟨0, hi⟩ = nid := rfl
            rw [hget0, i2 nid hnotin, getNSetStesso s nid _ hnidrange, Nat.add_zero]
        | succ i =>
            have hi' : i < rest.length := Nat.lt_of_succ_lt_succ hi
            have hgets : (nid :: rest).get ⟨i + 1, hi⟩ = rest.get ⟨i, hi'⟩ := rfl
            have hne : rest.get ⟨i, hi'⟩ ≠ nid := by
              intro h
              exact hnotin (h ▸ List.get_mem rest i hi')
            have hstep := i1 i hi'
            rw [getNSetAltro s nid _ _ hne] at hstep
            rw [hgets, show k + (i + 1) = k + 1 + i by omega]
            exact hstep
      · intro v hv
        have hvne : v ≠ nid := fun h => hv (h ▸ List.mem_cons_self nid rest)
        have hvrest : v ∉ rest := fun h => hv (List.mem_cons_of_mem _ h)
        rw [i2 v hvrest, getNSetAltro s nid v _ hvne]

/-- Master characterisation of a successful `potaturaRidenominazione` run:
the surviving nodes are exactly the listed nodes from which an acceptance
node is reachable, the surviving edges exactly the listed edges whose
target reaches acceptance, and the i-th surviving node is renamed
`toString i`. -/
theorem potaturaRidenominazioneSpec (sc res : SpazioComportamentale) (fuel : Nat)
    (hp : SpazioPotabile sc)
    (hrun : potaturaRidenominazione sc fuel = some (Except.ok res)) :
    (∀ v, v ∈ res.nodi ↔ (v ∈ sc.nodi ∧ ArrivaAFinale sc v)) ∧
    (∀ e, e ∈ res.archi ↔ (e ∈ sc.archi ∧ ArrivaAFinale sc (sc.getA e).nodo1)) ∧
    (∀ (i v : Nat), res.nodi[i]? = some v → (res.getN v).nome = toString i) := by
  have hbool : ∀ (b : Bool), ((!b) = true) ↔ b = false := by
    intro b
    cases b <;> simp
  simp only [potaturaRidenominazione] at hrun
  by_cases hguard : (sc.nodi.isEmpty || sc.archi.isEmpty) = true
  · rw [if_pos hguard] at hrun
    injection hrun with h1
    cases h1
  · rw [if_neg hguard] at hrun
    cases hdec : decidiPotatura sc fuel with
    | none =>
        rw [hdec] at hrun
        cases hrun
    | some scd =>
        rw [hdec] at hrun
        dsimp only at hrun
        obtain ⟨hsf, hq, hNiff, hEiff⟩ := decidiPotaturaSpec sc scd fuel hp hdec
        have hfl : ∀ e ∈ scd.archi, ∀ w ∈ scd.nodi,
            ((scd.getA e).nodo0 = w ∨ (scd.getA e).nodo1 = w) →
            (scd.getN w).isPotato = true → (scd.getA e).isPotato = true := by
          intro e he w hw hinc hwpot
          rcases Bool.eq_false_or_eq_true ((scd.getA e).isPotato) with htr | hfa
          · exact htr
          · exfalso
            have hesc : e ∈ sc.archi := by
              rw [← hsf.2.1]
              exact he
            have haf1 : ArrivaAFinale sc (sc.getA e).nodo1 := (hEiff e hesc).mp hfa
            have haf0 : ArrivaAFinale sc (sc.getA e).nodo0 :=
              ArrivaAFinale.passo e hesc (hp.1 e hesc).2.1 haf1
            have hend := soloFlagEstremi sc scd hsf e
            have hwsc : w ∈ sc.nodi := by
              rw [← hsf.1]
              exact hw
            rcases hinc with h0 | h1
            · have hw0 : w = (sc.getA e).nodo0 := h0.symm.trans hend.1
              have haf : ArrivaAFinale sc w := by
                rw [hw0]
                exact haf0
              rw [(hNiff w hwsc).mpr haf] at hwpot
              cases hwpot
            · have hw1 : w = (sc.getA e).nodo1 := h1.symm.trans hend.2
              have haf : ArrivaAFinale sc w := by
                rw [hw1]
                exact haf1
              rw [(hNiff w hwsc).mpr haf] at hwpot
              cases hwpot
        obtain ⟨pnodi, parchi, pgetN, pgetA, piniz, plenN, plenA⟩ := potaturaSpec scd hfl
        have hndscd : scd.nodi.Nodup := by
          rw [hsf.1]
          exact hp.2.2.2
        have hnodup : (potatura scd).nodi.Nodup := by
          rw [pnodi]
          exact hndscd.filter _
        have hranges : ∀ nid ∈ (potatura scd).nodi, nid < (potatura scd).heapN.length := by
          intro nid h
          rw [pnodi] at h
          have hmem : nid ∈ sc.nodi := by
            rw [← hsf.1]
            exact (List.mem_filter.mp h).1
          rw [plenN, hsf.2.2.2.1]
          exact hp.2.1 nid hmem
        obtain ⟨r1, r2, r3A, r4, r5, r6, r7⟩ :=
          rinominaFoldSpec (potatura scd).nodi (potatura scd) 0 hnodup hranges
        have hrinnodi : (rinominaNodi (potatura scd)).nodi = (potatura scd).nodi := r4
        have hrinarchi : (rinominaNodi (potatura scd)).archi = (potatura scd).archi := r5
        by_cases hguard2 : (((rinominaNodi (potatura scd)).nodi.isEmpty
            || (rinominaNodi (potatura scd)).archi.isEmpty) = true)
        · rw [if_pos hguard2] at hrun
          injection hrun with h1
          cases h1
        · rw [if_neg hguard2] at hrun
          injection hrun with h1
          injection h1 with h2
          have hrnodi : res.nodi = (potatura scd).nodi := by
            rw [← h2]
            exact hrinnodi
          have hrarchi : res.archi = (potatura scd).archi := by
            rw [← h2]
            exact hrinarchi
          have hrgetN : ∀ i, res.getN i = (rinominaNodi (potatura scd)).getN i := by
            intro i
            rw [← h2]
            rfl
          refine ⟨?_, ?_, ?_⟩
          · intro v
            rw [hrnodi, pnodi, List.mem_filter, hsf.1]
            constructor
            · rintro ⟨hm, hflag⟩
              exact ⟨hm, (hNiff v hm).mp ((hbool _).mp hflag)⟩
            · rintro ⟨hm, haf⟩
              exact ⟨hm, (hbool _).mpr ((hNiff v hm).mpr haf)⟩
          · intro e
            rw [hrarchi, parchi, List.mem_filter, hsf.2.1]
            constructor
            · rintro ⟨hm, hflag⟩
              exact ⟨hm, (hEiff e hm).mp ((hbool _).mp hflag)⟩
            · rintro ⟨hm, haf⟩
              exact ⟨hm, (hbool _).mpr ((hEiff e hm).mpr haf)⟩
          · intro i v hx
            rw [hrnodi] at hx
            rw [List.getElem?_eq_some] at hx
            obtain ⟨hlt, hv⟩ := hx
            have hgv : (potatura scd).nodi.get ⟨i, hlt⟩ = v := by
              rw [List.get_eq_getElem]
              exact hv
            rw [hrgetN v, ← hgv]
            have hname' : (rinominaNodi (potatura scd)).getN
                ((potatura scd).nodi.get ⟨i, hlt⟩)
                = { (potatura scd).getN ((potatura scd).nodi.get ⟨i, hlt⟩) with
                    nome := toString (0 + i) } := r1 i hlt
            rw [hname']
            show toString (0 + i) = toString i
            rw [Nat.zero_add]

/-- Negated-flag booleans. -/
theorem bnotVero (b : Bool) : ((!b) = true) ↔ b = false := by
  cases b <;> simp

/-- After `decidiPotatura`, every edge incident to a flagged listed node
is itself flagged. -/
theorem chiusuraIncidenza (sc scd : SpazioComportamentale) (hp : SpazioPotabile sc)
    (hsf : SoloFlag sc scd)
    (hNiff : ∀ v ∈ sc.nodi, ((scd.getN v).isPotato = false ↔ ArrivaAFinale sc v))
    (hEiff : ∀ e ∈ sc.archi, ((scd.getA e).isPotato = false ↔
      ArrivaAFinale sc (sc.getA e).nodo1)) :
    ∀ e ∈ scd.archi, ∀ w ∈ scd.nodi,
      ((scd.getA e).nodo0 = w ∨ (scd.getA e).nodo1 = w) →
      (scd.getN w).isPotato = true → (scd.getA e).isPotato = true := by
  intro e he w hw hinc hwpot
  rcases Bool.eq_false_or_eq_true ((scd.getA e).isPotato) with htr | hfa
  · exact htr
  · exfalso
    have hesc : e ∈ sc.archi := by
      rw [← hsf.2.1]
      exact he
    have haf1 : ArrivaAFinale sc (sc.getA e).nodo1 := (hEiff e hesc).mp hfa
    have haf0 : ArrivaAFinale sc (sc.getA e).nodo0 :=
      ArrivaAFinale.passo e hesc (hp.1 e hesc).2.1 haf1
    have hend := soloFlagEstremi sc scd hsf e
    have hwsc : w ∈ sc.nodi := by
      rw [← hsf.1]
      exact hw
    rcases hinc with h0 | h1
    · have hw0 : w = (sc.getA e).nodo0 := h0.symm.trans hend.1
      have haf : ArrivaAFinale sc w := by
        rw [hw0]
        exact haf0
      rw [(hNiff w hwsc).mpr haf] at hwpot
      cases hwpot
    · have hw1 : w = (sc.getA e).nodo1 := h1.symm.trans hend.2
      have haf : ArrivaAFinale sc w := by
        rw [hw1]
        exact haf1
      rw [(hNiff w hwsc).mpr haf] at hwpot
      cases hwpot

/-- The pruned and renamed space keeps exactly the unflagged nodes and
edges of the decided space (as lists). -/
theorem potaturaRinominataListe (sc scd : SpazioComportamentale) (hp : SpazioPotabile sc)
    (hsf : SoloFlag sc scd)
    (hNiff : ∀ v ∈ sc.nodi, ((scd.getN v).isPotato = false ↔ ArrivaAFinale sc v))
    (hEiff : ∀ e ∈ sc.archi, ((scd.getA e).isPotato = false ↔
      ArrivaAFinale sc (sc.getA e).nodo1)) :
    (rinominaNodi (potatura scd)).nodi
      = scd.nodi.filter (fun v => !(scd.getN v).isPotato) ∧
    (rinominaNodi (potatura scd)).archi
      = scd.archi.filter (fun e => !(scd.getA e).isPotato) := by
  have hfl := chiusuraIncidenza sc scd hp hsf hNiff hEiff
  obtain ⟨pnodi, parchi, pgetN, pgetA, piniz, plenN, plenA⟩ := potaturaSpec scd hfl
  have hndscd : scd.nodi.Nodup := by
    rw [hsf.1]
    exact hp.2.2.2
  have hnodup : (potatura scd).nodi.Nodup := by
    rw [pnodi]
    exact hndscd.filter _
  have hranges : ∀ nid ∈ (potatura scd).nodi, nid < (potatura scd).heapN.length := by
    intro nid h
    rw [pnodi] at h
    have hmem : nid ∈ sc.nodi := by
      rw [← hsf.1]
      exact (List.mem_filter.mp h).1
    rw [plenN, hsf.2.2.2.1]
    exact hp.2.1 nid hmem
  obtain ⟨r1, r2, r3A, r4, r5, r6, r7⟩ :=
    rinominaFoldSpec (potatura scd).nodi (potatura scd) 0 hnodup hranges
  constructor
  · exact (show (rinominaNodi (potatura scd)).nodi = (potatura scd).nodi from r4).trans pnodi
  · exact (show (rinominaNodi (potatura scd)).archi
      = (potatura scd).archi from r5).trans parchi

/-- Claim C7 (corrected): on a space with the builders' structural
invariants, a pruning run that terminates raises the `EmptySpace` error
exactly when the node list or the edge list is empty on entry — hence also
on a non-empty space whose edge list is empty — or when pruning empties
one of the two lists, i.e. when no listed node, or no listed edge target,
reaches an acceptance node; in every other case the run returns the pruned
space without error. -/
theorem c7_vuoto_caratterizzato (sc : SpazioComportamentale) (fuel : Nat)
    (r : Except Unit SpazioComportamentale) (hp : SpazioPotabile sc)
    (hrun : potaturaRidenominazione sc fuel = some r) :
    r = Except.error () ↔
      (sc.nodi = [] ∨ sc.archi = [] ∨
        (∀ v ∈ sc.nodi, ¬ ArrivaAFinale sc v) ∨
        (∀ e ∈ sc.archi, ¬ ArrivaAFinale sc (sc.getA e).nodo1)) := by
  simp only [potaturaRidenominazione] at hrun
  by_cases hguard : (sc.nodi.isEmpty || sc.archi.isEmpty) = true
  · rw [if_pos hguard] at hrun
    injection hrun with h1
    constructor
    · intro _
      rw [Bool.or_eq_true] at hguard
      rcases hguard with hnil | hnil
      · exact Or.inl (List.isEmpty_iff.mp hnil)
      · exact Or.inr (Or.inl (List.isEmpty_iff.mp hnil))
    · intro _
      exact h1.symm
  · have hTne : sc.nodi ≠ [] := by
      intro h
      apply hguard
      rw [h]
      rfl
    have hAne : sc.archi ≠ [] := by
      intro h
      apply hguard
      rw [h]
      simp
    rw [if_neg hguard] at hrun
    cases hdec : decidiPotatura sc fuel with
    | none =>
        rw [hdec] at hrun
        cases hrun
    | some scd =>
        rw [hdec] at hrun
        dsimp only at hrun
        obtain ⟨hsf, hq, hNiff, hEiff⟩ := decidiPotaturaSpec sc scd fuel hp hdec
        obtain ⟨hplnodi, hplarchi⟩ := potaturaRinominataListe sc scd hp hsf hNiff hEiff
        by_cases hguard2 : (((rinominaNodi (potatura scd)).nodi.isEmpty
            || (rinominaNodi (potatura scd)).archi.isEmpty) = true)
        · rw [if_pos hguard2] at hrun
          injection hrun with h1
          constructor
          · intro _
            rw [Bool.or_eq_true] at hguard2
            rcases hguard2 with hnil | hnil
            · rw [List.isEmpty_iff, hplnodi, List.filter_eq_nil_iff] at hnil
              refine Or.inr (Or.inr (Or.inl ?_))
              intro v hv haf
              have hvscd : v ∈ scd.nodi := by
                rw [hsf.1]
                exact hv
              apply hnil v hvscd
              show (!(scd.getN v).isPotato) = true
              rw [(hNiff v hv).mpr haf]
              rfl
            · rw [List.isEmpty_iff, hplarchi, List.filter_eq_nil_iff] at hnil
              refine Or.inr (Or.inr (Or.inr ?_))
              intro e he haf
              have hescd : e ∈ scd.archi := by
                rw [hsf.2.1]
                exact he
              apply hnil e hescd
              show (!(scd.getA e).isPotato) = true
              rw [(hEiff e he).mpr haf]
              rfl
          · intro _
            exact h1.symm
        · rw [if_neg hguard2] at hrun
          injection hrun with h1
          constructor
          · intro hr
            rw [← h1] at hr
            cases hr
          · intro hrhs
            exfalso
            apply hguard2
            rw [Bool.or_eq_true]
            rcases hrhs with hnil | hnil | hall | hall
            · exact absurd hnil hTne
            · exact absurd hnil hAne
            · refine Or.inl ?_
              rw [List.isEmpty_iff, hplnodi, List.filter_eq_nil_iff]
              intro v hvscd hb
              have hv : v ∈ sc.nodi := by
                rw [← hsf.1]
                exact hvscd
              exact hall v hv ((hNiff v hv).mp ((bnotVero _).mp hb))
            · refine Or.inr ?_
              rw [List.isEmpty_iff, hplarchi, List.filter_eq_nil_iff]
              intro e hescd hb
              have he : e ∈ sc.archi := by
                rw [← hsf.2.1]
                exact hescd
              exact hall e he ((hEiff e he).mp ((bnotVero _).mp hb))

/-- Claim C2 (corrected): on every space with the builders' structural
invariants on which `potaturaRidenominazione` succeeds, the surviving
nodes are exactly the nodes from which an acceptance node is reachable
(reachability from the initial node is not required, contrary to the
original claim), the surviving edges exactly the edges whose target
reaches an acceptance node, and the i-th surviving node is renamed with
the consecutive identifier `toString i`. -/
theorem c2_potatura_caratterizzata (sc res : SpazioComportamentale) (fuel : Nat)
    (hp : SpazioPotabile sc)
    (hrun : potaturaRidenominazione sc fuel = some (Except.ok res)) :
    (∀ v, v ∈ res.nodi ↔ (v ∈ sc.nodi ∧ ArrivaAFinale sc v)) ∧
    (∀ e, e ∈ res.archi ↔ (e ∈ sc.archi ∧ ArrivaAFinale sc (sc.getA e).nodo1)) ∧
    (∀ (i v : Nat), res.nodi[i]? = some v → (res.getN v).nome = toString i) :=
  potaturaRidenominazioneSpec sc res fuel hp hrun

/-- In the C2 example space only the nodes 0 and 1 are reachable from the
initial node. -/
theorem raggiungibiliC2 : ∀ v, Raggiungibile spazioEsempioC2 v → v = 0 ∨ v = 1 := by
  intro v h
  induction h with
  | iniziale w hw =>
      left
      have h0 : (some 0 : Option Nat) = some w := hw
      injection h0 with h1
      exact h1.symm
  | passo eid hmem hrag ih =>
      have hm : eid = 0 ∨ eid = 1 := by
        simpa [spazioEsempioC2] using hmem
      rcases hm with h0 | h1
      · subst h0
        right
        decide
      · subst h1
        rcases ih with h | h
        · exact absurd h (by decide)
        · exact absurd h (by decide)

/-- Counterexample to the original claim C2: pruning the example space
keeps node 2 (it reaches the acceptance node 1) although node 2 lies on no
path from the initial node, not being reachable from it. -/
theorem c2_controesempio :
    risultatoPotatura spazioEsempioC2 10
      = some (Except.ok ([0, 1, 2], [0, 1], ["0", "1", "2"])) ∧
    ¬ Raggiungibile spazioEsempioC2 2 :=
  ⟨rfl, fun h => absurd (raggiungibiliC2 2 h) (by decide)⟩

/-- Witness for the corrected claim C2 on the example space. -/
theorem c2_witness :
    SpazioPotabile spazioEsempioC2 ∧
    potaturaRidenominazione spazioEsempioC2 10 = some (Except.ok spazioC2Potato) ∧
    (∀ v, v ∈ spazioC2Potato.nodi ↔
      (v ∈ spazioEsempioC2.nodi ∧ ArrivaAFinale spazioEsempioC2 v)) ∧
    (∀ (i v : Nat), spazioC2Potato.nodi[i]? = some v →
      (spazioC2Potato.getN v).nome = toString i) := by
  have hp : SpazioPotabile spazioEsempioC2 := by
    unfold SpazioPotabile ArchiConEstremi NodiDistinti
    exact ⟨by decide, by decide, by decide, by decide⟩
  have hrun : potaturaRidenominazione spazioEsempioC2 10
      = some (Except.ok spazioC2Potato) := rfl
  exact ⟨hp, hrun,
    (c2_potatura_caratterizzata spazioEsempioC2 spazioC2Potato 10 hp hrun).1,
    (c2_potatura_caratterizzata spazioEsempioC2 spazioC2Potato 10 hp hrun).2.2⟩

/-- Counterexample to the original claim C7: the single-node space with an
acceptance node and no edges is non-empty, and its only node reaches
acceptance (so the pruned space of the claim is non-empty too), yet the
pruner raises `EmptySpace` because the edge list is empty. -/
theorem c7_controesempio :
    risultatoPotatura spazioEsempioC7 10 = some (Except.error ()) ∧
    spazioEsempioC7.nodi ≠ [] ∧
    ArrivaAFinale spazioEsempioC7 0 :=
  ⟨rfl, by decide, ArrivaAFinale.qui 0 (by decide) (by decide)⟩

/-- Witness for the corrected claim C7 on the single-node space. -/
theorem c7_witness :
    SpazioPotabile spazioEsempioC7 ∧
    potaturaRidenominazione spazioEsempioC7 10 = some (Except.error ()) ∧
    (spazioEsempioC7.nodi = [] ∨ spazioEsempioC7.archi = [] ∨
      (∀ v ∈ spazioEsempioC7.nodi, ¬ ArrivaAFinale spazioEsempioC7 v) ∨
      (∀ e ∈ spazioEsempioC7.archi,
        ¬ ArrivaAFinale spazioEsempioC7 (spazioEsempioC7.getA e).nodo1)) := by
  have hp : SpazioPotabile spazioEsempioC7 := by
    unfold SpazioPotabile ArchiConEstremi NodiDistinti
    exact ⟨by decide, by decide, by decide, by decide⟩
  have hrun : potaturaRidenominazione spazioEsempioC7 10 = some (Except.error ()) := rfl
  exact ⟨hp, hrun,
    (c7_vuoto_caratterizzato spazioEsempioC7 10 (Except.error ()) hp hrun).mp rfl⟩

/-- Claim C4: the code seeds the diagnosis fold with the empty string, so
on a closure whose only BS-accepting acceptance node 1 carries the
decoration "p" the computed diagnosis is "ε|p" — the alternation of a
spurious ε with the decorations — which differs (as a set of top-level
alternatives with "" read as ε) from the claimed alternation "p" of the
decorations alone. -/
theorem c4_diagnosi_epsilon_spuria :
    diagnosiChiusura spazioEsempioC4 0 10 10 = some (some "ε|p") ∧
    decorazioniChiusura spazioEsempioC4 0 10 10 = some [(1, "p")] ∧
    (spazioEsempioC4.getN 1).isFinale = true ∧
    alternativeNormalizzate "ε|p" ≠ alternativeNormalizzate "p" :=
  ⟨rfl, rfl, rfl, by decide⟩

/-- Claim C5: the diagnoser builder computes the relevance of a new edge
with plain string concatenation `a1.rilevanza + decorazione`, not with the
regex concatenation `concatenaRilevanza` that distributes over top-level
alternatives: with decoration "p" on the exit node and edge relevance
"a|b" it produces "a|bp", while the claimed label is
`concatenaRilevanza "a|b" "p" = "ap|bp"`, and the two differ as regexes. -/
theorem c5_rilevanza_concatenazione :
    rilevanzeDiagnosticatore spazioEsempioC5 20 20 = some ["a|bp"] ∧
    concatenaRilevanza "a|b" "p" = "ap|bp" ∧
    alternativeNormalizzate "a|bp" ≠ alternativeNormalizzate "ap|bp" :=
  ⟨rfl, rfl, by decide⟩

/-- Claim C3: on the pruned behavioral space `spazioPotatoC3` — a genuine
output of the pruner on a space satisfying the structural hypotheses, in
which the initial node was pruned away — the reduction loop terminates,
but the intermediate-node elimination (applied to the in-degree-zero node
carrying the self-loop and the only other edge) empties the edge list
entirely, so no "single remaining edge" exists and the extractor, instead
of returning its relevance label, fails on the lookup of the first edge
(an uncaught `IndexError` in the source, `none` in this model with ample
fuel on both counters). -/
theorem c3_perdita_arco_unico :
    SpazioPotabile spazioPreC3 ∧
    potaturaRidenominazione spazioPreC3 10 = some (Except.ok spazioPotatoC3) ∧
    spazioPotatoC3.archi = [0, 1] ∧
    archiDopoRiduzione spazioPotatoC3 20 20 = some (some []) ∧
    espressioneRegolare spazioPotatoC3 20 20 = none :=
  ⟨by unfold SpazioPotabile ArchiConEstremi NodiDistinti
      exact ⟨by decide, by decide, by decide, by decide⟩,
   rfl, rfl, rfl, rfl⟩

end Retefa
